import Mathlib

/-! Kismatic provisioning: topology planner and DigitalOcean orchestrator.

A shallow embedding of

* `pkg/provision/vagrant/infrastructure.go` (`NewInfrastructure`, `appendNode`,
  `nextNodeIP`, `nodesByType`) and `planfile.go` (the accessors of `Plan`),
* `pkg/provision/digitalocean/{client,provision}.go` (`ProvisionNodes` and the
  client calls it makes, `TerminateNodes`, `WaitForSSH`, `dropletToNode`), and
* `pkg/provision/digitalocean/digitalocean.go` (`makeInfra`, `makePlan`,
  `generateAlphaNumericPassword`),

followed by the properties proved about them.

Conventions. Go's `uint16`/`uint32` values are natural numbers, reduced modulo
`2 ^ 16` where the source can overflow. A Go `(value, error)` result is a pair
whose second component is `Option Error` (`none` is `nil`). A method with a
pointer receiver returns the updated receiver as well. A loop without a bound of
its own takes a bound on its rounds, and its result says when the bound was used up.
-/

set_option autoImplicit false

namespace Vagrant

/-! ## Data model (`infrastructure.go`, lines 13-55) -/

/-- A `NodeType` is a `uint32` bit set of roles. -/
abbrev NodeType := Nat

/-- Role bit `1 << 0`. -/
def etcd : NodeType := 1
/-- Role bit `1 << 1`. -/
def master : NodeType := 2
/-- Role bit `1 << 2`. -/
def worker : NodeType := 4
/-- Role bit `1 << 3`. -/
def ingress : NodeType := 8

/-- The fixed role order the wave loop walks. -/
def nodeTypes : List NodeType := [etcd, master, worker, ingress]

/-- The map `nodeTypeStrings`; a key that is absent reads as the empty string. -/
def nodeTypeStrings (t : NodeType) : String :=
  if t = etcd then "etcd"
  else if t = master then "master"
  else if t = worker then "worker"
  else if t = ingress then "ingress"
  else ""

/-- The errors `NewInfrastructure` can hand back. -/
inductive Error
  /-- The text was rejected by `net.ParseCIDR`. -/
  | invalidCIDR
  /-- The `util` helpers were given an address that is not IPv4. -/
  | notIPv4
  /-- The error `infrastructure: ip address overflowed available cidr range`. -/
  | overflow
  deriving DecidableEq, Repr

/-- The text of `opts.NodeCIDR` as `net.ParseCIDR` reads it: `a.b.c.d/ones` with
`addr` the value of the dotted quad, an IPv6 network, or text that is no CIDR. -/
inductive CIDR
  | v4 (addr ones : Nat)
  | v6 (addr ones : Nat)
  | malformed
  deriving DecidableEq, Repr

/-- Go's `net.IPNet`: the masked address, the number of leading ones of the mask and
the address length in bits (32 or 128). -/
structure IPNet where
  IP : Nat
  ones : Nat
  bits : Nat
  deriving DecidableEq, Repr

/-- Number of addresses of a network: `2 ^ (bits - ones)`. -/
def IPNet.size (n : IPNet) : Nat := 2 ^ (n.bits - n.ones)

/-- Go's `net.ParseCIDR`, second result: the network with the host bits cleared.
Out-of-range components are a parse error. -/
def ParseCIDR : CIDR → Except Error IPNet
  | .v4 addr ones =>
    if addr < 2 ^ 32 ∧ ones ≤ 32 then
      .ok { IP := addr / 2 ^ (32 - ones) * 2 ^ (32 - ones), ones := ones, bits := 32 }
    else .error .invalidCIDR
  | .v6 addr ones =>
    if addr < 2 ^ 128 ∧ ones ≤ 128 then
      .ok { IP := addr / 2 ^ (128 - ones) * 2 ^ (128 - ones), ones := ones, bits := 128 }
    else .error .invalidCIDR
  | .malformed => .error .invalidCIDR

/-- Go's `(*net.IPNet).Contains` for an IPv4 address: the address and the network
agree on the bits the mask keeps. -/
def IPNet.Contains (n : IPNet) (ip : Nat) : Bool :=
  n.bits = 32 && ip / n.size = n.IP / n.size

/-- Modelled from the spec: `util.BroadcastIPv4` is not among the sources. The spec
calls its result the broadcast address of the network and the caller's comment
"assumes broadcast address is last host in CIDR range": the last address of an IPv4
network, an error for any other network. -/
def BroadcastIPv4 (n : IPNet) : Except Error Nat :=
  if n.bits = 32 then .ok (n.IP + n.size - 1) else .error .notIPv4

/-- Modelled from the spec: `util.IncrementIPv4` is not among the sources. The spec
says each allocation "increments" the address: the next 32-bit address, the four
bytes wrapping around after 255.255.255.255. -/
def IncrementIPv4 (ip : Nat) : Except Error Nat :=
  .ok ((ip + 1) % 2 ^ 32)

/-- Decimal digits of a number, most significant first (`%d`). -/
def decimal (n : Nat) : List Char := Nat.toDigits 10 n

/-- The verb `%03d` of `fmt.Sprintf`: the decimal digits, padded on the left with
zeros up to a width of three. -/
def fmt03d (n : Nat) : String :=
  String.mk (List.replicate (3 - (decimal n).length) '0' ++ decimal n)

structure InfrastructureOpts where
  /-- The map `Count`; a role that is absent reads as zero. -/
  Count : NodeType → Nat
  OverlapRoles : Bool
  NodeCIDR : CIDR
  Redhat : Bool := false
  PrivateSSHKeyPath : String := ""
  Vagrantfile : String := ""
  Storage : Bool := false

structure NodeDetails where
  Name : String
  IP : Nat
  Types : NodeType
  deriving DecidableEq, Repr

structure Infrastructure where
  Network : IPNet
  Broadcast : Nat
  Nodes : List NodeDetails
  DNSReflector : String := ""
  PrivateSSHKeyPath : String := ""
  PublicSSHKeyPath : String := ""
  deriving DecidableEq, Repr

/-! ## Address allocation (`infrastructure.go`, lines 145-193) -/

/-- The method `nextNodeIP`: from the network address the first allocation steps twice (once
over the gateway), a later one steps once from the last node. On overflow the Go
function also hands back the rejected address; `appendNode`, its only caller, drops
it, so the embedding returns the error alone. -/
def Infrastructure.nextNodeIP (i : Infrastructure) : Except Error Nat :=
  let start : Except Error Nat :=
    match i.Nodes.getLast? with
    | none => IncrementIPv4 i.Network.IP
    | some lastNode => .ok lastNode.IP
  match start with
  | .error err => .error err
  | .ok ip0 =>
    match IncrementIPv4 ip0 with
    | .error err => .error err
    | .ok ip =>
      if !i.Network.Contains ip || i.Broadcast == ip then .error .overflow
      else .ok ip

/-- The method `appendNode`: allocate the next address and append the node; on an allocation
error the node list is left as it was. -/
def Infrastructure.appendNode (i : Infrastructure) (nodeIndex : Nat) (name : String)
    (types : NodeType) : Infrastructure × Option NodeDetails × Option Error :=
  match i.nextNodeIP with
  | .error err => (i, none, some err)
  | .ok ip =>
    let node : NodeDetails := { Name := name ++ fmt03d nodeIndex, IP := ip, Types := types }
    ({ i with Nodes := i.Nodes ++ [node] }, some node, none)

/-! ## The wave loop (`infrastructure.go`, lines 57-109) -/

/-- The inner `for _, nodeType := range nodeTypes` of wave `j`, over the roles still to
visit. An allocation error leaves the function at once (`.error`). -/
def roleLoop (opts : InfrastructureOpts) (j : Nat) :
    List NodeType → Infrastructure → NodeType → Bool →
      Except (Infrastructure × Error) (Infrastructure × NodeType × Bool)
  | [], i, overlapTypes, finished => .ok (i, overlapTypes, finished)
  | nodeType :: rest, i, overlapTypes, finished =>
    if j ≤ opts.Count nodeType then
      if opts.OverlapRoles then
        roleLoop opts j rest i (overlapTypes ||| nodeType) false
      else
        match i.appendNode j (nodeTypeStrings nodeType) nodeType with
        | (i', _, some err) => .error (i', err)
        | (i', _, none) => roleLoop opts j rest i' overlapTypes false
    else roleLoop opts j rest i overlapTypes finished

/-- The outer `for j := uint16(1); ; j++`, with a bound on the number of waves:
`none` when the bound is used up before the loop is left. -/
def waveLoop (opts : InfrastructureOpts) :
    Nat → Nat → Infrastructure → Option (Infrastructure × Option Error)
  | 0, _, _ => none
  | fuel + 1, j, i =>
    match roleLoop opts j nodeTypes i 0 true with
    | .error (i', err) => some (i', some err)
    | .ok (i', overlapTypes, finished) =>
      match (if overlapTypes > 0 then i'.appendNode j "node" overlapTypes
             else (i', none, none)) with
      | (i'', _, some err) => some (i'', some err)
      | (i'', _, none) =>
        if finished then some (i'', none)
        else waveLoop opts fuel ((j + 1) % 65536) i''

/-- Bound on the number of waves: there are only `2 ^ 32` IPv4 addresses. -/
def waveFuel : Nat := 2 ^ 32

/-- The function `NewInfrastructure`. The outer `some` says that the wave loop was left within
`waveFuel` waves; inside it are the two results of the Go function: the
infrastructure (`none` for `nil`) and the error. -/
def NewInfrastructure (opts : InfrastructureOpts) :
    Option (Option Infrastructure × Option Error) :=
  match ParseCIDR opts.NodeCIDR with
  | .error err => some (none, some err)
  | .ok network =>
    match BroadcastIPv4 network with
    | .error err => some (none, some err)
    | .ok broadcast =>
      let i : Infrastructure := { Network := network, Broadcast := broadcast, Nodes := [] }
      match waveLoop opts waveFuel 1 i with
      | none => none
      | some (i', err) => some (some i', err)

/-- The method `nodesByType`: the nodes that carry the role bit, in topology order. -/
def Infrastructure.nodesByType (i : Infrastructure) (nodeType : NodeType) :
    List NodeDetails :=
  i.Nodes.filter (fun node => node.Types &&& nodeType > 0)

/-! ## Specification side: the requests of a wave -/

/-- A request for one node: wave index, base name, role set. -/
abbrev Request := Nat × String × NodeType

/-- Serve the requests in order, up to the first allocation error. -/
def appendAll : Infrastructure → List Request → Infrastructure × Option Error
  | i, [] => (i, none)
  | i, (j, name, types) :: rest =>
    match i.appendNode j name types with
    | (i', _, some err) => (i', some err)
    | (i', _, none) => appendAll i' rest

/-- Some role among `ts` still wants a node in wave `j`. -/
def qualifiesIn (opts : InfrastructureOpts) (j : Nat) (ts : List NodeType) : Bool :=
  ts.any (fun t => decide (j ≤ opts.Count t))

/-- Some role wants a node in wave `j`. -/
def qualifies (opts : InfrastructureOpts) (j : Nat) : Bool := qualifiesIn opts j nodeTypes

/-- The union of the bits of the roles among `ts` whose count reaches `j`, on top of `acc`. -/
def overlapUnion (opts : InfrastructureOpts) (j : Nat) : List NodeType → NodeType → NodeType
  | [], acc => acc
  | t :: rest, acc => overlapUnion opts j rest (if j ≤ opts.Count t then acc ||| t else acc)

/-- One dedicated node for every role among `ts` whose count reaches `j`. -/
def dedicated (opts : InfrastructureOpts) (j : Nat) (ts : List NodeType) : List Request :=
  (ts.filter (fun t => decide (j ≤ opts.Count t))).map (fun t => (j, nodeTypeStrings t, t))

/-- The nodes wave `j` asks for: one per qualifying role, or in overlap mode one
node named `node` that carries the union of the qualifying roles. -/
def waveRequests (opts : InfrastructureOpts) (j : Nat) : List Request :=
  if opts.OverlapRoles then
    (if overlapUnion opts j nodeTypes 0 > 0 then [(j, "node", overlapUnion opts j nodeTypes 0)]
     else [])
  else dedicated opts j nodeTypes

/-- The wave after `j`: `j++` on a `uint16`. -/
def nextWave (j : Nat) : Nat := (j + 1) % 65536

/-- The requests of `n` consecutive waves from wave `j` on. -/
def requestsFrom (opts : InfrastructureOpts) : Nat → Nat → List Request
  | 0, _ => []
  | n + 1, j => waveRequests opts j ++ requestsFrom opts n (nextWave j)

/-- Each of the `n` consecutive waves from `j` on has a qualifying role. -/
def allQualify (opts : InfrastructureOpts) : Nat → Nat → Bool
  | 0, _ => true
  | n + 1, j => qualifies opts j && allQualify opts n (nextWave j)

/-- The wave reached `n` waves after `j`. -/
def waveAfter : Nat → Nat → Nat
  | 0, j => j
  | n + 1, j => waveAfter n (nextWave j)

/-- Give the requests consecutive addresses from `ip` on. -/
def place : Nat → List Request → List NodeDetails
  | _, [] => []
  | ip, (j, name, types) :: rest =>
    { Name := name ++ fmt03d j, IP := ip, Types := types } :: place (ip + 1) rest

/-- The largest of the four counts. -/
def maxCount (opts : InfrastructureOpts) : Nat :=
  max (max (opts.Count etcd) (opts.Count master)) (max (opts.Count worker) (opts.Count ingress))

/-- The number of nodes the counts ask for: their sum, or in overlap mode their maximum. -/
def nodesWanted (opts : InfrastructureOpts) : Nat :=
  if opts.OverlapRoles then maxCount opts
  else opts.Count etcd + opts.Count master + opts.Count worker + opts.Count ingress

/-- How many of the waves `j`, ..., `j + n - 1` a role with count `c` takes part in. -/
def span (c j n : Nat) : Nat := min (c + 1) (j + n) - min (c + 1) j

/-- The plan of dedicated mode in the words of the spec: for wave `j` = 1, ..., largest
count, one request for each role, in the order etcd, master, worker, ingress, whose
count is at least `j`. -/
def dedicatedPlan (opts : InfrastructureOpts) : List Request :=
  (List.range (maxCount opts)).flatMap (fun k =>
    (nodeTypes.filter (fun t => decide (k + 1 ≤ opts.Count t))).map
      (fun t => (k + 1, nodeTypeStrings t, t)))

/-- The union of the bits of the roles whose count is at least `j`. -/
def roleUnion (opts : InfrastructureOpts) (j : Nat) : NodeType :=
  (if j ≤ opts.Count etcd then etcd else 0) ||| (if j ≤ opts.Count master then master else 0)
    ||| (if j ≤ opts.Count worker then worker else 0)
    ||| (if j ≤ opts.Count ingress then ingress else 0)

/-- The nodes of overlap mode in the words of the spec: one node per wave `j` = 1, ...,
largest count, named `node` and the index, with the union of the roles whose count is at
least `j`, at consecutive addresses from `ip` on. -/
def overlapNodes (opts : InfrastructureOpts) (ip : Nat) : List NodeDetails :=
  (List.range (maxCount opts)).map (fun k =>
    { Name := "node" ++ fmt03d (k + 1), IP := ip + k, Types := roleUnion opts (k + 1) })

/-- The number a string of decimal digits stands for. -/
def decodeDecimal (s : String) : Nat :=
  s.data.foldl (fun acc c => 10 * acc + (c.toNat - 48)) 0

/-! ## The invariant of the wave loop -/

/-- The node addresses of a network: those strictly between gateway and broadcast. -/
def IPNet.capacity (n : IPNet) : Nat := n.size - 3

/-- What holds of every infrastructure the wave loop works on: an IPv4 network with the
host bits cleared, its last address as broadcast, and the `k`-th node at network + 2 + `k`. -/
structure Good (i : Infrastructure) : Prop where
  bits : i.Network.bits = 32
  aligned : i.Network.IP % i.Network.size = 0
  top : i.Network.IP + i.Network.size ≤ 2 ^ 32
  bcast : i.Broadcast = i.Network.IP + i.Network.size - 1
  ips : ∀ (k : Nat) (node : NodeDetails), i.Nodes[k]? = some node → node.IP = i.Network.IP + 2 + k
  room : i.Nodes.length ≤ i.Network.capacity

/-- The network `net.ParseCIDR` reads from `a.b.c.d/ones`. -/
def network4 (addr ones : Nat) : IPNet :=
  { IP := addr / 2 ^ (32 - ones) * 2 ^ (32 - ones), ones := ones, bits := 32 }

/-- The infrastructure `NewInfrastructure` starts the wave loop with. -/
def start4 (addr ones : Nat) : Infrastructure :=
  { Network := network4 addr ones,
    Broadcast := (network4 addr ones).IP + (network4 addr ones).size - 1,
    Nodes := [] }

/-! ## Inputs of the examples -/

/-- The example of the spec: CIDR 192.168.42.0/24 with counts `{etcd: 1}`. -/
def exampleOpts : InfrastructureOpts :=
  { Count := fun t => if t = etcd then 1 else 0, OverlapRoles := false,
    NodeCIDR := .v4 3232246272 24 }

/-- The options `exampleOpts` again, with other flags and a count for a key that is no role. -/
def exampleOptsTwin : InfrastructureOpts :=
  { Count := fun t => if t = etcd then 1 else if t = 16 then 7 else 0, OverlapRoles := false,
    NodeCIDR := .v4 3232246272 24, Redhat := true, Storage := true, Vagrantfile := "Vagrantfile" }

/-- All counts zero, in 192.168.42.0/24. -/
def zeroOpts : InfrastructureOpts :=
  { Count := fun _ => 0, OverlapRoles := false, NodeCIDR := .v4 3232246272 24 }

/-- Counts `{etcd: 2}` in a /30 network, which has one node address. -/
def slash30Opts : InfrastructureOpts :=
  { Count := fun t => if t = etcd then 2 else 0, OverlapRoles := false,
    NodeCIDR := .v4 3232246272 30 }

/-- Counts `{etcd: 1000}` in 10.0.0.0/16. -/
def thousandOpts : InfrastructureOpts :=
  { Count := fun t => if t = etcd then 1000 else 0, OverlapRoles := false,
    NodeCIDR := .v4 167772160 16 }

/-- Counts `{etcd: 65535}`, dedicated nodes, in 10.0.0.0/8, which has 16777213 node
addresses. -/
def maxCountOpts : InfrastructureOpts :=
  { Count := fun t => if t = etcd then 65535 else 0, OverlapRoles := false,
    NodeCIDR := .v4 167772160 8 }

/-- Counts `{etcd: 65535}`, overlap mode, in 10.0.0.0/8. -/
def maxCountOverlapOpts : InfrastructureOpts :=
  { Count := fun t => if t = etcd then 65535 else 0, OverlapRoles := true,
    NodeCIDR := .v4 167772160 8 }

/-- The options of `vagrantCreateMinikubeCmd`: one of each role, overlap mode, in the
network of `addSharedFlags`, 192.168.42.2/24. -/
def minikubeOpts : InfrastructureOpts :=
  { Count := fun t => if t = etcd ∨ t = master ∨ t = worker ∨ t = ingress then 1 else 0,
    OverlapRoles := true, NodeCIDR := .v4 3232246274 24 }

/-! ## The plan file (`planfile.go`) -/

/-- The options of the plan file; `InfrastructureOpts` is embedded. -/
structure PlanOpts extends InfrastructureOpts where
  DisablePackageInstallation : Bool := false
  AutoConfiguredDockerRegistry : Bool := false
  DockerRegistryHost : String := ""
  DockerRegistryPort : Nat := 0
  DockerRegistryCAPath : String := ""
  AdminPassword : String := ""
  PodCIDR : String := ""
  ServiceCIDR : String := ""
  FailSwapOn : Bool := false

/-- The type `Plan`. Its two fields are pointers: `none` is `nil`. -/
structure Plan where
  Opts : Option PlanOpts
  Infrastructure : Option Infrastructure

/-- The method `Plan.Etcd`; `none` is the panic of a `nil` `Infrastructure`. -/
def Plan.Etcd (p : Plan) : Option (List NodeDetails) :=
  p.Infrastructure.map (fun i => i.nodesByType etcd)

/-- The method `Plan.Master`; `none` is the panic of a `nil` `Infrastructure`. -/
def Plan.Master (p : Plan) : Option (List NodeDetails) :=
  p.Infrastructure.map (fun i => i.nodesByType master)

/-- The method `Plan.Worker`; `none` is the panic of a `nil` `Infrastructure`. -/
def Plan.Worker (p : Plan) : Option (List NodeDetails) :=
  p.Infrastructure.map (fun i => i.nodesByType worker)

/-- The method `Plan.Ingress`; `none` is the panic of a `nil` `Infrastructure`. -/
def Plan.Ingress (p : Plan) : Option (List NodeDetails) :=
  p.Infrastructure.map (fun i => i.nodesByType ingress)

/-- The method `Plan.Storage`; `none` is the panic of a `nil` pointer that is read. -/
def Plan.Storage (p : Plan) : Option (List NodeDetails) :=
  match p.Opts with
  | none => none
  | some o =>
    if o.Storage then p.Infrastructure.map (fun i => i.nodesByType worker)
    else some []

/-- Counts `{etcd: 1, master: 1, worker: 2}`, dedicated nodes, in 192.168.42.0/24. -/
def fourNodeOpts : InfrastructureOpts :=
  { Count := fun t => if t = etcd ∨ t = master then 1 else if t = worker then 2 else 0,
    OverlapRoles := false, NodeCIDR := .v4 3232246272 24 }

/-- The topology of `fourNodeOpts`. -/
def fourNodes : Infrastructure :=
  { Network := ⟨3232246272, 24, 32⟩, Broadcast := 3232246527,
    Nodes := [{ Name := "etcd001", IP := 3232246274, Types := etcd },
              { Name := "master001", IP := 3232246275, Types := master },
              { Name := "worker001", IP := 3232246276, Types := worker },
              { Name := "worker002", IP := 3232246277, Types := worker }] }

/-- The plan options with `fourNodeOpts` and the storage flag as given. -/
def fourNodePlanOpts (storage : Bool) : PlanOpts :=
  { fourNodeOpts with Storage := storage }

end Vagrant

namespace DigitalOcean

/-! ## Data model (`client.go`, `provision.go`, `digitalocean.go`) -/

/-- An error value, by its message. -/
abbrev Error := String

/-- What a call to the provider or to the file system comes back with. -/
inductive Reply (α : Type) where
  | ok (value : α)
  | failed (err : Error)
  deriving DecidableEq, Repr

structure Droplet where
  ID : Int := 0
  Name : String := ""
  PrivateIP : String := ""
  PublicIP : String := ""
  SSHUser : String := ""
  deriving DecidableEq, Repr

structure NodeConfig where
  Image : String := ""
  Name : String := ""
  Region : String := ""
  Size : String := ""
  UserData : String := ""
  Keys : List String := []
  Tags : List String := []
  PrivateNetworking : Bool := false
  deriving DecidableEq, Repr

structure KeyConfig where
  ID : Int := 0
  Name : String := ""
  PublicKeyFile : String := ""
  Fingerprint : String := ""
  deriving DecidableEq, Repr

/-- Modelled from the spec: the type `plan.Node` is declared in `pkg/provision/plan`,
which is not among the sources. The spec lists for a provisioned node its provider
identifier, hostname, public address, private address and ssh user; the fields carry the
names under which `dropletToNode` and `makeInfra` access them. -/
structure Node where
  ID : String := ""
  Host : String := ""
  PublicIPv4 : String := ""
  PrivateIPv4 : String := ""
  SSHUser : String := ""
  deriving DecidableEq, Repr

structure DOOpts where
  Token : String := ""
  ClusterTag : String := ""
  EtcdNodeCount : Nat := 0
  MasterNodeCount : Nat := 0
  WorkerNodeCount : Nat := 0
  NoPlan : Bool := false
  InstanceType : String := ""
  WorkerType : String := ""
  Image : String := ""
  Region : String := ""
  Storage : Bool := false
  SSHUser : String := ""
  SSHKeyName : String := ""
  SSHPrivateKey : String := ""
  SSHPublicKey : String := ""
  BootstrapNode : Bool := false
  RemoveKey : Bool := false
  BootstrapFile : String := ""
  deriving DecidableEq, Repr

/-- The counts are `uint16` values. -/
structure NodeCount where
  Etcd : Nat := 0
  Master : Nat := 0
  Worker : Nat := 0
  Boostrap : Nat := 0
  deriving DecidableEq, Repr

structure ProvisionedNodes where
  Etcd : List Node := []
  Master : List Node := []
  Worker : List Node := []
  Boostrap : List Node := []
  deriving DecidableEq, Repr

def SSHKEY : String := "apprenda-key"

/-! ## The provider: the `godo` client and the file system -/

/-- One entry of `godo.Droplet.Networks.V4`. -/
structure NetworkV4 where
  IPAddress : String
  /-- The field `Type`: `public` or `private`. -/
  Type_ : String
  deriving DecidableEq, Repr

/-- The fields of `godo.Droplet` that are read. -/
structure GodoDroplet where
  ID : Int
  Name : String
  V4 : List NetworkV4
  deriving DecidableEq, Repr

/-- The fields of `godo.Key` that are read. -/
structure GodoKey where
  ID : Int
  Name : String
  Fingerprint : String
  deriving DecidableEq, Repr

/-- The request `godo.DropletCreateRequest`; an SSH key is its id and fingerprint. -/
structure DropletCreateRequest where
  Name : String
  Region : String
  Size : String
  Image : String
  UserData : String
  Tags : List String
  SSHKeys : List (Int × String)
  PrivateNetworking : Bool
  deriving DecidableEq, Repr

/-- The behaviour of everything outside the package: each call reads and changes a state
of the outside world and comes back with a reply. Any behaviour is a value of this type. -/
structure Provider (σ : Type) where
  dropletsCreate : σ → DropletCreateRequest → Reply GodoDroplet × σ
  dropletsGet : σ → Int → Reply GodoDroplet × σ
  dropletsDeleteByTag : σ → String → Option Error × σ
  keysList : σ → Reply (List GodoKey) × σ
  keysCreate : σ → String → String → Reply GodoKey × σ
  keysDeleteByFingerprint : σ → String → Option Error × σ
  readFile : σ → String → Reply String × σ
  /-- The function `loadBootCmds`: it reads the script next to the executable and the
  environment, and rewrites the text. -/
  loadBootCmds : σ → String → Reply String × σ

/-- A call that went out of the package, with what came back. -/
inductive Event where
  | dropletsCreate (req : DropletCreateRequest) (reply : Reply GodoDroplet)
  | dropletsGet (id : Int) (reply : Reply GodoDroplet)
  | dropletsDeleteByTag (tag : String) (err : Option Error)
  | keysList (reply : Reply (List GodoKey))
  | keysCreate (name publicKey : String) (reply : Reply GodoKey)
  | keysDeleteByFingerprint (fingerprint : String) (err : Option Error)
  | readFile (path : String) (reply : Reply String)
  deriving DecidableEq, Repr

/-- The state of the outside world and the calls made so far, oldest first. -/
structure World (σ : Type) where
  state : σ
  log : List Event

/-! ## The client (`client.go`)

`getAPIClient` never returns an error, so the branches that handle one are left out. -/

/-- The loop of `Client.GetDroplet` over `Networks.V4`: the last public and the last
private address listed. -/
def readAddresses (nets : List NetworkV4) (drop : Droplet) : Droplet :=
  nets.foldl (fun (drop : Droplet) net =>
    let drop := if net.Type_ = "public" then { drop with PublicIP := net.IPAddress } else drop
    if net.Type_ = "private" then { drop with PrivateIP := net.IPAddress } else drop) drop

/-- The method `Client.GetDroplet`. -/
def GetDroplet {σ : Type} (p : Provider σ) (w : World σ) (_token : String) (dropletID : Int) :
    (Droplet × Option Error) × World σ :=
  match p.dropletsGet w.state dropletID with
  | (.failed errhost, st) =>
    (({}, some errhost),
      { state := st, log := w.log ++ [.dropletsGet dropletID (.failed errhost)] })
  | (.ok newDroplet, st) =>
    ((readAddresses newDroplet.V4 { ID := newDroplet.ID, Name := newDroplet.Name }, none),
      { state := st, log := w.log ++ [.dropletsGet dropletID (.ok newDroplet)] })

/-- The `godo.DropletCreateRequest` that `Client.CreateNode` builds. -/
def createRequest (config : NodeConfig) (keyconfig : KeyConfig) : DropletCreateRequest :=
  { Name := config.Name, Region := config.Region, Size := config.Size, Image := config.Image,
    UserData := config.UserData, Tags := config.Tags,
    SSHKeys := [(keyconfig.ID, keyconfig.Fingerprint)],
    PrivateNetworking := config.PrivateNetworking }

/-- The method `Client.CreateNode`. -/
def CreateNode {σ : Type} (p : Provider σ) (w : World σ) (_token : String)
    (config : NodeConfig) (keyconfig : KeyConfig) : (Droplet × Option Error) × World σ :=
  match p.dropletsCreate w.state (createRequest config keyconfig) with
  | (.failed errhost, st) =>
    (({}, some errhost),
      { state := st,
        log := w.log ++ [.dropletsCreate (createRequest config keyconfig) (.failed errhost)] })
  | (.ok newDroplet, st) =>
    (({ ID := newDroplet.ID, Name := newDroplet.Name }, none),
      { state := st,
        log := w.log ++ [.dropletsCreate (createRequest config keyconfig) (.ok newDroplet)] })

/-- The method `Client.CreateKey`. -/
def CreateKey {σ : Type} (p : Provider σ) (w : World σ) (_token : String) (config : KeyConfig) :
    (KeyConfig × Option Error) × World σ :=
  match p.readFile w.state config.PublicKeyFile with
  | (.failed keyerr, st) =>
    ((config, some keyerr),
      { state := st, log := w.log ++ [.readFile config.PublicKeyFile (.failed keyerr)] })
  | (.ok key, st) =>
    match p.keysCreate st config.Name key with
    | (.failed errreq, st) =>
      ((config, some errreq),
        { state := st,
          log := w.log ++ [.readFile config.PublicKeyFile (.ok key),
                           .keysCreate config.Name key (.failed errreq)] })
    | (.ok keyObj, st) =>
      (({ config with ID := keyObj.ID, Fingerprint := keyObj.Fingerprint }, none),
        { state := st,
          log := w.log ++ [.readFile config.PublicKeyFile (.ok key),
                           .keysCreate config.Name key (.ok keyObj)] })

/-- The method `Client.FindKeyByName`: the first listed key of that name, or the empty
`KeyConfig`. -/
def FindKeyByName {σ : Type} (p : Provider σ) (w : World σ) (_token : String)
    (keyName : String) : (KeyConfig × Option Error) × World σ :=
  match p.keysList w.state with
  | (.failed err, st) =>
    (({}, some err), { state := st, log := w.log ++ [.keysList (.failed err)] })
  | (.ok keys, st) =>
    (((match keys.find? (fun k => k.Name = keyName) with
        | some k => { ID := k.ID, Fingerprint := k.Fingerprint }
        | none => {}), none),
      { state := st, log := w.log ++ [.keysList (.ok keys)] })

/-! ## Provisioning (`provision.go`) -/

/-- The function `dropletToNode`. The conversion `string(drop.ID)` of an `int` gives the
text of the character with that code point, or of U+FFFD when there is no such character. -/
def dropletToNode (drop : Droplet) (opts : DOOpts) : Node :=
  { ID := String.singleton
      (if 0 ≤ drop.ID ∧ drop.ID.toNat.isValidChar then Char.ofNat drop.ID.toNat
       else Char.ofNat 0xFFFD),
    Host := drop.Name,
    PublicIPv4 := drop.PublicIP,
    PrivateIPv4 := drop.PrivateIP,
    SSHUser := opts.SSHUser }

/-- The function `optionsToConfig`. -/
def optionsToConfig (opts : DOOpts) (name sizeOverride userData : String) : NodeConfig :=
  { Image := opts.Image,
    Name := name,
    Region := opts.Region,
    PrivateNetworking := true,
    Size := if sizeOverride ≠ "" then sizeOverride else opts.InstanceType,
    UserData := if userData ≠ "" then userData else "",
    Tags := if opts.ClusterTag ≠ "" then [opts.ClusterTag] else ["apprenda"] }

/-- One of the four loops `for i = 0; i < count; i++` that create the nodes of a phase:
`n` iterations are left, the next index is `i`, `acc` holds the droplets so far. The
configuration of node `i` may read the outside world (the bootstrap script). A failed
`CreateNode` leaves `ProvisionNodes` at once. The index stays below the `uint16` count,
so `i + 1` does not wrap. -/
def createLoop {σ : Type} (p : Provider σ) (token : String) (key : KeyConfig)
    (config : World σ → Nat → NodeConfig × World σ) :
    Nat → Nat → World σ → List Droplet → Reply (List Droplet) × World σ
  | 0, _, w, acc => (.ok acc, w)
  | n + 1, i, w, acc =>
    match CreateNode p (config w i).2 token (config w i).1 key with
    | ((_, some err), w2) => (.failed err, w2)
    | ((drop, none), w2) => createLoop p token key config n (i + 1) w2 (acc ++ [drop])

/-- The method `WaitForIPs`, with a bound on the number of polls. The outer `none` says the
bound was used up with the loop still polling; otherwise the result is the pointer
returned. -/
def WaitForIPs {σ : Type} (p : Provider σ) (opts : DOOpts) :
    Nat → World σ → Droplet → Option (Option Droplet) × World σ
  | 0, w, _ => (none, w)
  | fuel + 1, w, drop =>
    match GetDroplet p w opts.Token drop.ID with
    | ((init, err), w') =>
      if init.PublicIP ≠ "" ∧ err = none then (some (some init), w')
      else WaitForIPs p opts fuel w' drop

/-- One of the four loops that wait for the addresses of a phase, over the droplets the
phase created (there are as many as the count, so the indices below the count walk
them in order); `acc` is the list of `provisioned` the loop appends to. The result is
`none` while a poll is still going on, else the list and the error to return, if any. -/
def waitLoop {σ : Type} (p : Provider σ) (opts : DOOpts) (fuel : Nat) :
    List Droplet → World σ → List Node → Option (List Node × Option Error) × World σ
  | [], w, acc => (some (acc, none), w)
  | d :: rest, w, acc =>
    match WaitForIPs p opts fuel w d with
    | (none, w') => (none, w')
    | (some none, w') => (some (acc, some ("Unable to get IPs from " ++ d.Name)), w')
    | (some (some drop), w') => waitLoop p opts fuel rest w' (acc ++ [dropletToNode drop opts])

/-- The configuration of bootstrap node `i`: the script of `loadBootCmds` when a file is
named; should loading fail, the script is empty. -/
def bootstrapConfig {σ : Type} (p : Provider σ) (opts : DOOpts) (w : World σ) (i : Nat) :
    NodeConfig × World σ :=
  if opts.BootstrapFile ≠ "" then
    match p.loadBootCmds w.state opts.BootstrapFile with
    | (.ok cmd, st) =>
      (optionsToConfig opts ("bootstrap" ++ toString (i + 1)) "" cmd, { w with state := st })
    | (.failed _, st) =>
      (optionsToConfig opts ("bootstrap" ++ toString (i + 1)) "" "", { w with state := st })
  else (optionsToConfig opts ("bootstrap" ++ toString (i + 1)) "" "", w)

/-- The four creation loops of `ProvisionNodes` (lines 131-177), in the order etcd,
master, worker, bootstrap: the droplets of each phase, or the error of the first
`CreateNode` that fails. -/
def createAll {σ : Type} (p : Provider σ) (opts : DOOpts) (nodeCount : NodeCount)
    (key : KeyConfig) (w : World σ) :
    Reply (List Droplet × List Droplet × List Droplet × List Droplet) × World σ :=
  match createLoop p opts.Token key
      (fun w i => (optionsToConfig opts ("etcd" ++ toString (i + 1)) "" "", w))
      nodeCount.Etcd 0 w [] with
  | (.failed err, w) => (.failed err, w)
  | (.ok dropletsETCD, w) =>
  match createLoop p opts.Token key
      (fun w i => (optionsToConfig opts ("master" ++ toString (i + 1)) "" "", w))
      nodeCount.Master 0 w [] with
  | (.failed err, w) => (.failed err, w)
  | (.ok dropletsMaster, w) =>
  match createLoop p opts.Token key
      (fun w i => (optionsToConfig opts ("worker" ++ toString (i + 1)) opts.WorkerType "", w))
      nodeCount.Worker 0 w [] with
  | (.failed err, w) => (.failed err, w)
  | (.ok dropletsWorker, w) =>
  match createLoop p opts.Token key (bootstrapConfig p opts) nodeCount.Boostrap 0 w [] with
  | (.failed err, w) => (.failed err, w)
  | (.ok dropletsBoot, w) => (.ok (dropletsETCD, dropletsMaster, dropletsWorker, dropletsBoot), w)

/-- The four waiting loops of `ProvisionNodes` (lines 179-222), which fill `provisioned`. -/
def waitAll {σ : Type} (p : Provider σ) (opts : DOOpts) (fuel : Nat)
    (droplets : List Droplet × List Droplet × List Droplet × List Droplet)
    (provisioned : ProvisionedNodes) (w : World σ) :
    Option (ProvisionedNodes × Option Error) × World σ :=
  match waitLoop p opts fuel droplets.1 w provisioned.Etcd with
  | (none, w) => (none, w)
  | (some (nodes, some err), w) => (some ({ provisioned with Etcd := nodes }, some err), w)
  | (some (nodes, none), w) =>
  let provisioned := { provisioned with Etcd := nodes }
  match waitLoop p opts fuel droplets.2.1 w provisioned.Master with
  | (none, w) => (none, w)
  | (some (nodes, some err), w) => (some ({ provisioned with Master := nodes }, some err), w)
  | (some (nodes, none), w) =>
  let provisioned := { provisioned with Master := nodes }
  match waitLoop p opts fuel droplets.2.2.1 w provisioned.Worker with
  | (none, w) => (none, w)
  | (some (nodes, some err), w) => (some ({ provisioned with Worker := nodes }, some err), w)
  | (some (nodes, none), w) =>
  let provisioned := { provisioned with Worker := nodes }
  match waitLoop p opts fuel droplets.2.2.2 w provisioned.Boostrap with
  | (none, w) => (none, w)
  | (some (nodes, some err), w) => (some ({ provisioned with Boostrap := nodes }, some err), w)
  | (some (nodes, none), w) => (some ({ provisioned with Boostrap := nodes }, none), w)

/-- The method `doProvisioner.ProvisionNodes`, with the bound `fuel` on the polls of one
`WaitForIPs`. The first component is what the function returns, `none` when a poll was
still going on as the bound was used up; the second is the outside world with the log of
all calls made up to then. -/
def ProvisionNodes {σ : Type} (p : Provider σ) (fuel : Nat) (opts : DOOpts)
    (nodeCount : NodeCount) (w : World σ) :
    Option (ProvisionedNodes × Option Error) × World σ :=
  let provisioned : ProvisionedNodes := {}
  let keyconf : KeyConfig := { Name := SSHKEY, PublicKeyFile := opts.SSHPublicKey }
  match FindKeyByName p w opts.Token keyconf.Name with
  | ((existing, _), w) =>
  match (if existing.Fingerprint ≠ "" then ((existing, none), w)
         else CreateKey p w opts.Token keyconf) with
  | ((_, some errkey), w) => (some (provisioned, some errkey), w)
  | ((key, none), w) =>
  match createAll p opts nodeCount key w with
  | (.failed err, w) => (some (provisioned, some err), w)
  | (.ok droplets, w) => waitAll p opts fuel droplets provisioned w

/-! ## Reading the log -/

/-- A `CreateNode` call that the provider refused. -/
def Event.isFailedCreate : Event → Bool
  | .dropletsCreate _ (.failed _) => true
  | _ => false

/-- A `CreateNode` call that went through. -/
def Event.isCreated : Event → Bool
  | .dropletsCreate _ (.ok _) => true
  | _ => false

/-- A `GetDroplet` poll. -/
def Event.isGet : Event → Bool
  | .dropletsGet _ _ => true
  | _ => false

/-- A delete call, of droplets or of a key. -/
def Event.isDelete : Event → Bool
  | .dropletsDeleteByTag _ _ => true
  | .keysDeleteByFingerprint _ _ => true
  | _ => false

/-- A call that looks up or registers the SSH key. -/
def Event.isKeySetup : Event → Bool
  | .keysList _ => true
  | .readFile _ _ => true
  | .keysCreate _ _ _ => true
  | _ => false

/-- The error of a reply, if it is one. -/
def Reply.error? {α : Type} : Reply α → Option Error
  | .ok _ => none
  | .failed err => some err

/-- The log grew from `before` to `after` by `CreateNode` calls that went through, and
after them by one refused with `failure`, if that is an error. -/
def CreatePhase (before after : List Event) (failure : Option Error) : Prop :=
  ∃ evs, (∀ e, e ∈ evs → e.isCreated = true) ∧
    match failure with
    | none => after = before ++ evs
    | some err => ∃ req, after = before ++ evs ++ [.dropletsCreate req (.failed err)]

/-- The log grew from `before` to `after` by `GetDroplet` polls alone. -/
def PollPhase (before after : List Event) : Prop :=
  ∃ evs, after = before ++ evs ∧ ∀ e, e ∈ evs → e.isGet = true

/-- A provider whose every call goes through, but for the creation of `worker2`. -/
def worker2Fails : Provider Unit where
  dropletsCreate := fun s req =>
    (if req.Name = "worker2" then .failed "quota exceeded" else .ok ⟨1, req.Name, []⟩, s)
  dropletsGet := fun s id => (.ok ⟨id, "node", [⟨"203.0.113.7", "public"⟩]⟩, s)
  dropletsDeleteByTag := fun s _ => (none, s)
  keysList := fun s => (.ok [], s)
  keysCreate := fun s name _ => (.ok ⟨7, name, "aa:bb"⟩, s)
  keysDeleteByFingerprint := fun s _ => (none, s)
  readFile := fun s _ => (.ok "ssh-rsa AAAA", s)
  loadBootCmds := fun s _ => (.ok "", s)

/-- The request for `worker1` that `ProvisionNodes` makes with default options. -/
def worker1Request : DropletCreateRequest :=
  { Name := "worker1", Region := "", Size := "", Image := "", UserData := "",
    Tags := ["apprenda"], SSHKeys := [(7, "aa:bb")], PrivateNetworking := true }

/-- The request for `worker2` that `ProvisionNodes` makes with default options. -/
def worker2Request : DropletCreateRequest :=
  { Name := "worker2", Region := "", Size := "", Image := "", UserData := "",
    Tags := ["apprenda"], SSHKeys := [(7, "aa:bb")], PrivateNetworking := true }

/-- The log of the run in which the second of three worker nodes fails. -/
def worker2FailsLog : List Event :=
  [.keysList (.ok []), .readFile "" (.ok "ssh-rsa AAAA"),
   .keysCreate "apprenda-key" "ssh-rsa AAAA" (.ok ⟨7, "apprenda-key", "aa:bb"⟩),
   .dropletsCreate worker1Request (.ok ⟨1, "worker1", []⟩),
   .dropletsCreate worker2Request (.failed "quota exceeded")]

/-! ## The schedule of a run -/

/-- The method `ProvisionedNodes.allNodes`. -/
def ProvisionedNodes.allNodes (p : ProvisionedNodes) : List Node :=
  [] ++ p.Etcd ++ p.Master ++ p.Worker ++ p.Boostrap

/-- A `CreateNode` call, refused or not. -/
def Event.isCreate : Event → Bool
  | .dropletsCreate _ _ => true
  | _ => false

/-- The names of the nodes that `CreateNode` was called for, in the order of the calls. -/
def createNames (log : List Event) : List String :=
  log.filterMap (fun e => match e with
    | .dropletsCreate req _ => some req.Name
    | _ => none)

/-- The droplets that `CreateNode` returned, in the order of the calls that went through. -/
def createdDroplets (log : List Event) : List Droplet :=
  log.filterMap (fun e => match e with
    | .dropletsCreate _ (.ok g) => some { ID := g.ID, Name := g.Name }
    | _ => none)

/-- A `CreateNode` call, if the event is one, was passed the key `key`. -/
def Event.sentKey (key : KeyConfig) : Event → Prop
  | .dropletsCreate req _ => req.SSHKeys = [(key.ID, key.Fingerprint)]
  | _ => True

/-- The names of the phases in their fixed order: `etcd1`, ..., `master1`, ...,
`worker1`, ..., `bootstrap1`, ..., as many of each as the count says. -/
def expectedNames (nodeCount : NodeCount) : List String :=
  (List.range nodeCount.Etcd).map (fun i => "etcd" ++ toString (i + 1))
    ++ (List.range nodeCount.Master).map (fun i => "master" ++ toString (i + 1))
    ++ (List.range nodeCount.Worker).map (fun i => "worker" ++ toString (i + 1))
    ++ (List.range nodeCount.Boostrap).map (fun i => "bootstrap" ++ toString (i + 1))

/-- The start of `ProvisionNodes` (lines 113-125): the key found under the name
`SSHKEY` when it has a fingerprint, else the result of one `CreateKey` call. -/
def resolveKey {σ : Type} (p : Provider σ) (opts : DOOpts) (w : World σ) :
    (KeyConfig × Option Error) × World σ :=
  match FindKeyByName p w opts.Token SSHKEY with
  | ((existing, _), w) =>
    if existing.Fingerprint ≠ "" then ((existing, none), w)
    else CreateKey p w opts.Token { Name := SSHKEY, PublicKeyFile := opts.SSHPublicKey }

/-- The log grew from `before` to `after` by `CreateNode` calls with the key `key` that went
through and returned the droplets `ds`, and after them by one refused with `failure`, if
that is an error; the names of the calls are `names` in this order, or the start of
`names` when a call was refused. -/
def CreateTrace (key : KeyConfig) (names : List String) (before after : List Event)
    (failure : Option Error) (ds : List Droplet) : Prop :=
  ∃ evs, (∀ e, e ∈ evs → e.isCreated = true ∧ e.sentKey key) ∧ createdDroplets evs = ds ∧
    match failure with
    | none => after = before ++ evs ∧ createNames evs = names
    | some err => ∃ req rest, after = before ++ evs ++ [.dropletsCreate req (.failed err)] ∧
        req.SSHKeys = [(key.ID, key.Fingerprint)] ∧ createNames evs ++ [req.Name] ++ rest = names

/-- A node of `provisioned` comes from the droplet `d` of a `CreateNode` call: some poll
of the id of `d` was answered with a droplet that has a public address, and the node is
that droplet as `dropletToNode` converts it. -/
def PolledFrom (opts : DOOpts) (log : List Event) (d : Droplet) (node : Node) : Prop :=
  ∃ g, Event.dropletsGet d.ID (.ok g) ∈ log ∧
    (readAddresses g.V4 { ID := g.ID, Name := g.Name }).PublicIP ≠ "" ∧
    node = dropletToNode (readAddresses g.V4 { ID := g.ID, Name := g.Name }) opts

/-- A provider whose every call goes through: droplets get the ids 1, 2, ... and the
address 203.0.113.7; no key is registered yet. -/
def allGood : Provider Nat where
  dropletsCreate := fun s req => (.ok ⟨s + 1, req.Name, []⟩, s + 1)
  dropletsGet := fun s id => (.ok ⟨id, "node", [⟨"203.0.113.7", "public"⟩]⟩, s)
  dropletsDeleteByTag := fun s _ => (none, s)
  keysList := fun s => (.ok [], s)
  keysCreate := fun s name _ => (.ok ⟨7, name, "aa:bb"⟩, s)
  keysDeleteByFingerprint := fun s _ => (none, s)
  readFile := fun s _ => (.ok "ssh-rsa AAAA", s)
  loadBootCmds := fun s _ => (.ok "", s)

/-- The request for a node of the given name that `ProvisionNodes` makes with default
options and the key of `allGood`. -/
def plainRequest (name : String) : DropletCreateRequest :=
  { Name := name, Region := "", Size := "", Image := "", UserData := "",
    Tags := ["apprenda"], SSHKeys := [(7, "aa:bb")], PrivateNetworking := true }

/-- The log of the run of `allGood` with one etcd and one master node. -/
def allGoodLog : List Event :=
  [.keysList (.ok []), .readFile "" (.ok "ssh-rsa AAAA"),
   .keysCreate "apprenda-key" "ssh-rsa AAAA" (.ok ⟨7, "apprenda-key", "aa:bb"⟩),
   .dropletsCreate (plainRequest "etcd1") (.ok ⟨1, "etcd1", []⟩),
   .dropletsCreate (plainRequest "master1") (.ok ⟨2, "master1", []⟩),
   .dropletsGet 1 (.ok ⟨1, "node", [⟨"203.0.113.7", "public"⟩]⟩),
   .dropletsGet 2 (.ok ⟨2, "node", [⟨"203.0.113.7", "public"⟩]⟩)]

/-- The read of the public key file that `CreateKey` starts with. -/
def Event.isReadFile : Event → Bool
  | .readFile _ _ => true
  | _ => false

/-- The registration of a key with the provider, the second step of `CreateKey`. -/
def Event.isKeysCreate : Event → Bool
  | .keysCreate _ _ _ => true
  | _ => false

/-! ## The machine the command runs on (`digitalocean.go`) -/

/-- What `os.Stat` comes back with: a `FileInfo` with its `Name()`, an error for which
`os.IsNotExist` holds, or another error; with an error the `FileInfo` is `nil`. -/
inductive Stat where
  | found (name : String)
  | notExist
  | failed
  deriving DecidableEq, Repr

/-- The fields of `garbler.PasswordStrengthRequirements` that are set. -/
structure PasswordStrengthRequirements where
  MinimumTotalLength : Int
  Uppercase : Int
  Digits : Int
  Punctuation : Int
  deriving DecidableEq, Repr

/-- Modelled from the spec: the type `plan.Plan` is declared in `pkg/provision/plan`,
which is not among the sources. The spec lists for the cluster plan the administrative
password, the node lists per role, the reference to the SSH key and the load-balanced
master endpoint; the fields are those that `makeInfra` sets, under their names. -/
structure Plan where
  AdminPassword : String := ""
  Etcd : List Node := []
  Master : List Node := []
  Worker : List Node := []
  Ingress : List Node := []
  Storage : List Node := []
  MasterNodeFQDN : String := ""
  MasterNodeShortName : String := ""
  SSHKeyFile : String := ""
  SSHUser : String := ""
  deriving DecidableEq, Repr

/-- The behaviour of the machine and of the libraries: the environment, the standard
input, the file system, the random source, the password generator, ssh. Like the
provider, each call reads and may change the state of the outside world. -/
structure Machine (σ : Type) where
  /-- The function `os.Getenv`. -/
  getenv : σ → String → String
  /-- The call `reader.ReadString` on the standard input; the callers drop its error. -/
  readLine : σ → String × σ
  /-- The directory of the executable, `filepath.Abs(filepath.Dir(os.Args[0]))`. -/
  execDir : σ → String × Option Error
  /-- The function `filepath.Join` of two elements. -/
  join : String → String → String
  /-- The function `filepath.Abs`; the caller drops its error. -/
  abs : σ → String → String
  /-- The function `os.Stat`. -/
  stat : σ → String → Stat × σ
  /-- The function `os.Create`, by its error. -/
  create : σ → String → Option Error × σ
  /-- The rendering of a string under the verb `%q`. -/
  quote : String → String
  /-- The function `rand.Intn`. -/
  randIntn : σ → Nat → Int × σ
  /-- The function `garbler.NewPassword`. -/
  newPassword : σ → PasswordStrengthRequirements → Reply String × σ
  /-- Modelled from the spec: the function `BlockUntilSSHOpen` is not among the sources.
  By the spec it blocks until an SSH connection attempt to the node succeeds, retrying
  without bound; `none` says that no attempt ever succeeds, so that the call does not
  return. -/
  blockUntilSSHOpen : σ → String → String → String → String → Option σ
  /-- The error of `template.New("planAWSOverlay").Parse(plan.OverlayNetworkPlan)`. -/
  parseTemplate : Option Error
  /-- The call `template.Execute(w, &pln)` on the file of the given name, with the
  `w.Flush()` after it. -/
  execute : σ → String → Plan → Option Error × σ
  /-- Modelled from the spec: the function `scpFile` is not among the sources. It is
  given the path of the plan file, the path on the bootstrap node, the user, the address
  and the key, and comes back with the output of the copy or an error. -/
  scpFile : σ → String → String → String → String → String → Reply String × σ

/-- What a run of the command has done that the properties speak of. -/
inductive Step where
  /-- A call that `ProvisionNodes` made. -/
  | provider (e : Event)
  /-- A call of `BlockUntilSSHOpen` that returned. -/
  | sshOpen (host publicIP sshUser sshKey : String)
  /-- A call of `garbler.NewPassword`, with what came back. -/
  | newPassword (reqs : PasswordStrengthRequirements) (reply : Reply String)
  /-- The call of `makePlan` with this plan. -/
  | makePlan (pln : Plan)
  /-- A call of `scpFile`, with what came back. -/
  | scpFile (src dest user ip key : String) (reply : Reply String)
  deriving DecidableEq, Repr

/-- The state of the outside world and the steps made so far, oldest first. -/
structure Run (σ : Type) where
  state : σ
  steps : List Step

/-- How a function ends: it returns its error value, it panics (index out of range, `nil`
dereference), or it is still running: a bound was used up, or a call never returns. -/
inductive Outcome where
  | returned (err : Option Error)
  | panicked
  | running
  deriving DecidableEq, Repr

def KET_INSTALL_DIR : String := "/ket"

/-! ## The password (`digitalocean.go`, lines 311-334) -/

/-- The match of the regular expression `^[a-zA-Z1-9]+$`: one character or more, each a
letter of the basic Latin alphabet or a digit from 1 to 9. -/
def matchAlphaNumeric (pass : String) : Bool :=
  !pass.data.isEmpty && pass.data.all (fun c =>
    ('a' ≤ c && c ≤ 'z') || ('A' ≤ c && c ≤ 'Z') || ('1' ≤ c && c ≤ '9'))

/-- The loop of `generateAlphaNumericPassword`, with a bound on its rounds: `attempts` is
the variable of this name. The result is `none` when the bound is used up. -/
def passwordLoop {σ : Type} (mc : Machine σ) : Nat → Int → Run σ → Option String × Run σ
  | 0, _, r => (none, r)
  | fuel + 1, attempts, r =>
    match mc.randIntn r.state 6 with
    | (uppercase, st) =>
    match mc.randIntn st 6 with
    | (digits, st) =>
    match mc.newPassword st { MinimumTotalLength := 16, Uppercase := uppercase,
                              Digits := digits, Punctuation := -1 } with
    | (.failed err, st) =>
      (some "weakpassword",
        { state := st,
          steps := r.steps ++ [.newPassword { MinimumTotalLength := 16, Uppercase := uppercase,
                                              Digits := digits, Punctuation := -1 }
                                 (.failed err)] })
    | (.ok pass, st) =>
      if matchAlphaNumeric pass then
        (some pass,
          { state := st,
            steps := r.steps ++ [.newPassword { MinimumTotalLength := 16,
                                                Uppercase := uppercase, Digits := digits,
                                                Punctuation := -1 } (.ok pass)] })
      else if attempts = 50 then
        (some "weakpassword",
          { state := st,
            steps := r.steps ++ [.newPassword { MinimumTotalLength := 16,
                                                Uppercase := uppercase, Digits := digits,
                                                Punctuation := -1 } (.ok pass)] })
      else
        passwordLoop mc fuel (attempts + 1)
          { state := st,
            steps := r.steps ++ [.newPassword { MinimumTotalLength := 16,
                                                Uppercase := uppercase, Digits := digits,
                                                Punctuation := -1 } (.ok pass)] }

/-- The function `generateAlphaNumericPassword`, with the bound `fuel` on the rounds of
its loop. -/
def generateAlphaNumericPassword {σ : Type} (mc : Machine σ) (fuel : Nat) (r : Run σ) :
    Option String × Run σ :=
  passwordLoop mc fuel 0 r

/-- The replies of the `garbler.NewPassword` calls among the steps, oldest first. -/
def passwordReplies (steps : List Step) : List (Reply String) :=
  steps.filterMap (fun s => match s with
    | .newPassword _ reply => some reply
    | _ => none)

/-! ## Waiting for ssh (`provision.go`, lines 250-257) -/

/-- The loop of `WaitForSSH` over the nodes: `false` says that a `BlockUntilSSHOpen` call
does not return. -/
def sshLoop {σ : Type} (mc : Machine σ) (sshKey : String) : List Node → Run σ → Bool × Run σ
  | [], r => (true, r)
  | n :: rest, r =>
    match mc.blockUntilSSHOpen r.state n.Host n.PublicIPv4 n.SSHUser sshKey with
    | none => (false, r)
    | some st =>
      sshLoop mc sshKey rest
        { state := st, steps := r.steps ++ [.sshOpen n.Host n.PublicIPv4 n.SSHUser sshKey] }

/-- The function `WaitForSSH`: `none` when it does not return, else the error returned,
which is always `nil`. -/
def WaitForSSH {σ : Type} (mc : Machine σ) (provisionedNodes : ProvisionedNodes)
    (sshKey : String) (r : Run σ) : Option (Option Error) × Run σ :=
  match sshLoop mc sshKey provisionedNodes.allNodes r with
  | (false, r) => (none, r)
  | (true, r) => (some none, r)

/-! ## The plan (`digitalocean.go`, lines 125-295) -/

/-- The function `strings.Trim(s, "\n")`. -/
def trimNewlines (s : String) : String :=
  String.mk (((s.data.dropWhile (fun c => c = '\n')).reverse.dropWhile
    (fun c => c = '\n')).reverse)

/-- The function `strings.Replace(s, "\r", "", -1)`. -/
def dropReturns (s : String) : String :=
  String.mk (s.data.filter (fun c => c ≠ '\r'))

/-- The rendering of an error under the verb `%v`. -/
def fmtError : Option Error → String
  | none => "<nil>"
  | some err => err

/-- The function `validateKeyFile`. -/
def validateKeyFile {σ : Type} (mc : Machine σ) (_opts : DOOpts) (st : σ) :
    (String × String × Option Error) × σ :=
  if mc.getenv st "DO_SECRET_ACCESS_KEY" = "" then
    match mc.execDir st with
    | (dir, err) =>
      match mc.stat st (mc.join (mc.join dir "ssh/") "cluster.pem") with
      | (.notExist, st) =>
        (("", "", some ("Private SSH file was not found in expected location. Create your own "
            ++ "key pair and reference in options to the provision command. Change file "
            ++ "permissions to allow w/r for the user (chmod 600) " ++ fmtError err)), st)
      | (_, st) =>
        ((mc.join (mc.join dir "ssh/") "cluster.pem",
          mc.join (mc.join dir "ssh/") "cluster.pem" ++ ".pub", none), st)
  else
    ((mc.getenv st "DO_SECRET_ACCESS_KEY", mc.getenv st "DO_SECRET_ACCESS_KEY" ++ ".pub", none),
      st)

/-- The name that `makeUniqueFile` tries at `count`. -/
def uniqueFileName (count : Nat) : String :=
  "kismatic-cluster" ++ (if count > 0 then "-" ++ toString count else "") ++ ".yaml"

/-- The function `makeUniqueFile`, with a bound on the names it tries: the name of the
file created or the error of `os.Create`; `none` when the bound is used up. -/
def makeUniqueFile {σ : Type} (mc : Machine σ) : Nat → Nat → σ → Option (Reply String × σ)
  | 0, _, _ => none
  | fuel + 1, count, st =>
    match mc.stat st (uniqueFileName count) with
    | (.notExist, st) =>
      match mc.create st (uniqueFileName count) with
      | (some err, st) => some (.failed err, st)
      | (none, st) => some (.ok (uniqueFileName count), st)
    | (_, st) => makeUniqueFile mc fuel (count + 1) st

/-- The function `makePlan`; the bound `fuel` is that of `makeUniqueFile`. -/
def makePlan {σ : Type} (mc : Machine σ) (fuel : Nat) (pln : Plan) (opts : DOOpts)
    (nodes : ProvisionedNodes) (r : Run σ) : Outcome × Run σ :=
  match mc.parseTemplate with
  | some err => (.returned (some err), { r with steps := r.steps ++ [.makePlan pln] })
  | none =>
  match makeUniqueFile mc fuel 0 r.state with
  | none => (.running, { r with steps := r.steps ++ [.makePlan pln] })
  | some (.failed err, st) =>
    (.returned (some err), { state := st, steps := r.steps ++ [.makePlan pln] })
  | some (.ok f, st) =>
  match mc.execute st f pln with
  | (some err, st) => (.returned (some err), { state := st, steps := r.steps ++ [.makePlan pln] })
  | (none, st) =>
  if opts.BootstrapNode then
    match nodes.Boostrap with
    | [] => (.panicked, { state := st, steps := r.steps ++ [.makePlan pln] })
    | boot :: _ =>
      match mc.scpFile st (mc.abs st f)
          ((if opts.BootstrapFile = "" then ""
            else if mc.getenv st "DO_KET_INSTALL_DIR" = "" then KET_INSTALL_DIR
            else mc.getenv st "DO_KET_INSTALL_DIR") ++ "/kismatic-cluster.yaml")
          opts.SSHUser boot.PublicIPv4 opts.SSHPrivateKey with
      | (.failed scperr, st2) =>
        (.returned (some ("Unable to push kismatic plan to boostrap node: " ++ scperr)),
          { state := st2,
            steps := r.steps ++ [.makePlan pln,
              .scpFile (mc.abs st f)
                ((if opts.BootstrapFile = "" then ""
                  else if mc.getenv st "DO_KET_INSTALL_DIR" = "" then KET_INSTALL_DIR
                  else mc.getenv st "DO_KET_INSTALL_DIR") ++ "/kismatic-cluster.yaml")
                opts.SSHUser boot.PublicIPv4 opts.SSHPrivateKey (.failed scperr)] })
      | (.ok out, st2) =>
        (.returned none,
          { state := st2,
            steps := r.steps ++ [.makePlan pln,
              .scpFile (mc.abs st f)
                ((if opts.BootstrapFile = "" then ""
                  else if mc.getenv st "DO_KET_INSTALL_DIR" = "" then KET_INSTALL_DIR
                  else mc.getenv st "DO_KET_INSTALL_DIR") ++ "/kismatic-cluster.yaml")
                opts.SSHUser boot.PublicIPv4 opts.SSHPrivateKey (.ok out)] })
  else (.returned none, { state := st, steps := r.steps ++ [.makePlan pln] })

/-- The start of `makeInfra` (lines 151-176): the options with the token, the name of the
key and the paths of the key files filled in, or the way in which the function ends there.
With an error of `os.Stat` other than a missing file the `FileInfo` is `nil`, and
`s.Name()` panics. -/
def readOptions {σ : Type} (mc : Machine σ) (opts : DOOpts) (st : σ) :
    Except Outcome DOOpts × σ :=
  match (if mc.getenv st "DO_API_TOKEN" = "" then
          match mc.readLine st with
          | (url, st) => (dropReturns (trimNewlines url), st)
         else (mc.getenv st "DO_API_TOKEN", st)) with
  | (token, st) =>
  if token = "" then (.error (.returned (some "The DigitalOcean API Token is required")), st)
  else
  match validateKeyFile mc { opts with Token := token } st with
  | ((_, _, some errkey), st) => (.error (.returned (some errkey)), st)
  | ((sshPrivate, sshPublic, none), st) =>
  match mc.stat st sshPrivate with
  | (.notExist, st) =>
    (.error (.returned (some ("Did not find SSH private key at " ++ mc.quote sshPrivate))), st)
  | (.failed, st) => (.error .panicked, st)
  | (.found name, st) =>
    (.ok { opts with Token := token, SSHKeyName := name, SSHPrivateKey := sshPrivate,
                     SSHPublicKey := sshPublic }, st)

/-- The counts that `makeInfra` asks `ProvisionNodes` for (lines 179-189). -/
def requestedCount (opts : DOOpts) : NodeCount :=
  { Etcd := opts.EtcdNodeCount,
    Worker := opts.WorkerNodeCount,
    Master := opts.MasterNodeCount,
    Boostrap := if opts.BootstrapNode then 1 else 0 }

/-- The end of `makeInfra` (lines 200-234), after `WaitForSSH` returned `nil`. The fields
of the plan are evaluated in their order: the password first, then `nodes.Worker[0]` and
`nodes.Master[0]`, which panic on an empty list. -/
def planInfra {σ : Type} (mc : Machine σ) (fuel : Nat) (opts : DOOpts)
    (nodes : ProvisionedNodes) (r : Run σ) : Outcome × Run σ :=
  if opts.NoPlan then (.returned none, r)
  else
  match generateAlphaNumericPassword mc fuel r with
  | (none, r2) => (.running, r2)
  | (some password, r2) =>
  match nodes.Worker, nodes.Master with
  | worker0 :: _, master0 :: _ =>
    makePlan mc fuel
      { AdminPassword := password,
        Etcd := nodes.Etcd,
        Master := nodes.Master,
        Worker := nodes.Worker,
        Ingress := [worker0],
        Storage := if opts.Storage then nodes.Worker else [],
        MasterNodeFQDN := master0.PublicIPv4,
        MasterNodeShortName := master0.PublicIPv4,
        SSHKeyFile :=
          if opts.BootstrapNode then
            (if mc.getenv r.state "DO_KET_INSTALL_DIR" = "" then KET_INSTALL_DIR
             else mc.getenv r.state "DO_KET_INSTALL_DIR") ++ "/ssh/" ++ opts.SSHKeyName
          else opts.SSHPrivateKey,
        SSHUser := master0.SSHUser }
      opts nodes r2
  | _, _ => (.panicked, r2)

/-- The function `makeInfra`. The bound `fuel` is that of each loop without a bound of
its own: the polls of one `WaitForIPs`, the rounds of the password loop, the names that
`makeUniqueFile` tries. -/
def makeInfra {σ : Type} (p : Provider σ) (mc : Machine σ) (fuel : Nat) (opts : DOOpts)
    (r : Run σ) : Outcome × Run σ :=
  match readOptions mc opts r.state with
  | (.error out, st) => (out, { r with state := st })
  | (.ok opts, st) =>
  match ProvisionNodes p fuel opts (requestedCount opts) { state := st, log := [] } with
  | (none, w) => (.running, { state := w.state, steps := r.steps ++ w.log.map .provider })
  | (some (_, some err), w) =>
    (.returned (some err), { state := w.state, steps := r.steps ++ w.log.map .provider })
  | (some (nodes, none), w) =>
  match WaitForSSH mc nodes opts.SSHPrivateKey
      { state := w.state, steps := r.steps ++ w.log.map .provider } with
  | (none, r1) => (.running, r1)
  | (some (some err), r1) => (.returned (some err), r1)
  | (some none, r1) => planInfra mc fuel opts nodes r1

/-! ## A machine for the examples -/

/-- A machine on which every call goes through: the token and the key path are in the
environment, the key file exists, no plan file exists yet, the generator gives an
alphanumeric password, ssh opens at once. -/
def plainMachine : Machine Nat where
  getenv := fun _ name =>
    if name = "DO_API_TOKEN" then "token"
    else if name = "DO_SECRET_ACCESS_KEY" then "/keys/cluster.pem" else ""
  readLine := fun s => ("", s)
  execDir := fun _ => ("/opt/ket", none)
  join := fun a b => a ++ "/" ++ b
  abs := fun _ path => "/work/" ++ path
  stat := fun s path => (if path = "/keys/cluster.pem" then .found "cluster.pem" else .notExist, s)
  create := fun s _ => (none, s)
  quote := fun path => "\"" ++ path ++ "\""
  randIntn := fun s _ => (3, s)
  newPassword := fun s _ => (.ok "Kismatic4Ever", s)
  blockUntilSSHOpen := fun s _ _ _ _ => some s
  parseTemplate := none
  execute := fun s _ _ => (none, s)
  scpFile := fun s _ _ _ _ _ => (.ok "", s)

/-- The machine `plainMachine` with a generator that gives a password with a dash. -/
def dashMachine : Machine Nat :=
  { plainMachine with newPassword := fun s _ => (.ok "weak-password", s) }

/-- The options of the example run: one node of each role, no bootstrap node, storage on
the workers. -/
def plainOpts : DOOpts :=
  { EtcdNodeCount := 1, MasterNodeCount := 1, WorkerNodeCount := 1, SSHUser := "root",
    Storage := true }

/-! ## Reading the steps -/

/-- A call of `makePlan`. -/
def Step.isMakePlan : Step → Bool
  | .makePlan _ => true
  | _ => false

/-- A call of `garbler.NewPassword`. -/
def Step.isNewPassword : Step → Bool
  | .newPassword _ _ => true
  | _ => false

/-- A call of `BlockUntilSSHOpen` that returned. -/
def Step.isSSHOpen : Step → Bool
  | .sshOpen _ _ _ _ => true
  | _ => false

/-- The returns of `BlockUntilSSHOpen` for the nodes of a list, one for each node in the
order of the list, as `WaitForSSH` passes the arguments. -/
def sshSteps (nodes : List Node) (sshKey : String) : List Step :=
  nodes.map (fun n => .sshOpen n.Host n.PublicIPv4 n.SSHUser sshKey)

/-- The steps of the example run of `makeInfra` on `allGood` and `plainMachine` with
`plainOpts`, up to the call of `makePlan`. -/
def plainSteps : List Step :=
  [.provider (.keysList (.ok [])),
   .provider (.readFile "/keys/cluster.pem.pub" (.ok "ssh-rsa AAAA")),
   .provider (.keysCreate "apprenda-key" "ssh-rsa AAAA" (.ok ⟨7, "apprenda-key", "aa:bb"⟩)),
   .provider (.dropletsCreate (plainRequest "etcd1") (.ok ⟨1, "etcd1", []⟩)),
   .provider (.dropletsCreate (plainRequest "master1") (.ok ⟨2, "master1", []⟩)),
   .provider (.dropletsCreate (plainRequest "worker1") (.ok ⟨3, "worker1", []⟩)),
   .provider (.dropletsGet 1 (.ok ⟨1, "node", [⟨"203.0.113.7", "public"⟩]⟩)),
   .provider (.dropletsGet 2 (.ok ⟨2, "node", [⟨"203.0.113.7", "public"⟩]⟩)),
   .provider (.dropletsGet 3 (.ok ⟨3, "node", [⟨"203.0.113.7", "public"⟩]⟩)),
   .sshOpen "node" "203.0.113.7" "root" "/keys/cluster.pem",
   .sshOpen "node" "203.0.113.7" "root" "/keys/cluster.pem",
   .sshOpen "node" "203.0.113.7" "root" "/keys/cluster.pem",
   .newPassword ⟨16, 3, 3, -1⟩ (.ok "Kismatic4Ever")]

/-- The node that `allGood` gives for the droplet with this id, for the user `root`. -/
def plainNode (id : String) : Node :=
  { ID := id, Host := "node", PublicIPv4 := "203.0.113.7", SSHUser := "root" }

/-- The plan of the example run. -/
def plainPlan : Plan :=
  { AdminPassword := "Kismatic4Ever",
    Etcd := [plainNode "\x01"],
    Master := [plainNode "\x02"],
    Worker := [plainNode "\x03"],
    Ingress := [plainNode "\x03"],
    Storage := [plainNode "\x03"],
    MasterNodeFQDN := "203.0.113.7",
    MasterNodeShortName := "203.0.113.7",
    SSHKeyFile := "/keys/cluster.pem",
    SSHUser := "root" }

/-! ## Deleting (`client.go`, lines 199-250; `provision.go`, lines 240-248) -/

/-- The method `Client.DeleteKeyByName`: the keys are listed, and the first key of that
name, when it has a fingerprint, is deleted by it. -/
def DeleteKeyByName {σ : Type} (p : Provider σ) (w : World σ) (_token : String)
    (keyName : String) : Option Error × World σ :=
  match p.keysList w.state with
  | (.failed err, st) => (some err, { state := st, log := w.log ++ [.keysList (.failed err)] })
  | (.ok keys, st) =>
    match keys.find? (fun k => k.Name = keyName) with
    | none => (none, { state := st, log := w.log ++ [.keysList (.ok keys)] })
    | some k =>
      if k.Fingerprint ≠ "" then
        match p.keysDeleteByFingerprint st k.Fingerprint with
        | (some delerr, st2) =>
          (some delerr,
            { state := st2,
              log := w.log ++ [.keysList (.ok keys),
                               .keysDeleteByFingerprint k.Fingerprint (some delerr)] })
        | (none, st2) =>
          (none,
            { state := st2,
              log := w.log ++ [.keysList (.ok keys),
                               .keysDeleteByFingerprint k.Fingerprint none] })
      else (none, { state := st, log := w.log ++ [.keysList (.ok keys)] })

/-- The method `Client.DeleteDropletsByTag`: the result of `DeleteKeyByName` is not
assigned to anything. -/
def DeleteDropletsByTag {σ : Type} (p : Provider σ) (w : World σ) (token : String)
    (tag : String) (keyname : String) : Option Error × World σ :=
  match p.dropletsDeleteByTag w.state tag with
  | (errdel, st) =>
    if keyname ≠ "" then
      (errdel,
        (DeleteKeyByName p { state := st, log := w.log ++ [.dropletsDeleteByTag tag errdel] }
          token keyname).2)
    else (errdel, { state := st, log := w.log ++ [.dropletsDeleteByTag tag errdel] })

/-- The method `doProvisioner.TerminateNodes`. -/
def TerminateNodes {σ : Type} (p : Provider σ) (opts : DOOpts) (w : World σ) :
    Option Error × World σ :=
  DeleteDropletsByTag p w opts.Token opts.ClusterTag (if opts.RemoveKey then SSHKEY else "")

/-- A provider that deletes the droplets, and refuses to list the keys. -/
def keysListFails : Provider Unit where
  dropletsCreate := fun s req => (.ok ⟨1, req.Name, []⟩, s)
  dropletsGet := fun s id => (.ok ⟨id, "node", [⟨"203.0.113.7", "public"⟩]⟩, s)
  dropletsDeleteByTag := fun s _ => (none, s)
  keysList := fun s => (.failed "unauthorized", s)
  keysCreate := fun s name _ => (.ok ⟨7, name, "aa:bb"⟩, s)
  keysDeleteByFingerprint := fun s _ => (none, s)
  readFile := fun s _ => (.ok "ssh-rsa AAAA", s)
  loadBootCmds := fun s _ => (.ok "", s)

/-- A provider that deletes the droplets and lists the key `apprenda-key`, and refuses
to delete it. -/
def keyDeleteFails : Provider Unit where
  dropletsCreate := fun s req => (.ok ⟨1, req.Name, []⟩, s)
  dropletsGet := fun s id => (.ok ⟨id, "node", [⟨"203.0.113.7", "public"⟩]⟩, s)
  dropletsDeleteByTag := fun s _ => (none, s)
  keysList := fun s => (.ok [⟨7, "apprenda-key", "aa:bb"⟩], s)
  keysCreate := fun s name _ => (.ok ⟨7, name, "aa:bb"⟩, s)
  keysDeleteByFingerprint := fun s _ => (some "key is in use", s)
  readFile := fun s _ => (.ok "ssh-rsa AAAA", s)
  loadBootCmds := fun s _ => (.ok "", s)

/-- The options of `delete-all --remove-key` with the default tag. -/
def removeKeyOpts : DOOpts :=
  { Token := "token", ClusterTag := "apprenda", RemoveKey := true }

/-- The options of the example run without a worker node. -/
def noWorkerOpts : DOOpts :=
  { EtcdNodeCount := 1, MasterNodeCount := 1, WorkerNodeCount := 0, SSHUser := "root" }

/-- The options as `readOptions` completes them on `plainMachine`. -/
def keyedOpts (opts : DOOpts) : DOOpts :=
  { opts with Token := "token", SSHKeyName := "cluster.pem",
              SSHPrivateKey := "/keys/cluster.pem", SSHPublicKey := "/keys/cluster.pem.pub" }

/-- The calls of `ProvisionNodes` in the run on `allGood` and `plainMachine` with
`noWorkerOpts`. -/
def noWorkerLog : List Event :=
  [.keysList (.ok []), .readFile "/keys/cluster.pem.pub" (.ok "ssh-rsa AAAA"),
   .keysCreate "apprenda-key" "ssh-rsa AAAA" (.ok ⟨7, "apprenda-key", "aa:bb"⟩),
   .dropletsCreate (plainRequest "etcd1") (.ok ⟨1, "etcd1", []⟩),
   .dropletsCreate (plainRequest "master1") (.ok ⟨2, "master1", []⟩),
   .dropletsGet 1 (.ok ⟨1, "node", [⟨"203.0.113.7", "public"⟩]⟩),
   .dropletsGet 2 (.ok ⟨2, "node", [⟨"203.0.113.7", "public"⟩]⟩)]

/-- The nodes that `ProvisionNodes` returns in that run. -/
def noWorkerNodes : ProvisionedNodes :=
  { Etcd := [plainNode "\x01"], Master := [plainNode "\x02"] }

/-- The calls of `ProvisionNodes` in the run on `allGood` and `plainMachine` with
`plainOpts`. -/
def plainLog : List Event :=
  [.keysList (.ok []), .readFile "/keys/cluster.pem.pub" (.ok "ssh-rsa AAAA"),
   .keysCreate "apprenda-key" "ssh-rsa AAAA" (.ok ⟨7, "apprenda-key", "aa:bb"⟩),
   .dropletsCreate (plainRequest "etcd1") (.ok ⟨1, "etcd1", []⟩),
   .dropletsCreate (plainRequest "master1") (.ok ⟨2, "master1", []⟩),
   .dropletsCreate (plainRequest "worker1") (.ok ⟨3, "worker1", []⟩),
   .dropletsGet 1 (.ok ⟨1, "node", [⟨"203.0.113.7", "public"⟩]⟩),
   .dropletsGet 2 (.ok ⟨2, "node", [⟨"203.0.113.7", "public"⟩]⟩),
   .dropletsGet 3 (.ok ⟨3, "node", [⟨"203.0.113.7", "public"⟩]⟩)]

/-- The nodes that `ProvisionNodes` returns in that run. -/
def plainNodes : ProvisionedNodes :=
  { Etcd := [plainNode "\x01"], Master := [plainNode "\x02"], Worker := [plainNode "\x03"] }

/-- A provider like `allGood` on which two keys are registered, the second under the name
`apprenda-key`. -/
def keyRegistered : Provider Nat :=
  { allGood with
    keysList := fun s => (.ok [⟨5, "laptop", "cc:dd"⟩, ⟨9, "apprenda-key", "ee:ff"⟩], s) }

/-- The log of the run of `keyRegistered` with one etcd node. -/
def keyRegisteredLog : List Event :=
  [.keysList (.ok [⟨5, "laptop", "cc:dd"⟩, ⟨9, "apprenda-key", "ee:ff"⟩]),
   .dropletsCreate { plainRequest "etcd1" with SSHKeys := [(9, "ee:ff")] }
     (.ok ⟨1, "etcd1", []⟩),
   .dropletsGet 1 (.ok ⟨1, "node", [⟨"203.0.113.7", "public"⟩]⟩)]

end DigitalOcean

namespace Vagrant

/-! ## The loops serve the requests in order -/

theorem appendAll_append (i : Infrastructure) (a b : List Request) :
    appendAll i (a ++ b) =
      match appendAll i a with
      | (i', some err) => (i', some err)
      | (i', none) => appendAll i' b := by
  induction a generalizing i with
  | nil => simp [appendAll]
  | cons r a ih =>
    obtain ⟨j, name, types⟩ := r
    simp only [List.cons_append, appendAll]
    rcases h : i.appendNode j name types with ⟨i', nd, _ | err⟩
    · exact ih i'
    · simp

theorem roleLoop_overlap (opts : InfrastructureOpts) (h : opts.OverlapRoles = true) (j : Nat)
    (ts : List NodeType) (i : Infrastructure) (acc : NodeType) (fin : Bool) :
    roleLoop opts j ts i acc fin
      = .ok (i, overlapUnion opts j ts acc, fin && !qualifiesIn opts j ts) := by
  induction ts generalizing acc fin with
  | nil => simp [roleLoop, overlapUnion, qualifiesIn]
  | cons t ts ih =>
    by_cases hq : j ≤ opts.Count t
    · simp [roleLoop, overlapUnion, qualifiesIn, hq, h, ih]
    · simp [roleLoop, overlapUnion, qualifiesIn, hq, ih]

theorem roleLoop_dedicated (opts : InfrastructureOpts) (h : opts.OverlapRoles = false) (j : Nat)
    (ts : List NodeType) (i : Infrastructure) (acc : NodeType) (fin : Bool) :
    roleLoop opts j ts i acc fin =
      match appendAll i (dedicated opts j ts) with
      | (i', some err) => .error (i', err)
      | (i', none) => .ok (i', acc, fin && !qualifiesIn opts j ts) := by
  induction ts generalizing i fin with
  | nil => simp [roleLoop, dedicated, appendAll, qualifiesIn]
  | cons t ts ih =>
    by_cases hq : j ≤ opts.Count t
    · simp only [roleLoop, hq, h, if_true, dedicated, List.filter_cons, decide_True,
        List.map_cons, appendAll, Bool.false_eq_true, if_false]
      rcases ha : i.appendNode j (nodeTypeStrings t) t with ⟨i', nd, _ | err⟩
      · simp only [ih]
        simp [dedicated, qualifiesIn, hq]
      · simp
    · simp only [roleLoop, hq, if_false, dedicated, List.filter_cons, decide_False, ih]
      simp [dedicated, qualifiesIn, hq]

theorem waveLoop_succ (opts : InfrastructureOpts) (fuel j : Nat) (i : Infrastructure) :
    waveLoop opts (fuel + 1) j i =
      match appendAll i (waveRequests opts j) with
      | (i', some err) => some (i', some err)
      | (i', none) =>
        if qualifies opts j then waveLoop opts fuel (nextWave j) i' else some (i', none) := by
  cases h : opts.OverlapRoles with
  | true =>
    simp only [waveLoop, roleLoop_overlap opts h, waveRequests, h, if_true, Bool.true_and,
      qualifies, nextWave]
    by_cases hu : overlapUnion opts j nodeTypes 0 > 0
    · simp only [hu, if_true, appendAll]
      rcases ha : i.appendNode j "node" (overlapUnion opts j nodeTypes 0) with ⟨i', nd, _ | err⟩
      · cases hq : qualifiesIn opts j nodeTypes <;> simp
      · simp
    · simp only [hu, if_false, appendAll]
      cases hq : qualifiesIn opts j nodeTypes <;> simp
  | false =>
    simp only [waveLoop, roleLoop_dedicated opts h, waveRequests, h, Bool.true_and,
      qualifies, nextWave, Bool.false_eq_true, if_false]
    rcases ha : appendAll i (dedicated opts j nodeTypes) with ⟨i', _ | err⟩
    · cases hq : qualifiesIn opts j nodeTypes <;> simp
    · simp

theorem waveLoop_run (opts : InfrastructureOpts) (n : Nat) :
    ∀ (fuel j : Nat) (i : Infrastructure), allQualify opts n j = true →
      waveLoop opts (n + fuel) j i =
        match appendAll i (requestsFrom opts n j) with
        | (i', some err) => some (i', some err)
        | (i', none) => waveLoop opts fuel (waveAfter n j) i' := by
  induction n with
  | zero => intro fuel j i _; simp [requestsFrom, appendAll, waveAfter]
  | succ n ih =>
    intro fuel j i hq
    simp only [allQualify, Bool.and_eq_true] at hq
    have hf : n + 1 + fuel = (n + fuel) + 1 := by omega
    rw [hf, waveLoop_succ, requestsFrom, appendAll_append]
    rcases ha : appendAll i (waveRequests opts j) with ⟨i', _ | err⟩
    · simp only [hq.1, if_true, waveAfter]
      exact ih fuel (nextWave j) i' hq.2
    · simp

/-! ## Allocation in a well-formed infrastructure -/

theorem IPNet.size_pos (n : IPNet) : 0 < n.size := by
  unfold IPNet.size; positivity

theorem IPNet.contains_iff (n : IPNet) (hb : n.bits = 32) (ha : n.IP % n.size = 0) (ip : Nat) :
    n.Contains ip = true ↔ n.IP ≤ ip ∧ ip < n.IP + n.size := by
  have hs := n.size_pos
  obtain ⟨m, hm⟩ : ∃ m, n.IP = m * n.size := ⟨n.IP / n.size, by
    have := Nat.div_add_mod n.IP n.size
    rw [ha, Nat.add_zero, Nat.mul_comm] at this
    exact this.symm⟩
  simp only [IPNet.Contains, hb, decide_True, Bool.true_and, decide_eq_true_eq]
  rw [hm, Nat.mul_div_cancel m hs]
  constructor
  · intro h
    have h1 : m * n.size ≤ ip := by
      have := Nat.div_mul_le_self ip n.size
      rwa [h] at this
    have h2 : ip < (m + 1) * n.size := by
      have : ip / n.size < m + 1 := by rw [h]; exact Nat.lt_succ_self m
      exact (Nat.div_lt_iff_lt_mul hs).1 this
    rw [Nat.add_mul, Nat.one_mul] at h2
    exact ⟨h1, h2⟩
  · rintro ⟨h1, h2⟩
    apply Nat.le_antisymm
    · have : ip < (m + 1) * n.size := by rw [Nat.add_mul, Nat.one_mul]; exact h2
      exact Nat.lt_succ_iff.1 ((Nat.div_lt_iff_lt_mul hs).2 this)
    · exact (Nat.le_div_iff_mul_le hs).2 h1

theorem Good.nextNodeIP_ok {i : Infrastructure} (g : Good i)
    (h : i.Nodes.length < i.Network.capacity) :
    i.nextNodeIP = .ok (i.Network.IP + 2 + i.Nodes.length) := by
  have hs := i.Network.size_pos
  have htop := g.top
  have hcap : i.Network.capacity = i.Network.size - 3 := rfl
  have hc := i.Network.contains_iff g.bits g.aligned
  have hpow : (2 : Nat) ^ 32 = 4294967296 := by norm_num
  rw [hpow] at htop
  unfold Infrastructure.nextNodeIP IncrementIPv4
  rw [hpow]
  cases hl : i.Nodes.getLast? with
  | none =>
    have hn : i.Nodes = [] := List.getLast?_eq_none_iff.1 hl
    have hlen : i.Nodes.length = 0 := by rw [hn]; rfl
    have e : ((i.Network.IP + 1) % 4294967296 + 1) % 4294967296 = i.Network.IP + 2 := by omega
    simp only [e, hlen, Nat.add_zero]
    have hin : i.Network.Contains (i.Network.IP + 2) = true := (hc _).2 (by omega)
    have hb : (i.Broadcast == i.Network.IP + 2) = false := by
      rw [beq_eq_false_iff_ne, g.bcast]; omega
    simp [hin, hb]
  | some last =>
    have hk : i.Nodes[i.Nodes.length - 1]? = some last := by
      rw [← List.getLast?_eq_getElem?]; exact hl
    have hne : i.Nodes.length ≠ 0 := by
      intro h0
      rw [List.length_eq_zero.1 h0] at hl
      simp at hl
    have hip := g.ips _ _ hk
    have e : (last.IP + 1) % 4294967296 = i.Network.IP + 2 + i.Nodes.length := by omega
    simp only [e]
    have hin : i.Network.Contains (i.Network.IP + 2 + i.Nodes.length) = true :=
      (hc _).2 (by omega)
    have hb : (i.Broadcast == i.Network.IP + 2 + i.Nodes.length) = false := by
      rw [beq_eq_false_iff_ne, g.bcast]; omega
    simp [hin, hb]

theorem Good.nextNodeIP_full {i : Infrastructure} (g : Good i)
    (h : i.Network.capacity ≤ i.Nodes.length) :
    i.nextNodeIP = .error .overflow := by
  have hs := i.Network.size_pos
  have htop := g.top
  have hroom := g.room
  have hcap : i.Network.capacity = i.Network.size - 3 := rfl
  have hc := i.Network.contains_iff g.bits g.aligned
  have hpow : (2 : Nat) ^ 32 = 4294967296 := by norm_num
  rw [hpow] at htop
  unfold Infrastructure.nextNodeIP IncrementIPv4
  rw [hpow]
  cases hl : i.Nodes.getLast? with
  | none =>
    have hn : i.Nodes = [] := List.getLast?_eq_none_iff.1 hl
    have hlen : i.Nodes.length = 0 := by rw [hn]; rfl
    simp only []
    generalize hx : ((i.Network.IP + 1) % 4294967296 + 1) % 4294967296 = x
    by_cases hin : i.Network.Contains x = true
    · have hr := (hc _).1 hin
      have hb : (i.Broadcast == x) = true := by
        rw [beq_iff_eq, g.bcast]; omega
      simp [hb]
    · simp [hin]
  | some last =>
    have hk : i.Nodes[i.Nodes.length - 1]? = some last := by
      rw [← List.getLast?_eq_getElem?]; exact hl
    have hne : i.Nodes.length ≠ 0 := by
      intro h0
      rw [List.length_eq_zero.1 h0] at hl
      simp at hl
    have hip := g.ips _ _ hk
    have e : (last.IP + 1) % 4294967296 = i.Network.IP + 2 + i.Nodes.length := by omega
    simp only [e]
    have hb : (i.Broadcast == i.Network.IP + 2 + i.Nodes.length) = true := by
      rw [beq_iff_eq, g.bcast]; omega
    simp [hb]

theorem Good.appendNode_ok {i : Infrastructure} (g : Good i)
    (h : i.Nodes.length < i.Network.capacity) (j : Nat) (name : String) (types : NodeType) :
    i.appendNode j name types =
      ({ i with Nodes := i.Nodes ++
          [{ Name := name ++ fmt03d j, IP := i.Network.IP + 2 + i.Nodes.length, Types := types }] },
        some { Name := name ++ fmt03d j, IP := i.Network.IP + 2 + i.Nodes.length, Types := types },
        none) := by
  simp [Infrastructure.appendNode, g.nextNodeIP_ok h]

theorem Good.appendNode_full {i : Infrastructure} (g : Good i)
    (h : i.Network.capacity ≤ i.Nodes.length) (j : Nat) (name : String) (types : NodeType) :
    i.appendNode j name types = (i, none, some .overflow) := by
  simp [Infrastructure.appendNode, g.nextNodeIP_full h]

theorem Good.snoc {i : Infrastructure} (g : Good i) (h : i.Nodes.length < i.Network.capacity)
    (node : NodeDetails) (hip : node.IP = i.Network.IP + 2 + i.Nodes.length) :
    Good { i with Nodes := i.Nodes ++ [node] } where
  bits := g.bits
  aligned := g.aligned
  top := g.top
  bcast := g.bcast
  ips := by
    intro k nd hk
    simp only [List.getElem?_append] at hk
    split at hk
    · exact g.ips k nd hk
    · rename_i hlt
      have hk0 : k - i.Nodes.length = 0 := by
        by_contra hne
        obtain ⟨m, hm⟩ := Nat.exists_eq_succ_of_ne_zero hne
        rw [hm] at hk
        simp at hk
      rw [hk0] at hk
      simp only [List.getElem?_cons_zero, Option.some.injEq] at hk
      subst hk
      show node.IP = i.Network.IP + 2 + k
      rw [hip]; omega
  room := by
    show (i.Nodes ++ [node]).length ≤ i.Network.capacity
    rw [List.length_append]; simpa using h

theorem Good.appendAll_eq {i : Infrastructure} (g : Good i) (reqs : List Request) :
    appendAll i reqs =
      ({ i with Nodes := i.Nodes ++ (place (i.Network.IP + 2 + i.Nodes.length)
            (reqs.take (i.Network.capacity - i.Nodes.length))) },
        if i.Nodes.length + reqs.length ≤ i.Network.capacity then none else some .overflow) := by
  induction reqs generalizing i with
  | nil => simp [Vagrant.appendAll, place, g.room]
  | cons r rest ih =>
    obtain ⟨j, name, types⟩ := r
    by_cases h : i.Nodes.length < i.Network.capacity
    · have g' := g.snoc h
        { Name := name ++ fmt03d j, IP := i.Network.IP + 2 + i.Nodes.length, Types := types } rfl
      obtain ⟨m, hm⟩ : ∃ m, i.Network.capacity - i.Nodes.length = m + 1 :=
        ⟨i.Network.capacity - i.Nodes.length - 1, by omega⟩
      simp only [Vagrant.appendAll, g.appendNode_ok h, ih g', hm, List.take_succ_cons, place,
        List.length_append, List.length_cons, List.length_nil, List.append_assoc,
        List.singleton_append]
      have e1 : i.Network.capacity - (i.Nodes.length + (0 + 1)) = m := by omega
      have e2 : i.Network.IP + 2 + (i.Nodes.length + (0 + 1)) = i.Network.IP + 2 + i.Nodes.length + 1 := by
        omega
      have e3 : (i.Nodes.length + (0 + 1) + rest.length ≤ i.Network.capacity)
          ↔ (i.Nodes.length + (rest.length + 1) ≤ i.Network.capacity) := by omega
      simp only [e1, e2, e3]
    · have h' : i.Network.capacity ≤ i.Nodes.length := Nat.le_of_not_lt h
      have e1 : i.Network.capacity - i.Nodes.length = 0 := by omega
      have e2 : ¬ (i.Nodes.length + (rest.length + 1) ≤ i.Network.capacity) := by omega
      simp [Vagrant.appendAll, g.appendNode_full h', e1, place, e2]

/-! ## Waves with and without a qualifying role -/

theorem overlapUnion_nodeTypes (opts : InfrastructureOpts) (j : Nat) :
    overlapUnion opts j nodeTypes 0 =
      (if j ≤ opts.Count etcd then etcd else 0) ||| (if j ≤ opts.Count master then master else 0)
        ||| (if j ≤ opts.Count worker then worker else 0)
        ||| (if j ≤ opts.Count ingress then ingress else 0) := by
  simp only [nodeTypes, overlapUnion]
  by_cases h1 : j ≤ opts.Count etcd <;> by_cases h2 : j ≤ opts.Count master <;>
    by_cases h3 : j ≤ opts.Count worker <;> by_cases h4 : j ≤ opts.Count ingress <;>
    simp only [h1, h2, h3, h4, if_true, if_false] <;> decide

theorem qualifies_iff (opts : InfrastructureOpts) (j : Nat) :
    qualifies opts j = true ↔
      (j ≤ opts.Count etcd ∨ j ≤ opts.Count master ∨ j ≤ opts.Count worker
        ∨ j ≤ opts.Count ingress) := by
  simp [qualifies, qualifiesIn, nodeTypes]

theorem overlapUnion_pos_iff (opts : InfrastructureOpts) (j : Nat) :
    0 < overlapUnion opts j nodeTypes 0 ↔ qualifies opts j = true := by
  rw [overlapUnion_nodeTypes, qualifies_iff]
  by_cases h1 : j ≤ opts.Count etcd <;> by_cases h2 : j ≤ opts.Count master <;>
    by_cases h3 : j ≤ opts.Count worker <;> by_cases h4 : j ≤ opts.Count ingress <;>
    simp only [h1, h2, h3, h4, if_true, if_false] <;> decide

theorem dedicated_length_pos (opts : InfrastructureOpts) (j : Nat) (ts : List NodeType)
    (h : qualifiesIn opts j ts = true) : 0 < (dedicated opts j ts).length := by
  simp only [qualifiesIn, List.any_eq_true, decide_eq_true_eq] at h
  obtain ⟨t, ht, hq⟩ := h
  simp only [dedicated, List.length_map]
  apply List.length_pos_of_mem (a := t)
  simp [List.mem_filter, ht, hq]

theorem dedicated_nil (opts : InfrastructureOpts) (j : Nat) (ts : List NodeType)
    (h : qualifiesIn opts j ts = false) : dedicated opts j ts = [] := by
  simp only [dedicated, List.map_eq_nil_iff, List.filter_eq_nil_iff]
  intro t ht hq
  have : qualifiesIn opts j ts = true := by
    simp only [qualifiesIn, List.any_eq_true]
    exact ⟨t, ht, hq⟩
  rw [h] at this
  exact absurd this (by decide)

theorem waveRequests_nil (opts : InfrastructureOpts) (j : Nat) (h : qualifies opts j = false) :
    waveRequests opts j = [] := by
  unfold waveRequests
  split
  · have : ¬ 0 < overlapUnion opts j nodeTypes 0 := by
      rw [overlapUnion_pos_iff, h]; decide
    simp [this]
  · exact dedicated_nil opts j nodeTypes h

theorem waveRequests_length_pos (opts : InfrastructureOpts) (j : Nat)
    (h : qualifies opts j = true) : 0 < (waveRequests opts j).length := by
  unfold waveRequests
  split
  · have : 0 < overlapUnion opts j nodeTypes 0 := (overlapUnion_pos_iff opts j).2 h
    simp [this]
  · exact dedicated_length_pos opts j nodeTypes h

theorem allQualify_iff (opts : InfrastructureOpts) (n : Nat) :
    ∀ j, allQualify opts n j = true ↔ ∀ k, k < n → qualifies opts (waveAfter k j) = true := by
  induction n with
  | zero => intro j; simp [allQualify]
  | succ n ih =>
    intro j
    simp only [allQualify, Bool.and_eq_true, ih]
    constructor
    · rintro ⟨h0, hr⟩ k hk
      cases k with
      | zero => exact h0
      | succ k => exact hr k (by omega)
    · intro h
      exact ⟨h 0 (by omega), fun k hk => h (k + 1) (by omega)⟩

theorem requestsFrom_length_ge (opts : InfrastructureOpts) (n : Nat) :
    ∀ j, allQualify opts n j = true → n ≤ (requestsFrom opts n j).length := by
  induction n with
  | zero => intro j _; exact Nat.zero_le _
  | succ n ih =>
    intro j h
    simp only [allQualify, Bool.and_eq_true] at h
    have h1 := waveRequests_length_pos opts j h.1
    have h2 := ih (nextWave j) h.2
    simp only [requestsFrom, List.length_append]
    omega

/-! ## The whole loop -/

theorem Good.waveLoop_eq {i : Infrastructure} (g : Good i) (opts : InfrastructureOpts)
    (fuel j : Nat) (hf : i.Network.capacity + 2 ≤ fuel) :
    ∃ n, n ≤ i.Network.capacity + 1 ∧ allQualify opts n j = true ∧
      waveLoop opts fuel j i =
        some ({ i with Nodes := i.Nodes ++ (place (i.Network.IP + 2 + i.Nodes.length)
                ((requestsFrom opts n j).take (i.Network.capacity - i.Nodes.length))) },
          if i.Nodes.length + (requestsFrom opts n j).length ≤ i.Network.capacity then none
          else some .overflow) ∧
      (i.Nodes.length + (requestsFrom opts n j).length ≤ i.Network.capacity →
        qualifies opts (waveAfter n j) = false) := by
  by_cases h : ∃ n, n ≤ i.Network.capacity ∧ qualifies opts (waveAfter n j) = false
  · have hspec := Nat.find_spec h
    have hmin := fun k (hk : k < Nat.find h) => Nat.find_min h hk
    generalize Nat.find h = n at hspec hmin
    have hall : allQualify opts n j = true := by
      rw [allQualify_iff]
      intro k hk
      have := hmin k hk
      simp only [not_and, Bool.not_eq_false] at this
      exact this (by omega)
    refine ⟨n, by omega, hall, ?_, fun _ => hspec.2⟩
    obtain ⟨f, hfe⟩ : ∃ f, fuel = n + (f + 1) := ⟨fuel - n - 1, by omega⟩
    rw [hfe, waveLoop_run opts n (f + 1) j i hall, g.appendAll_eq]
    by_cases hle : i.Nodes.length + (requestsFrom opts n j).length ≤ i.Network.capacity
    · simp only [hle, if_true]
      rw [waveLoop_succ, waveRequests_nil opts _ hspec.2]
      simp [Vagrant.appendAll, hspec.2]
    · simp only [hle, if_false]
  · have hq : ∀ n, n ≤ i.Network.capacity → qualifies opts (waveAfter n j) = true := by
      intro n hn
      by_contra hc
      exact h ⟨n, hn, by simpa using hc⟩
    have hall : allQualify opts (i.Network.capacity + 1) j = true := by
      rw [allQualify_iff]
      intro k hk
      exact hq k (by omega)
    have hlen := requestsFrom_length_ge opts _ j hall
    have hgt : ¬ (i.Nodes.length + (requestsFrom opts (i.Network.capacity + 1) j).length
        ≤ i.Network.capacity) := by omega
    refine ⟨i.Network.capacity + 1, Nat.le_refl _, hall, ?_, fun hc => absurd hc hgt⟩
    obtain ⟨f, hfe⟩ : ∃ f, fuel = (i.Network.capacity + 1) + f :=
      ⟨fuel - (i.Network.capacity + 1), by omega⟩
    rw [hfe, waveLoop_run opts _ f j i hall, g.appendAll_eq]
    simp only [hgt, if_false]

theorem network4_size (addr ones : Nat) : (network4 addr ones).size = 2 ^ (32 - ones) := rfl

theorem start4_good (addr ones : Nat) (ha : addr < 2 ^ 32) (ho : ones ≤ 32) :
    Good (start4 addr ones) where
  bits := rfl
  aligned := by
    show addr / 2 ^ (32 - ones) * 2 ^ (32 - ones) % 2 ^ (32 - ones) = 0
    exact Nat.mul_mod_left _ _
  top := by
    show addr / 2 ^ (32 - ones) * 2 ^ (32 - ones) + 2 ^ (32 - ones) ≤ 2 ^ 32
    have hs : 0 < 2 ^ (32 - ones) := by positivity
    have hsplit : (2 : Nat) ^ 32 = 2 ^ ones * 2 ^ (32 - ones) := by
      rw [← Nat.pow_add]; congr 1; omega
    have hm : addr / 2 ^ (32 - ones) < 2 ^ ones := by
      rw [Nat.div_lt_iff_lt_mul hs, ← hsplit]; exact ha
    calc addr / 2 ^ (32 - ones) * 2 ^ (32 - ones) + 2 ^ (32 - ones)
        = (addr / 2 ^ (32 - ones) + 1) * 2 ^ (32 - ones) := by rw [Nat.add_mul, Nat.one_mul]
      _ ≤ 2 ^ ones * 2 ^ (32 - ones) := Nat.mul_le_mul_right _ hm
      _ = 2 ^ 32 := hsplit.symm
  bcast := rfl
  ips := by intro k node hk; simp [start4] at hk
  room := Nat.zero_le _

theorem capacity_lt_waveFuel (addr ones : Nat) :
    (network4 addr ones).capacity + 2 ≤ waveFuel := by
  have h : (2 : Nat) ^ (32 - ones) ≤ 2 ^ 32 := Nat.pow_le_pow_right (by norm_num) (by omega)
  have hp : 0 < (2 : Nat) ^ (32 - ones) := by positivity
  simp only [IPNet.capacity, network4_size, waveFuel]
  omega

theorem NewInfrastructure_v4_start (opts : InfrastructureOpts) (addr ones : Nat)
    (hc : opts.NodeCIDR = .v4 addr ones) (ha : addr < 2 ^ 32) (ho : ones ≤ 32) :
    NewInfrastructure opts =
      match waveLoop opts waveFuel 1 (start4 addr ones) with
      | none => none
      | some (i', err) => some (some i', err) := by
  simp only [NewInfrastructure, hc, ParseCIDR, ha, ho, and_self, if_true, BroadcastIPv4]
  rfl

/-- For an IPv4 CIDR the result is: the requests of the first `n` waves, served in order
for as long as the network has addresses, and the overflow error when it runs out. -/
theorem NewInfrastructure_v4 (opts : InfrastructureOpts) (addr ones : Nat)
    (hc : opts.NodeCIDR = .v4 addr ones) (ha : addr < 2 ^ 32) (ho : ones ≤ 32) :
    ∃ n, n ≤ (network4 addr ones).capacity + 1 ∧ allQualify opts n 1 = true ∧
      NewInfrastructure opts =
        some (some { start4 addr ones with
                Nodes := place ((network4 addr ones).IP + 2)
                  ((requestsFrom opts n 1).take (network4 addr ones).capacity) },
          if (requestsFrom opts n 1).length ≤ (network4 addr ones).capacity then none
          else some .overflow) ∧
      ((requestsFrom opts n 1).length ≤ (network4 addr ones).capacity →
        qualifies opts (waveAfter n 1) = false) := by
  obtain ⟨n, hn, hall, hw, hstop⟩ :=
    (start4_good addr ones ha ho).waveLoop_eq opts waveFuel 1 (capacity_lt_waveFuel addr ones)
  refine ⟨n, hn, hall, ?_, ?_⟩
  · rw [NewInfrastructure_v4_start opts addr ones hc ha ho, hw]
    simp [start4]
  · intro h
    apply hstop
    simpa [start4] using h

/-! ## Counting the requests -/

theorem qualifies_iff_le_maxCount (opts : InfrastructureOpts) (j : Nat) :
    qualifies opts j = true ↔ j ≤ maxCount opts := by
  rw [qualifies_iff, maxCount]; omega

theorem waveAfter_eq (n : Nat) : ∀ j, j < 65536 → waveAfter n j = (j + n) % 65536 := by
  induction n with
  | zero => intro j hj; simp only [waveAfter]; omega
  | succ n ih =>
    intro j hj
    have : nextWave j < 65536 := by unfold nextWave; omega
    rw [waveAfter, ih _ this]
    unfold nextWave; omega

/-- Waves that all qualify, when no count is 65535, are waves 1, ..., `n` with `n` at most
the largest count. -/
theorem allQualify_le_maxCount (opts : InfrastructureOpts) (n : Nat)
    (hall : allQualify opts n 1 = true) (hm : maxCount opts ≤ 65534) : n ≤ maxCount opts := by
  by_contra hlt
  have hk := (allQualify_iff opts n 1).1 hall (maxCount opts) (by omega)
  rw [waveAfter_eq _ 1 (by omega), qualifies_iff_le_maxCount] at hk
  omega

/-- The loop stops only after wave `maxCount`, and only if no count is 65535. -/
theorem stop_eq_maxCount (opts : InfrastructureOpts) (n : Nat)
    (hall : allQualify opts n 1 = true) (hstop : qualifies opts (waveAfter n 1) = false) :
    n = maxCount opts ∧ maxCount opts ≤ 65534 := by
  have hs : ¬ (waveAfter n 1 ≤ maxCount opts) := by
    rw [← qualifies_iff_le_maxCount, hstop]; decide
  rw [waveAfter_eq _ 1 (by omega)] at hs
  have hq : ∀ k, k < n → (1 + k) % 65536 ≤ maxCount opts := by
    intro k hk
    have := (allQualify_iff opts n 1).1 hall k hk
    rwa [waveAfter_eq _ 1 (by omega), qualifies_iff_le_maxCount] at this
  have h1 : n ≤ 65534 := by
    by_contra hc
    have := hq 65534 (by omega)
    omega
  have h2 : n ≠ 0 → n ≤ maxCount opts := by
    intro hn
    have := hq (n - 1) (by omega)
    omega
  omega

theorem allQualify_maxCount (opts : InfrastructureOpts) (hm : maxCount opts ≤ 65534) :
    allQualify opts (maxCount opts) 1 = true := by
  rw [allQualify_iff]
  intro k hk
  rw [waveAfter_eq _ 1 (by omega), qualifies_iff_le_maxCount]
  omega

theorem dedicated_length (opts : InfrastructureOpts) (j : Nat) :
    (dedicated opts j nodeTypes).length =
      span (opts.Count etcd) j 1 + span (opts.Count master) j 1
        + span (opts.Count worker) j 1 + span (opts.Count ingress) j 1 := by
  have hcons : ∀ (t : NodeType) (ts : List NodeType),
      (dedicated opts j (t :: ts)).length = span (opts.Count t) j 1 + (dedicated opts j ts).length := by
    intro t ts
    by_cases h : j ≤ opts.Count t
    · simp only [dedicated, List.filter_cons, h, decide_True, if_true, List.map_cons,
        List.length_cons, List.length_map, span]
      omega
    · simp only [dedicated, List.filter_cons, h, decide_False, Bool.false_eq_true, if_false,
        List.length_map, span]
      omega
  have hnil : (dedicated opts j []).length = 0 := rfl
  rw [nodeTypes, hcons, hcons, hcons, hcons, hnil]
  omega

theorem waveRequests_length (opts : InfrastructureOpts) (j : Nat) :
    (waveRequests opts j).length =
      if opts.OverlapRoles then span (maxCount opts) j 1
      else span (opts.Count etcd) j 1 + span (opts.Count master) j 1
        + span (opts.Count worker) j 1 + span (opts.Count ingress) j 1 := by
  unfold waveRequests
  split
  · by_cases hq : qualifies opts j = true
    · have h1 := (overlapUnion_pos_iff opts j).2 hq
      have h2 := (qualifies_iff_le_maxCount opts j).1 hq
      simp only [gt_iff_lt, h1, if_true, List.length_singleton, span]
      omega
    · have h1 : ¬ 0 < overlapUnion opts j nodeTypes 0 := fun h =>
        hq ((overlapUnion_pos_iff opts j).1 h)
      have h2 : ¬ j ≤ maxCount opts := fun h => hq ((qualifies_iff_le_maxCount opts j).2 h)
      simp only [gt_iff_lt, h1, if_false, List.length_nil, span]
      omega
  · exact dedicated_length opts j

theorem span_succ (c j n : Nat) : span c j 1 + span c (j + 1) n = span c j (n + 1) := by
  unfold span; omega

theorem requestsFrom_length (opts : InfrastructureOpts) (n : Nat) :
    ∀ j, j + n ≤ 65535 →
      (requestsFrom opts n j).length =
        if opts.OverlapRoles then span (maxCount opts) j n
        else span (opts.Count etcd) j n + span (opts.Count master) j n
          + span (opts.Count worker) j n + span (opts.Count ingress) j n := by
  induction n with
  | zero => intro j _; simp [requestsFrom, span]
  | succ n ih =>
    intro j hj
    have hnext : nextWave j = j + 1 := by unfold nextWave; omega
    rw [requestsFrom, List.length_append, waveRequests_length, hnext, ih (j + 1) (by omega)]
    split
    · exact span_succ _ _ _
    · simp only [← span_succ _ j n]; omega

/-- Without a count of 65535 the waves 1, ..., `n` up to the largest count ask for at most
`nodesWanted` nodes, and for exactly that many when `n` is the largest count. -/
theorem requestsFrom_length_le_wanted (opts : InfrastructureOpts) (n : Nat)
    (hn : n ≤ maxCount opts) (hm : maxCount opts ≤ 65534) :
    (requestsFrom opts n 1).length ≤ nodesWanted opts ∧
      (n = maxCount opts → (requestsFrom opts n 1).length = nodesWanted opts) := by
  rw [requestsFrom_length opts n 1 (by omega), nodesWanted]
  have hM : maxCount opts = max (max (opts.Count etcd) (opts.Count master))
      (max (opts.Count worker) (opts.Count ingress)) := rfl
  split
  · simp only [span]; omega
  · simp only [span]; omega

/-! ## Placing requests at consecutive addresses -/

theorem place_length (ip : Nat) (l : List Request) : (place ip l).length = l.length := by
  induction l generalizing ip with
  | nil => rfl
  | cons r l ih => obtain ⟨j, name, types⟩ := r; simp [place, ih]

theorem place_map_IP (ip : Nat) (l : List Request) :
    (place ip l).map (fun node => node.IP) = List.range' ip l.length := by
  induction l generalizing ip with
  | nil => rfl
  | cons r l ih => obtain ⟨j, name, types⟩ := r; simp [place, ih, List.range'_succ]

theorem place_getElem?_IP (ip : Nat) (l : List Request) (k : Nat) (node : NodeDetails)
    (h : (place ip l)[k]? = some node) : node.IP = ip + k := by
  have h1 : ((place ip l).map (fun node => node.IP))[k]? = some node.IP := by
    rw [List.getElem?_map, h]; rfl
  have hk : k < l.length := by
    have := (List.getElem?_eq_some_iff.1 h).1
    rwa [place_length] at this
  rw [place_map_IP, List.getElem?_range' ip 1 hk] at h1
  simp only [Option.some.injEq] at h1
  omega

/-! ## The two ways the loop ends -/

/-- For an IPv4 CIDR the loop ends in one of two ways. Either it stops after the wave of
the largest count (no count is 65535 then) with every request served, or the network
runs out of addresses: the overflow error, with the network filled to capacity. -/
theorem NewInfrastructure_v4_cases (opts : InfrastructureOpts) (addr ones : Nat)
    (hc : opts.NodeCIDR = .v4 addr ones) (ha : addr < 2 ^ 32) (ho : ones ≤ 32) :
    (maxCount opts ≤ 65534 ∧ nodesWanted opts ≤ 2 ^ (32 - ones) - 3 ∧
      NewInfrastructure opts =
        some (some { start4 addr ones with
                Nodes := place ((network4 addr ones).IP + 2)
                  (requestsFrom opts (maxCount opts) 1) }, none)) ∨
    ((65535 ≤ maxCount opts ∨ 2 ^ (32 - ones) - 3 < nodesWanted opts) ∧
      ∃ n, NewInfrastructure opts =
        some (some { start4 addr ones with
                Nodes := place ((network4 addr ones).IP + 2)
                  ((requestsFrom opts n 1).take (2 ^ (32 - ones) - 3)) }, some .overflow) ∧
        2 ^ (32 - ones) - 3 < (requestsFrom opts n 1).length) := by
  obtain ⟨n, _, hall, h, hstop⟩ := NewInfrastructure_v4 opts addr ones hc ha ho
  have hcap : (network4 addr ones).capacity = 2 ^ (32 - ones) - 3 := rfl
  rw [hcap] at h hstop
  by_cases hle : (requestsFrom opts n 1).length ≤ 2 ^ (32 - ones) - 3
  · obtain ⟨hn, hm⟩ := stop_eq_maxCount opts n hall (hstop hle)
    have hw := (requestsFrom_length_le_wanted opts n (by omega) hm).2 hn
    left
    refine ⟨hm, by omega, ?_⟩
    rw [h, if_pos hle, List.take_of_length_le hle, hn]
  · right
    refine ⟨?_, n, by rw [h, if_neg hle], by omega⟩
    by_cases hm : maxCount opts ≤ 65534
    · have hn := allQualify_le_maxCount opts n hall hm
      have hw := (requestsFrom_length_le_wanted opts n hn hm).1
      right; omega
    · left; omega

/-- Room and no count of 65535: every request of the waves 1, ..., `maxCount` is served. -/
theorem NewInfrastructure_fits (opts : InfrastructureOpts) (addr ones : Nat)
    (hc : opts.NodeCIDR = .v4 addr ones) (ha : addr < 2 ^ 32) (ho : ones ≤ 32)
    (hm : maxCount opts ≤ 65534) (hfit : nodesWanted opts ≤ 2 ^ (32 - ones) - 3) :
    NewInfrastructure opts =
      some (some { start4 addr ones with
              Nodes := place ((network4 addr ones).IP + 2)
                (requestsFrom opts (maxCount opts) 1) }, none) := by
  rcases NewInfrastructure_v4_cases opts addr ones hc ha ho with ⟨_, _, h⟩ | ⟨hbad, _⟩
  · exact h
  · omega

/-- No room or a count of 65535: the overflow error, the network filled to capacity. -/
theorem NewInfrastructure_overflows (opts : InfrastructureOpts) (addr ones : Nat)
    (hc : opts.NodeCIDR = .v4 addr ones) (ha : addr < 2 ^ 32) (ho : ones ≤ 32)
    (hbad : 65535 ≤ maxCount opts ∨ 2 ^ (32 - ones) - 3 < nodesWanted opts) :
    ∃ i, NewInfrastructure opts = some (some i, some .overflow) ∧
      i.Nodes.length = 2 ^ (32 - ones) - 3 := by
  rcases NewInfrastructure_v4_cases opts addr ones hc ha ho with ⟨_, _, _⟩ | ⟨_, n, h, hlen⟩
  · omega
  · refine ⟨_, h, ?_⟩
    simp only [place_length, List.length_take]
    omega

/-! ## The node list when everything fits -/

theorem requestsFrom_eq_flatMap (opts : InfrastructureOpts) (n : Nat) :
    ∀ j, j + n ≤ 65535 →
      requestsFrom opts n j = (List.range n).flatMap (fun k => waveRequests opts (j + k)) := by
  induction n with
  | zero => intro j _; rfl
  | succ n ih =>
    intro j hj
    have hnext : nextWave j = j + 1 := by unfold nextWave; omega
    rw [requestsFrom, hnext, ih (j + 1) (by omega), List.range_succ_eq_map, List.flatMap_cons,
      List.flatMap_map]
    congr 1
    apply congrArg
    funext k
    show waveRequests opts (j + 1 + k) = waveRequests opts (j + (k + 1))
    congr 1
    omega

theorem requestsFrom_dedicated (opts : InfrastructureOpts) (h : opts.OverlapRoles = false)
    (hm : maxCount opts ≤ 65534) :
    requestsFrom opts (maxCount opts) 1 = dedicatedPlan opts := by
  rw [requestsFrom_eq_flatMap opts _ 1 (by omega), dedicatedPlan]
  apply congrArg
  funext k
  simp only [waveRequests, h, Bool.false_eq_true, if_false, dedicated, Nat.add_comm 1 k]

theorem place_overlap (opts : InfrastructureOpts) (h : opts.OverlapRoles = true) (n : Nat) :
    ∀ j ip, j + n ≤ 65535 → (∀ k, k < n → qualifies opts (j + k) = true) →
      place ip (requestsFrom opts n j) =
        (List.range n).map (fun k =>
          { Name := "node" ++ fmt03d (j + k), IP := ip + k, Types := roleUnion opts (j + k) }) := by
  induction n with
  | zero => intro j ip _ _; rfl
  | succ n ih =>
    intro j ip hj hq
    have hnext : nextWave j = j + 1 := by unfold nextWave; omega
    have hpos : 0 < overlapUnion opts j nodeTypes 0 :=
      (overlapUnion_pos_iff opts j).2 (by simpa using hq 0 (by omega))
    have hw : waveRequests opts j = [(j, "node", roleUnion opts j)] := by
      simp only [waveRequests, h, if_true, gt_iff_lt, hpos]
      rw [overlapUnion_nodeTypes]; rfl
    have hq' : ∀ k, k < n → qualifies opts (j + 1 + k) = true := by
      intro k hk
      have := hq (k + 1) (by omega)
      rwa [show j + (k + 1) = j + 1 + k by omega] at this
    rw [requestsFrom, hw, hnext, List.singleton_append, place, ih (j + 1) (ip + 1) (by omega) hq',
      List.range_succ_eq_map, List.map_cons, List.map_map]
    congr 1
    apply List.map_congr_left
    intro k _
    simp only [Function.comp, Nat.succ_eq_add_one]
    rw [show j + 1 + k = j + (k + 1) by omega, show ip + 1 + k = ip + (k + 1) by omega]

/-- In overlap mode, with room and no count of 65535, the result is one node per wave up
to the largest count, each with the union of the roles whose count reaches the wave. -/
theorem NewInfrastructure_overlap_exact (opts : InfrastructureOpts) (addr ones : Nat)
    (hc : opts.NodeCIDR = .v4 addr ones) (ha : addr < 2 ^ 32) (ho : ones ≤ 32)
    (hov : opts.OverlapRoles = true) (hm : maxCount opts ≤ 65534)
    (hfit : maxCount opts ≤ 2 ^ (32 - ones) - 3) :
    NewInfrastructure opts =
      some (some { start4 addr ones with
              Nodes := overlapNodes opts ((network4 addr ones).IP + 2) }, none) := by
  have hw : nodesWanted opts = maxCount opts := by simp [nodesWanted, hov]
  rw [NewInfrastructure_fits opts addr ones hc ha ho hm (by omega),
    place_overlap opts hov (maxCount opts) 1 _ (by omega)]
  · simp only [overlapNodes, Nat.add_comm 1]
  · intro k hk
    rw [qualifies_iff_le_maxCount]; omega

/-- In dedicated mode, with room and no count of 65535, the result is the plan of the
spec placed at consecutive addresses; it has as many nodes as the counts sum to. -/
theorem NewInfrastructure_dedicated_exact (opts : InfrastructureOpts) (addr ones : Nat)
    (hc : opts.NodeCIDR = .v4 addr ones) (ha : addr < 2 ^ 32) (ho : ones ≤ 32)
    (hov : opts.OverlapRoles = false) (hm : maxCount opts ≤ 65534)
    (hfit : opts.Count etcd + opts.Count master + opts.Count worker + opts.Count ingress
      ≤ 2 ^ (32 - ones) - 3) :
    NewInfrastructure opts =
        some (some { start4 addr ones with
                Nodes := place ((network4 addr ones).IP + 2) (dedicatedPlan opts) }, none) ∧
      (dedicatedPlan opts).length
        = opts.Count etcd + opts.Count master + opts.Count worker + opts.Count ingress := by
  have hw : nodesWanted opts
      = opts.Count etcd + opts.Count master + opts.Count worker + opts.Count ingress := by
    simp [nodesWanted, hov]
  constructor
  · rw [NewInfrastructure_fits opts addr ones hc ha ho hm (by omega),
      requestsFrom_dedicated opts hov hm]
  · rw [← requestsFrom_dedicated opts hov hm,
      (requestsFrom_length_le_wanted opts _ (Nat.le_refl _) hm).2 rfl, hw]

theorem dedicated_countP (opts : InfrastructureOpts) (j : Nat) (t : NodeType)
    (ts : List NodeType) :
    (dedicated opts j ts).countP (fun r => decide (r.2.2 = t))
      = ts.countP (fun t' => decide (j ≤ opts.Count t') && decide (t' = t)) := by
  induction ts with
  | nil => rfl
  | cons t' ts ih =>
    have hcons : dedicated opts j (t' :: ts)
        = (if j ≤ opts.Count t' then [(j, nodeTypeStrings t', t')] else [])
            ++ dedicated opts j ts := by
      by_cases hq : j ≤ opts.Count t' <;> simp [dedicated, List.filter_cons, hq]
    rw [hcons, List.countP_append, ih, List.countP_cons]
    by_cases ht : t' = t
    · subst ht
      by_cases hq : j ≤ opts.Count t' <;> simp [hq, Nat.add_comm]
    · by_cases hq : j ≤ opts.Count t' <;> simp [hq, ht]

theorem dedicated_countP_nodeTypes (opts : InfrastructureOpts) (j : Nat) (t : NodeType)
    (ht : t ∈ nodeTypes) :
    (dedicated opts j nodeTypes).countP (fun r => decide (r.2.2 = t))
      = span (opts.Count t) j 1 := by
  rw [dedicated_countP]
  have hspan : span (opts.Count t) j 1 = if j ≤ opts.Count t then 1 else 0 := by
    unfold span; split <;> omega
  rw [hspan]
  simp only [nodeTypes, List.mem_cons, List.mem_singleton, List.not_mem_nil, or_false] at ht
  rcases ht with rfl | rfl | rfl | rfl
  · by_cases hq : j ≤ opts.Count etcd <;>
      simp [nodeTypes, List.countP_cons, hq, etcd, master, worker, ingress]
  · by_cases hq : j ≤ opts.Count master <;>
      simp [nodeTypes, List.countP_cons, hq, etcd, master, worker, ingress]
  · by_cases hq : j ≤ opts.Count worker <;>
      simp [nodeTypes, List.countP_cons, hq, etcd, master, worker, ingress]
  · by_cases hq : j ≤ opts.Count ingress <;>
      simp [nodeTypes, List.countP_cons, hq, etcd, master, worker, ingress]

theorem requestsFrom_countP (opts : InfrastructureOpts) (h : opts.OverlapRoles = false)
    (t : NodeType) (ht : t ∈ nodeTypes) (n : Nat) :
    ∀ j, j + n ≤ 65535 →
      (requestsFrom opts n j).countP (fun r => decide (r.2.2 = t)) = span (opts.Count t) j n := by
  induction n with
  | zero => intro j _; simp [requestsFrom, span]
  | succ n ih =>
    intro j hj
    have hnext : nextWave j = j + 1 := by unfold nextWave; omega
    have hw : waveRequests opts j = dedicated opts j nodeTypes := by
      simp [waveRequests, h]
    rw [requestsFrom, List.countP_append, hw, dedicated_countP_nodeTypes opts j t ht, hnext,
      ih (j + 1) (by omega), span_succ]

theorem place_filter_length (ip : Nat) (l : List Request) (t : NodeType) :
    ((place ip l).filter (fun node => decide (node.Types = t))).length
      = l.countP (fun r => decide (r.2.2 = t)) := by
  induction l generalizing ip with
  | nil => rfl
  | cons r l ih =>
    obtain ⟨j, name, types⟩ := r
    simp only [place, List.filter_cons, List.countP_cons]
    by_cases hq : types = t <;> simp [hq, ih]

/-- In dedicated mode, with no count of 65535, the plan placed at any addresses has
exactly `Count r` nodes whose role set is the single role `r`. -/
theorem dedicated_nodes_per_role (opts : InfrastructureOpts) (hov : opts.OverlapRoles = false)
    (hm : maxCount opts ≤ 65534) (ip : Nat) (t : NodeType) (ht : t ∈ nodeTypes) :
    ((place ip (dedicatedPlan opts)).filter (fun node => decide (node.Types = t))).length
      = opts.Count t := by
  have hle : opts.Count t ≤ maxCount opts := by
    simp only [nodeTypes, List.mem_cons, List.mem_singleton, List.not_mem_nil, or_false] at ht
    unfold maxCount
    rcases ht with rfl | rfl | rfl | rfl <;> omega
  rw [place_filter_length, ← requestsFrom_dedicated opts hov hm,
    requestsFrom_countP opts hov t ht _ 1 (by omega)]
  unfold span; omega

/-! ## The rendering `%03d` -/

theorem toDigitsCore_acc (fuel : Nat) : ∀ (n : Nat) (ds : List Char),
    Nat.toDigitsCore 10 fuel n ds = Nat.toDigitsCore 10 fuel n [] ++ ds := by
  induction fuel with
  | zero => intro n ds; simp [Nat.toDigitsCore]
  | succ fuel ih =>
    intro n ds
    simp only [Nat.toDigitsCore]
    split
    · simp
    · rw [ih (n / 10) (Nat.digitChar (n % 10) :: ds), ih (n / 10) [Nat.digitChar (n % 10)]]
      simp

theorem toDigitsCore_fuel (fuel : Nat) : ∀ (fuel' n : Nat) (ds : List Char),
    n < fuel → n < fuel' →
      Nat.toDigitsCore 10 fuel n ds = Nat.toDigitsCore 10 fuel' n ds := by
  induction fuel with
  | zero => intro fuel' n ds h; omega
  | succ fuel ih =>
    intro fuel' n ds h h'
    cases fuel' with
    | zero => omega
    | succ fuel' =>
      simp only [Nat.toDigitsCore]
      split
      · rfl
      · rename_i hne
        exact ih fuel' (n / 10) _ (by omega) (by omega)

theorem decimal_small (n : Nat) (h : n < 10) : decimal n = [Nat.digitChar n] := by
  have h0 : n / 10 = 0 := by omega
  have h1 : n % 10 = n := by omega
  simp [decimal, Nat.toDigits, Nat.toDigitsCore, h0, h1]

theorem decimal_large (n : Nat) (h : 10 ≤ n) :
    decimal n = decimal (n / 10) ++ [Nat.digitChar (n % 10)] := by
  have h0 : n / 10 ≠ 0 := by omega
  have e1 : decimal n = Nat.toDigitsCore 10 n (n / 10) [Nat.digitChar (n % 10)] := by
    simp only [decimal, Nat.toDigits, Nat.toDigitsCore, h0, if_false]
  rw [e1, toDigitsCore_acc, toDigitsCore_fuel n (n / 10 + 1) (n / 10) [] (by omega) (by omega)]
  rfl

theorem decimal_length_pos (n : Nat) : 0 < (decimal n).length := by
  by_cases h : n < 10
  · simp [decimal_small n h]
  · simp [decimal_large n (by omega)]

theorem decimal_length_le_three (n : Nat) (h : n < 1000) : (decimal n).length ≤ 3 := by
  by_cases h1 : n < 10
  · simp [decimal_small n h1]
  · rw [decimal_large n (by omega)]
    by_cases h2 : n / 10 < 10
    · simp [decimal_small _ h2]
    · rw [decimal_large _ (by omega), decimal_small (n / 10 / 10) (by omega)]
      simp

theorem decimal_length_gt_three (n : Nat) (h : 1000 ≤ n) : 3 < (decimal n).length := by
  have := decimal_length_pos (n / 10 / 10 / 10)
  rw [decimal_large n (by omega), decimal_large _ (by omega), decimal_large _ (by omega)]
  simp only [List.length_append, List.length_singleton]
  omega

theorem fmt03d_length (n : Nat) :
    (fmt03d n).length = 3 - (decimal n).length + (decimal n).length := by
  simp [fmt03d, String.length]

/-- The rendering is never shorter than three characters, and three exactly below 1000. -/
theorem fmt03d_length_eq_three_iff (n : Nat) :
    3 ≤ (fmt03d n).length ∧ ((fmt03d n).length = 3 ↔ n < 1000) := by
  rw [fmt03d_length]
  by_cases h : n < 1000
  · have := decimal_length_le_three n h
    omega
  · have := decimal_length_gt_three n (by omega)
    omega

theorem digitChar_value (d : Nat) (h : d < 10) : (Nat.digitChar d).toNat - 48 = d := by
  interval_cases d <;> rfl

theorem decode_snoc (l : List Char) (c : Char) :
    decodeDecimal (String.mk (l ++ [c])) = 10 * decodeDecimal (String.mk l) + (c.toNat - 48) := by
  simp [decodeDecimal, List.foldl_append]

theorem decode_decimal (n : Nat) : decodeDecimal (String.mk (decimal n)) = n := by
  induction n using Nat.strong_induction_on with
  | _ n ih =>
    by_cases h : n < 10
    · rw [decimal_small n h]
      have := digitChar_value n h
      simp only [decodeDecimal, List.foldl_cons, List.foldl_nil]
      omega
    · rw [decimal_large n (by omega), decode_snoc, ih (n / 10) (by omega),
        digitChar_value (n % 10) (by omega)]
      omega

theorem decode_zeros (k : Nat) (l : List Char) :
    decodeDecimal (String.mk (List.replicate k '0' ++ l)) = decodeDecimal (String.mk l) := by
  have hz : ∀ k, List.foldl (fun acc c => 10 * acc + (Char.toNat c - 48)) 0
      (List.replicate k '0') = 0 := by
    intro k
    induction k with
    | zero => rfl
    | succ k ih => simp only [List.replicate_succ, List.foldl_cons]; exact ih
  simp only [decodeDecimal, List.foldl_append, hz]

/-- The rendering of a wave index reads back as that index. -/
theorem decode_fmt03d (n : Nat) : decodeDecimal (fmt03d n) = n := by
  rw [fmt03d, decode_zeros, decode_decimal]

/-! ## Where a node comes from -/

theorem mem_place (ip : Nat) (l : List Request) (node : NodeDetails) (h : node ∈ place ip l) :
    ∃ j name types, (j, name, types) ∈ l ∧ node.Name = name ++ fmt03d j ∧ node.Types = types := by
  induction l generalizing ip with
  | nil => simp [place] at h
  | cons r l ih =>
    obtain ⟨j, name, types⟩ := r
    simp only [place, List.mem_cons] at h
    rcases h with h | h
    · exact ⟨j, name, types, List.mem_cons_self _ _, by rw [h], by rw [h]⟩
    · obtain ⟨j', name', types', hm, hn, ht⟩ := ih (ip + 1) h
      exact ⟨j', name', types', List.mem_cons_of_mem _ hm, hn, ht⟩

theorem place_mem (ip : Nat) (l : List Request) (j : Nat) (name : String) (types : NodeType)
    (h : (j, name, types) ∈ l) :
    ∃ node, node ∈ place ip l ∧ node.Name = name ++ fmt03d j ∧ node.Types = types := by
  induction l generalizing ip with
  | nil => simp at h
  | cons r l ih =>
    obtain ⟨j', name', types'⟩ := r
    simp only [List.mem_cons] at h
    rcases h with h | h
    · simp only [Prod.mk.injEq] at h
      obtain ⟨h1, h2, h3⟩ := h
      subst h1 h2 h3
      exact ⟨_, List.mem_cons_self _ _, rfl, rfl⟩
    · obtain ⟨node, hm, hn, ht⟩ := ih (ip + 1) h
      exact ⟨node, List.mem_cons_of_mem _ hm, hn, ht⟩

theorem mem_requestsFrom (opts : InfrastructureOpts) (n : Nat) :
    ∀ (j0 : Nat) (r : Request), r ∈ requestsFrom opts n j0 ↔
      ∃ k, k < n ∧ r ∈ waveRequests opts (waveAfter k j0) := by
  induction n with
  | zero => intro j0 r; simp [requestsFrom]
  | succ n ih =>
    intro j0 r
    simp only [requestsFrom, List.mem_append, ih]
    constructor
    · rintro (h | ⟨k, hk, h⟩)
      · exact ⟨0, by omega, h⟩
      · exact ⟨k + 1, by omega, h⟩
    · rintro ⟨k, hk, h⟩
      cases k with
      | zero => exact Or.inl h
      | succ k => exact Or.inr ⟨k, by omega, h⟩

theorem mem_waveRequests (opts : InfrastructureOpts) (j : Nat) (r : Request)
    (h : r ∈ waveRequests opts j) :
    r.1 = j ∧
      (if opts.OverlapRoles then
        r.2.1 = "node" ∧ r.2.2 = overlapUnion opts j nodeTypes 0 ∧ 0 < r.2.2
      else r.2.1 = nodeTypeStrings r.2.2 ∧ r.2.2 ∈ nodeTypes ∧ j ≤ opts.Count r.2.2) := by
  unfold waveRequests at h
  cases ho : opts.OverlapRoles with
  | true =>
    rw [ho] at h
    simp only [if_true] at h ⊢
    split at h
    · rename_i hpos
      simp only [List.mem_singleton] at h
      subst h
      exact ⟨rfl, rfl, rfl, hpos⟩
    · simp at h
  | false =>
    rw [ho] at h
    simp only [Bool.false_eq_true, if_false, dedicated, List.mem_map, List.mem_filter,
      decide_eq_true_eq] at h ⊢
    obtain ⟨t, ⟨ht, hq⟩, rfl⟩ := h
    exact ⟨rfl, rfl, ht, hq⟩

/-! ## The properties of the topology planner -/

/-- For an IPv4 CIDR the function returns an infrastructure whose nodes are requests of
the waves, placed at consecutive addresses from network + 2 on, within the capacity. -/
theorem NewInfrastructure_v4_nodes (opts : InfrastructureOpts) (addr ones : Nat)
    (hc : opts.NodeCIDR = .v4 addr ones) (ha : addr < 2 ^ 32) (ho : ones ≤ 32) :
    ∃ i err reqs, NewInfrastructure opts = some (some i, err) ∧
      i.Network = network4 addr ones ∧
      i.Broadcast = (network4 addr ones).IP + (network4 addr ones).size - 1 ∧
      i.Nodes = place ((network4 addr ones).IP + 2) reqs ∧
      reqs.length ≤ (network4 addr ones).capacity := by
  obtain ⟨n, _, _, h, _⟩ := NewInfrastructure_v4 opts addr ones hc ha ho
  exact ⟨_, _, _, h, rfl, rfl, rfl, by simp [List.length_take]⟩

/-- Only an IPv4 CIDR within range gets as far as an infrastructure. -/
theorem NewInfrastructure_some_v4 (opts : InfrastructureOpts) (i : Infrastructure)
    (err : Option Error) (h : NewInfrastructure opts = some (some i, err)) :
    ∃ addr ones, opts.NodeCIDR = .v4 addr ones ∧ addr < 2 ^ 32 ∧ ones ≤ 32 := by
  unfold NewInfrastructure at h
  cases hc : opts.NodeCIDR with
  | malformed => simp [hc, ParseCIDR] at h
  | v6 addr ones =>
    rw [hc] at h
    by_cases hr : addr < 2 ^ 128 ∧ ones ≤ 128
    · simp only [ParseCIDR, if_pos hr, BroadcastIPv4] at h
      simp at h
    · simp only [ParseCIDR, if_neg hr] at h
      simp at h
  | v4 addr ones =>
    by_cases hr : addr < 2 ^ 32 ∧ ones ≤ 32
    · exact ⟨addr, ones, rfl, hr.1, hr.2⟩
    · rw [hc] at h
      simp only [ParseCIDR, if_neg hr] at h
      simp at h

/-- C1: for an IPv4 CIDR `addr/ones`, whatever the counts and the overlap flag,
`NewInfrastructure` returns a topology over the network `addr` with its host bits
cleared whose `k`-th node (from 0) has the address network + 2 + `k`: the first node is
at network + 2 and each later node one above the node before it. The topology has as
many nodes as the counts ask for (their sum, or their maximum in overlap mode) when these
fit in the network and no count is 65535, and then no error is returned; otherwise it has
the 2^(32 - `ones`) - 3 nodes the network has room for. So the addresses of the nodes are
network + 2, network + 3, ... in this number, and a topology that is asked for a node
in a network with room for one has a first node, at network + 2. -/
theorem C1_node_addresses (opts : InfrastructureOpts) (addr ones : Nat)
    (hc : opts.NodeCIDR = .v4 addr ones) (ha : addr < 2 ^ 32) (ho : ones ≤ 32) :
    ∃ i err, NewInfrastructure opts = some (some i, err) ∧
      i.Network.IP = addr / 2 ^ (32 - ones) * 2 ^ (32 - ones) ∧
      (∀ node, i.Nodes[0]? = some node → node.IP = i.Network.IP + 2) ∧
      (∀ k prev node, i.Nodes[k]? = some prev → i.Nodes[k + 1]? = some node →
        node.IP = prev.IP + 1) ∧
      (∀ k node, i.Nodes[k]? = some node → node.IP = i.Network.IP + 2 + k) ∧
      (err = none ↔ (maxCount opts ≤ 65534 ∧ nodesWanted opts ≤ 2 ^ (32 - ones) - 3)) ∧
      i.Nodes.length
        = (if maxCount opts ≤ 65534 ∧ nodesWanted opts ≤ 2 ^ (32 - ones) - 3
            then nodesWanted opts else 2 ^ (32 - ones) - 3) ∧
      i.Nodes.map (fun node => node.IP) = List.range' (i.Network.IP + 2) i.Nodes.length ∧
      (0 < nodesWanted opts → 0 < 2 ^ (32 - ones) - 3 →
        ∃ node, i.Nodes[0]? = some node ∧ node.IP = i.Network.IP + 2) := by
  have key : ∃ i err reqs, NewInfrastructure opts = some (some i, err) ∧
      i.Network = network4 addr ones ∧
      i.Nodes = place ((network4 addr ones).IP + 2) reqs ∧
      (err = none ↔ (maxCount opts ≤ 65534 ∧ nodesWanted opts ≤ 2 ^ (32 - ones) - 3)) ∧
      reqs.length
        = (if maxCount opts ≤ 65534 ∧ nodesWanted opts ≤ 2 ^ (32 - ones) - 3
            then nodesWanted opts else 2 ^ (32 - ones) - 3) := by
    rcases NewInfrastructure_v4_cases opts addr ones hc ha ho with
      ⟨hm, hfit, hrun⟩ | ⟨hbad, n, hrun, hlt⟩
    · refine ⟨_, none, _, hrun, rfl, rfl, by simp [hm, hfit], ?_⟩
      rw [if_pos ⟨hm, hfit⟩]
      exact (requestsFrom_length_le_wanted opts _ (Nat.le_refl _) hm).2 rfl
    · have hno : ¬ (maxCount opts ≤ 65534 ∧ nodesWanted opts ≤ 2 ^ (32 - ones) - 3) := by
        intro h
        omega
      refine ⟨_, some .overflow, _, hrun, rfl, rfl, by simp [hno], ?_⟩
      rw [if_neg hno, List.length_take]
      omega
  obtain ⟨i, err, reqs, h, hn, hnodes, herr, hlen⟩ := key
  have hk : ∀ k node, i.Nodes[k]? = some node → node.IP = i.Network.IP + 2 + k := by
    intro k node hk
    rw [hnodes] at hk
    rw [hn]
    exact place_getElem?_IP _ _ _ _ hk
  have hl : i.Nodes.length
      = (if maxCount opts ≤ 65534 ∧ nodesWanted opts ≤ 2 ^ (32 - ones) - 3
          then nodesWanted opts else 2 ^ (32 - ones) - 3) := by
    rw [hnodes, place_length, hlen]
  refine ⟨i, err, h, by rw [hn]; rfl, fun node h0 => hk 0 node h0, ?_, hk, herr, hl, ?_, ?_⟩
  · intro k prev node hp hnx
    rw [hk _ _ hp, hk _ _ hnx]
    omega
  · rw [hnodes, place_map_IP, place_length, hn]
  · intro hw hcap
    have hpos : 0 < i.Nodes.length := by
      rw [hl]
      split
      · exact hw
      · exact hcap
    obtain ⟨node, hnode⟩ : ∃ node, i.Nodes[0]? = some node := by
      cases hi : i.Nodes with
      | nil => rw [hi] at hpos; simp at hpos
      | cons node rest => exact ⟨node, by simp⟩
    exact ⟨node, hnode, hk 0 node hnode⟩

/-- Witness of C1: 192.168.42.0/24 with counts `{etcd: 1}` gives one node, at
192.168.42.2, and no error. -/
theorem C1_node_addresses_witness :
    ∃ i, NewInfrastructure exampleOpts = some (some i, none) ∧
      i.Nodes.map (fun node => node.IP) = [3232246274] ∧
      ∃ node, i.Nodes[0]? = some node ∧ node.IP = 3232246274 := by
  obtain ⟨i, err, h, hnet, _, _, _, herr, hlen, hips, hfirst⟩ :=
    C1_node_addresses exampleOpts 3232246272 24 rfl (by decide) (by decide)
  have hcond : maxCount exampleOpts ≤ 65534 ∧ nodesWanted exampleOpts ≤ 2 ^ (32 - 24) - 3 := by
    decide
  have hw : nodesWanted exampleOpts = 1 := by decide
  have hip : i.Network.IP + 2 = 3232246274 := by rw [hnet]; decide
  rw [herr.2 hcond] at h
  rw [if_pos hcond, hw] at hlen
  rw [hlen, hip] at hips
  obtain ⟨node, hnode, hnip⟩ := hfirst (by rw [hw]; decide) (by decide)
  exact ⟨i, h, hips, node, hnode, by rw [hnip, hip]⟩

/-- C2: in every topology `NewInfrastructure` returns, with or without an error, the node
addresses increase strictly along the list, are pairwise distinct, and each lies above
the gateway (network + 1) and below the broadcast address. -/
theorem C2_addresses_increasing_inside (opts : InfrastructureOpts) (i : Infrastructure)
    (err : Option Error) (h : NewInfrastructure opts = some (some i, err)) :
    List.Pairwise (fun a b => a < b) (i.Nodes.map (fun node => node.IP)) ∧
      (i.Nodes.map (fun node => node.IP)).Nodup ∧
      ∀ node, node ∈ i.Nodes →
        i.Network.IP < node.IP ∧ i.Network.IP + 1 < node.IP ∧ node.IP < i.Broadcast := by
  obtain ⟨addr, ones, hc, ha, ho⟩ := NewInfrastructure_some_v4 opts i err h
  obtain ⟨i', err', reqs, h', hn, hb, hnodes, hlen⟩ :=
    NewInfrastructure_v4_nodes opts addr ones hc ha ho
  rw [h] at h'
  simp only [Option.some.injEq, Prod.mk.injEq] at h'
  obtain ⟨hi, _⟩ := h'
  subst hi
  have hips : i.Nodes.map (fun node => node.IP)
      = List.range' ((network4 addr ones).IP + 2) reqs.length := by
    rw [hnodes, place_map_IP]
  refine ⟨?_, ?_, ?_⟩
  · rw [hips]; exact List.pairwise_lt_range' _ _
  · rw [hips]; exact List.nodup_range' _ _
  · intro node hmem
    have hm : node.IP ∈ i.Nodes.map (fun node => node.IP) := List.mem_map_of_mem _ hmem
    rw [hips, List.mem_range'_1] at hm
    have hcap : (network4 addr ones).capacity = (network4 addr ones).size - 3 := rfl
    rw [hn, hb]
    omega

/-- Witness of C2: the topology of 192.168.42.0/24 with counts `{etcd: 1}`. -/
theorem C2_addresses_increasing_inside_witness :
    List.Pairwise (fun a b => a < b) [3232246274] ∧ [3232246274].Nodup ∧
      ∀ node, node ∈ [({ Name := "etcd001", IP := 3232246274, Types := 1 } : NodeDetails)] →
        3232246272 < node.IP ∧ 3232246272 + 1 < node.IP ∧ node.IP < 3232246527 :=
  C2_addresses_increasing_inside exampleOpts
    { Network := ⟨3232246272, 24, 32⟩, Broadcast := 3232246527,
      Nodes := [{ Name := "etcd001", IP := 3232246274, Types := 1 }] } none (by decide)

/-- C3: for an IPv4 CIDR with prefix length `ones`, whenever the number of nodes to
allocate (the sum of the counts, in overlap mode their maximum) exceeds the
`2 ^ (32 - ones) - 3` addresses strictly between gateway and broadcast (zero when the
difference is negative), `NewInfrastructure` returns the address-overflow error, and the
topology it hands back holds exactly that many nodes. A /30 holds one node: a request
for a single node there succeeds. -/
theorem C3_overflow_beyond_capacity (opts : InfrastructureOpts) (addr ones : Nat)
    (hc : opts.NodeCIDR = .v4 addr ones) (ha : addr < 2 ^ 32) (ho : ones ≤ 32) :
    (2 ^ (32 - ones) - 3 < nodesWanted opts →
      ∃ i, NewInfrastructure opts = some (some i, some .overflow) ∧
        i.Nodes.length = 2 ^ (32 - ones) - 3) ∧
    (ones = 30 → nodesWanted opts = 1 →
      ∃ i, NewInfrastructure opts = some (some i, none) ∧ i.Nodes.length = 1) := by
  constructor
  · intro hover
    exact NewInfrastructure_overflows opts addr ones hc ha ho (Or.inr hover)
  · intro h30 h1
    subst h30
    have hm : maxCount opts ≤ 1 := by
      rw [← h1]
      unfold nodesWanted maxCount
      split <;> omega
    refine ⟨_, NewInfrastructure_fits opts addr 30 hc ha ho (by omega) (by rw [h1]; norm_num), ?_⟩
    simp only [place_length]
    rw [(requestsFrom_length_le_wanted opts _ (Nat.le_refl _) (by omega)).2 rfl, h1]

/-- Witness of C3: a /30 network holds one node, so asking for two etcd nodes fails. -/
theorem C3_overflow_beyond_capacity_witness :
    ∃ i, NewInfrastructure slash30Opts = some (some i, some .overflow) ∧
      i.Nodes.length = 2 ^ (32 - 30) - 3 :=
  (C3_overflow_beyond_capacity slash30Opts 3232246272 30 rfl (by decide) (by decide)).1
    (by decide)

/-- C4, at a count of 65535: with counts `{etcd: 65535}` and dedicated nodes in
10.0.0.0/8 there is room for the 65535 nodes wanted, yet `NewInfrastructure` returns the
overflow error, having filled the network with 16777213 nodes: after wave 65535 the
`uint16` wave index wraps to 0, which every count reaches, so no wave ever finishes. -/
theorem C4_count_65535_overflows :
    nodesWanted maxCountOpts = 65535 ∧ 65535 ≤ 2 ^ (32 - 8) - 3 ∧
      ∃ i, NewInfrastructure maxCountOpts = some (some i, some .overflow) ∧
        i.Nodes.length = 16777213 := by
  refine ⟨by decide, by norm_num, ?_⟩
  obtain ⟨i, h, hlen⟩ := NewInfrastructure_overflows maxCountOpts 167772160 8 rfl (by decide)
    (by decide) (Or.inl (by decide))
  exact ⟨i, h, by rw [hlen]; norm_num⟩

/-- C5, at a count of 65535: with counts `{etcd: 65535}` in overlap mode in 10.0.0.0/8 the
largest count is 65535 and there is room for as many nodes, yet `NewInfrastructure`
returns the overflow error with 16777213 nodes, for the same wrap of the wave index. -/
theorem C5_count_65535_overflows :
    nodesWanted maxCountOverlapOpts = 65535 ∧ 65535 ≤ 2 ^ (32 - 8) - 3 ∧
      ∃ i, NewInfrastructure maxCountOverlapOpts = some (some i, some .overflow) ∧
        i.Nodes.length = 16777213 := by
  refine ⟨by decide, by norm_num, ?_⟩
  obtain ⟨i, h, hlen⟩ := NewInfrastructure_overflows maxCountOverlapOpts 167772160 8 rfl
    (by decide) (by decide) (Or.inl (by decide))
  exact ⟨i, h, by rw [hlen]; norm_num⟩

/-- The example of the spec for overlap mode: with one of each role the result is a single
node that carries all four role bits. -/
theorem minikube_single_node :
    NewInfrastructure minikubeOpts =
      some (some { Network := ⟨3232246272, 24, 32⟩, Broadcast := 3232246527,
                   Nodes := [{ Name := "node001", IP := 3232246274, Types := 15 }] }, none) := by
  decide

/-- What C6 says as it is written, refuted: with counts `{etcd: 1000}` in 10.0.0.0/16 the
function succeeds, and it is not so that every node's name is its role's name followed by
exactly three characters: the node of wave 1000 is named `etcd1000`. -/
theorem C6_three_digits_counterexample :
    ∃ i, NewInfrastructure thousandOpts = some (some i, none) ∧
      ¬ (∀ node, node ∈ i.Nodes →
          ∃ sfx : String, node.Name = nodeTypeStrings node.Types ++ sfx ∧ sfx.length = 3) := by
  refine ⟨_, NewInfrastructure_fits thousandOpts 167772160 16 rfl (by decide) (by decide)
    (by decide) (by decide), ?_⟩
  intro hall
  have hM : maxCount thousandOpts = 1000 := by decide
  have hw : ((1000, "etcd", etcd) : Request) ∈ waveRequests thousandOpts (waveAfter 999 1) := by
    rw [waveAfter_eq 999 1 (by omega)]
    decide
  have hr : ((1000, "etcd", etcd) : Request) ∈ requestsFrom thousandOpts (maxCount thousandOpts) 1 := by
    rw [hM, mem_requestsFrom]
    exact ⟨999, by omega, hw⟩
  obtain ⟨node, hmem, hname, htypes⟩ :=
    place_mem ((network4 167772160 16).IP + 2) _ _ _ _ hr
  obtain ⟨sfx, hs, hlen⟩ := hall node hmem
  rw [hname, htypes] at hs
  have hbase : nodeTypeStrings etcd = "etcd" := by decide
  rw [hbase] at hs
  have hsfx : fmt03d 1000 = sfx := by
    have := congrArg String.data hs
    simp only [String.data_append, List.append_cancel_left_eq] at this
    exact String.ext this
  rw [← hsfx] at hlen
  have := (fmt03d_length_eq_three_iff 1000).2.1 hlen
  omega

/-- C6, amended: every node of a returned topology was asked for by some wave `j` (below
`2 ^ 16`), and its name is the base name, the name of its role or `node` in overlap mode,
followed by the `%03d` rendering of `j`: the decimal digits of `j` padded with zeros to
at least three characters. The rendering reads back as `j`; it has three characters
exactly when `j` is below 1000. -/
theorem C6_node_names (opts : InfrastructureOpts) (i : Infrastructure) (err : Option Error)
    (h : NewInfrastructure opts = some (some i, err)) (node : NodeDetails)
    (hnode : node ∈ i.Nodes) :
    ∃ j base, j < 65536 ∧ (j, base, node.Types) ∈ waveRequests opts j ∧
      base = (if opts.OverlapRoles then "node" else nodeTypeStrings node.Types) ∧
      (opts.OverlapRoles = false → node.Types ∈ nodeTypes ∧ j ≤ opts.Count node.Types) ∧
      node.Name = base ++ fmt03d j ∧
      decodeDecimal (fmt03d j) = j ∧ 3 ≤ (fmt03d j).length ∧
      ((fmt03d j).length = 3 ↔ j < 1000) := by
  obtain ⟨addr, ones, hc, ha, ho⟩ := NewInfrastructure_some_v4 opts i err h
  obtain ⟨n, _, _, h', _⟩ := NewInfrastructure_v4 opts addr ones hc ha ho
  rw [h] at h'
  simp only [Option.some.injEq, Prod.mk.injEq] at h'
  obtain ⟨hi, _⟩ := h'
  subst hi
  obtain ⟨j, name, types, hr, hname, htypes⟩ := mem_place _ _ node hnode
  obtain ⟨k, _, hk⟩ := (mem_requestsFrom opts n 1 _).1 (List.mem_of_mem_take hr)
  have hj := mem_waveRequests opts _ _ hk
  simp only at hj
  obtain ⟨hj1, hj2⟩ := hj
  have hlt : j < 65536 := by
    rw [hj1, waveAfter_eq k 1 (by omega)]; omega
  rw [← hj1] at hk hj2
  subst htypes
  have hlen := fmt03d_length_eq_three_iff j
  cases hov : opts.OverlapRoles with
  | true =>
    rw [hov] at hj2
    simp only [if_true] at hj2
    refine ⟨j, name, hlt, hk, ?_, ?_, hname, decode_fmt03d j, hlen.1, hlen.2⟩
    · simpa using hj2.1
    · intro hf; cases hf
  | false =>
    rw [hov] at hj2
    simp only [Bool.false_eq_true, if_false] at hj2
    refine ⟨j, name, hlt, hk, ?_, ?_, hname, decode_fmt03d j, hlen.1, hlen.2⟩
    · simpa using hj2.1
    · intro _; exact ⟨hj2.2.1, hj2.2.2⟩

/-- Witness of C6: the node `etcd001` of 192.168.42.0/24 with counts `{etcd: 1}`. -/
theorem C6_node_names_witness :
    ∃ j base, j < 65536 ∧ (j, base, etcd) ∈ waveRequests exampleOpts j ∧
      base = (if exampleOpts.OverlapRoles then "node" else nodeTypeStrings etcd) ∧
      (exampleOpts.OverlapRoles = false → etcd ∈ nodeTypes ∧ j ≤ exampleOpts.Count etcd) ∧
      "etcd001" = base ++ fmt03d j ∧
      decodeDecimal (fmt03d j) = j ∧ 3 ≤ (fmt03d j).length ∧
      ((fmt03d j).length = 3 ↔ j < 1000) :=
  C6_node_names exampleOpts
    { Network := ⟨3232246272, 24, 32⟩, Broadcast := 3232246527,
      Nodes := [{ Name := "etcd001", IP := 3232246274, Types := 1 }] } none (by decide)
    { Name := "etcd001", IP := 3232246274, Types := 1 } (by decide)

/-- C7: `NewInfrastructure` returns for every input, counts of 65535 included. For an IPv4
CIDR the waves before the one it stops at all have a qualifying role, and it stops either
without error at a wave in which no role qualifies, every request before served, or with
the overflow error; with all counts zero it returns the empty node list and no error. -/
theorem C7_terminates (opts : InfrastructureOpts) :
    (∃ r, NewInfrastructure opts = some r) ∧
    (∀ addr ones, opts.NodeCIDR = .v4 addr ones → addr < 2 ^ 32 → ones ≤ 32 →
      ∃ n i err, allQualify opts n 1 = true ∧ NewInfrastructure opts = some (some i, err) ∧
        ((err = none ∧ qualifies opts (waveAfter n 1) = false ∧
            i.Nodes = place ((network4 addr ones).IP + 2) (requestsFrom opts n 1)) ∨
          err = some .overflow)) ∧
    (∀ addr ones, opts.NodeCIDR = .v4 addr ones → addr < 2 ^ 32 → ones ≤ 32 →
      (∀ t, t ∈ nodeTypes → opts.Count t = 0) →
      ∃ i, NewInfrastructure opts = some (some i, none) ∧ i.Nodes = []) := by
  refine ⟨?_, ?_, ?_⟩
  · cases hc : opts.NodeCIDR with
    | malformed =>
      refine ⟨(none, some .invalidCIDR), ?_⟩
      simp only [NewInfrastructure, hc, ParseCIDR]
    | v6 addr ones =>
      by_cases hr : addr < 2 ^ 128 ∧ ones ≤ 128
      · refine ⟨(none, some .notIPv4), ?_⟩
        simp only [NewInfrastructure, hc, ParseCIDR, if_pos hr, BroadcastIPv4]
        simp
      · refine ⟨(none, some .invalidCIDR), ?_⟩
        simp only [NewInfrastructure, hc, ParseCIDR, if_neg hr]
    | v4 addr ones =>
      by_cases hr : addr < 2 ^ 32 ∧ ones ≤ 32
      · obtain ⟨n, _, _, h, _⟩ := NewInfrastructure_v4 opts addr ones hc hr.1 hr.2
        exact ⟨_, h⟩
      · refine ⟨(none, some .invalidCIDR), ?_⟩
        simp only [NewInfrastructure, hc, ParseCIDR, if_neg hr]
  · intro addr ones hc ha ho
    obtain ⟨n, _, hall, h, hstop⟩ := NewInfrastructure_v4 opts addr ones hc ha ho
    by_cases hle : (requestsFrom opts n 1).length ≤ (network4 addr ones).capacity
    · refine ⟨n, _, _, hall, h, Or.inl ⟨by rw [if_pos hle], hstop hle, ?_⟩⟩
      simp only [List.take_of_length_le hle]
    · exact ⟨n, _, _, hall, h, Or.inr (by rw [if_neg hle])⟩
  · intro addr ones hc ha ho hz
    have h0 : maxCount opts = 0 := by
      simp only [maxCount, hz etcd (by decide), hz master (by decide), hz worker (by decide),
        hz ingress (by decide)]
      rfl
    have hw : nodesWanted opts = 0 := by
      simp only [nodesWanted, h0, hz etcd (by decide), hz master (by decide),
        hz worker (by decide), hz ingress (by decide)]
      simp
    have h := NewInfrastructure_fits opts addr ones hc ha ho (by omega) (by omega)
    rw [h0] at h
    exact ⟨_, h, rfl⟩

/-- Witness of C7 for the part on zero counts: 192.168.42.0/24 with no node wanted. -/
theorem C7_terminates_witness :
    ∃ i, NewInfrastructure zeroOpts = some (some i, none) ∧ i.Nodes = [] :=
  (C7_terminates zeroOpts).2.2 3232246272 24 rfl (by decide) (by decide) (fun _ _ => rfl)

theorem roleLoop_congr (o1 o2 : InfrastructureOpts) (hov : o1.OverlapRoles = o2.OverlapRoles)
    (j : Nat) (ts : List NodeType) (hcount : ∀ t, t ∈ ts → o1.Count t = o2.Count t) :
    ∀ (i : Infrastructure) (acc : NodeType) (fin : Bool),
      roleLoop o1 j ts i acc fin = roleLoop o2 j ts i acc fin := by
  induction ts with
  | nil => intro i acc fin; rfl
  | cons t ts ih =>
    intro i acc fin
    have ih' := ih (fun t' ht' => hcount t' (List.mem_cons_of_mem _ ht'))
    simp only [roleLoop, hcount t (List.mem_cons_self _ _), hov, ih']

theorem waveLoop_congr (o1 o2 : InfrastructureOpts) (hov : o1.OverlapRoles = o2.OverlapRoles)
    (hcount : ∀ t, t ∈ nodeTypes → o1.Count t = o2.Count t) (fuel : Nat) :
    ∀ (j : Nat) (i : Infrastructure), waveLoop o1 fuel j i = waveLoop o2 fuel j i := by
  induction fuel with
  | zero => intro j i; rfl
  | succ fuel ih =>
    intro j i
    simp only [waveLoop, roleLoop_congr o1 o2 hov j nodeTypes hcount, ih]

/-- C8: the result of `NewInfrastructure` is a function of the counts of the four roles,
the overlap flag and the CIDR alone: two calls that agree on these return the same
network, broadcast address, nodes and error, whatever else the options hold. -/
theorem C8_deterministic (o1 o2 : InfrastructureOpts)
    (hcount : ∀ t, t ∈ nodeTypes → o1.Count t = o2.Count t)
    (hov : o1.OverlapRoles = o2.OverlapRoles) (hcidr : o1.NodeCIDR = o2.NodeCIDR) :
    NewInfrastructure o1 = NewInfrastructure o2 := by
  have hloop := waveLoop_congr o1 o2 hov hcount waveFuel 1
  unfold NewInfrastructure
  rw [hcidr]
  simp only [hloop]

/-- Witness of C8: two options that differ in what the planner does not read. -/
theorem C8_deterministic_witness :
    NewInfrastructure exampleOpts = NewInfrastructure exampleOptsTwin :=
  C8_deterministic exampleOpts exampleOptsTwin (by decide) rfl rfl

/-! ## The lists of the plan file -/

theorem single_role_and (t r : NodeType) (ht : t ∈ nodeTypes) (hr : r ∈ nodeTypes) :
    (t &&& r > 0) ↔ t = r := by
  simp only [nodeTypes, etcd, master, worker, ingress, List.mem_cons, List.mem_singleton,
    List.not_mem_nil, or_false] at ht hr
  rcases ht with rfl | rfl | rfl | rfl <;> rcases hr with rfl | rfl | rfl | rfl <;> decide

theorem roleUnion_and (opts : InfrastructureOpts) (j : Nat) (r : NodeType) (hr : r ∈ nodeTypes) :
    (roleUnion opts j &&& r > 0) ↔ j ≤ opts.Count r := by
  simp only [nodeTypes, etcd, master, worker, ingress, List.mem_cons, List.mem_singleton,
    List.not_mem_nil, or_false] at hr
  unfold roleUnion
  simp only [etcd, master, worker, ingress]
  rcases hr with rfl | rfl | rfl | rfl <;>
    by_cases h1 : j ≤ opts.Count 1 <;> by_cases h2 : j ≤ opts.Count 2 <;>
    by_cases h3 : j ≤ opts.Count 4 <;> by_cases h4 : j ≤ opts.Count 8 <;>
    simp only [h1, h2, h3, h4, if_true, if_false, iff_true, iff_false] <;> decide

theorem countP_range_succ_le (c : Nat) (n : Nat) :
    (List.range n).countP (fun k => decide (k + 1 ≤ c)) = min n c := by
  induction n with
  | zero => simp
  | succ n ih =>
    rw [List.range_succ, List.countP_append, ih]
    by_cases h : n + 1 ≤ c
    · simp [List.countP_cons, h]
      omega
    · simp [List.countP_cons, h]
      omega

theorem success_nodes (opts : InfrastructureOpts) (i : Infrastructure)
    (h : NewInfrastructure opts = some (some i, none)) :
    maxCount opts ≤ 65534 ∧
      ∃ ip, i.Nodes = place ip (requestsFrom opts (maxCount opts) 1) := by
  obtain ⟨addr, ones, hc, ha, ho⟩ := NewInfrastructure_some_v4 opts i none h
  rcases NewInfrastructure_v4_cases opts addr ones hc ha ho with ⟨hm, _, hrun⟩ | ⟨_, n, hrun, _⟩
  · rw [hrun] at h
    simp only [Option.some.injEq, Prod.mk.injEq, and_true] at h
    exact ⟨hm, _, by rw [← h]⟩
  · rw [hrun] at h
    simp at h

theorem dedicatedPlan_types (opts : InfrastructureOpts) (ip : Nat) (node : NodeDetails)
    (h : node ∈ place ip (dedicatedPlan opts)) : node.Types ∈ nodeTypes := by
  obtain ⟨j, name, types, hmem, _, ht⟩ := mem_place ip _ node h
  unfold dedicatedPlan at hmem
  simp only [List.mem_flatMap, List.mem_map, List.mem_filter, Prod.mk.injEq] at hmem
  obtain ⟨_, _, t, ⟨htm, _⟩, _, _, hty⟩ := hmem
  rw [ht, ← hty]
  exact htm

/-- In a topology returned without error each role has as many nodes as its count. -/
theorem nodesByType_length (opts : InfrastructureOpts) (i : Infrastructure)
    (h : NewInfrastructure opts = some (some i, none)) (r : NodeType) (hr : r ∈ nodeTypes) :
    (i.nodesByType r).length = opts.Count r := by
  obtain ⟨hm, ip, hn⟩ := success_nodes opts i h
  unfold Infrastructure.nodesByType
  rw [hn]
  cases hov : opts.OverlapRoles with
  | false =>
    rw [requestsFrom_dedicated opts hov hm]
    rw [List.filter_congr (fun node hnode => by
      show decide (node.Types &&& r > 0) = decide (node.Types = r)
      exact decide_eq_decide.2
        (single_role_and node.Types r (dedicatedPlan_types opts ip node hnode) hr))]
    exact dedicated_nodes_per_role opts hov hm ip r hr
  | true =>
    rw [place_overlap opts hov (maxCount opts) 1 ip (by omega)
      (fun k hk => (qualifies_iff_le_maxCount opts (1 + k)).2 (by omega))]
    rw [← List.countP_eq_length_filter, List.countP_map]
    rw [List.countP_congr (l := List.range (maxCount opts))
      (q := fun k => decide (k + 1 ≤ opts.Count r)) (fun k _ => by
        simp only [Function.comp, decide_eq_true_eq]
        rw [roleUnion_and opts (1 + k) r hr]
        omega)]
    rw [countP_range_succ_le]
    have : opts.Count r ≤ maxCount opts := by
      simp only [nodeTypes, List.mem_cons, List.mem_singleton, List.not_mem_nil, or_false] at hr
      unfold maxCount
      rcases hr with rfl | rfl | rfl | rfl <;> omega
    omega

theorem count_filter_role (l : List NodeDetails) (node : NodeDetails) (r : NodeType) :
    (l.filter (fun n => n.Types &&& r > 0)).count node
      = if node.Types &&& r > 0 then l.count node else 0 := by
  split
  · rename_i h
    exact List.count_filter (by simpa using h)
  · rename_i h
    apply List.count_eq_zero_of_not_mem
    intro hm
    have := (List.mem_filter.1 hm).2
    exact h (by simpa using this)

/-- Nodes of one role each fall into the four lists by role, each node into one. -/
theorem by_role_perm (l : List NodeDetails) (h : ∀ node, node ∈ l → node.Types ∈ nodeTypes) :
    (l.filter (fun node => node.Types &&& etcd > 0)
      ++ l.filter (fun node => node.Types &&& master > 0)
      ++ l.filter (fun node => node.Types &&& worker > 0)
      ++ l.filter (fun node => node.Types &&& ingress > 0)).Perm l := by
  rw [List.perm_iff_count]
  intro node
  simp only [List.count_append, count_filter_role]
  by_cases hm : node ∈ l
  · have ht := h node hm
    have e1 := single_role_and node.Types etcd ht (by decide)
    have e2 := single_role_and node.Types master ht (by decide)
    have e3 := single_role_and node.Types worker ht (by decide)
    have e4 := single_role_and node.Types ingress ht (by decide)
    simp only [e1, e2, e3, e4]
    simp only [nodeTypes, List.mem_cons, List.mem_singleton, List.not_mem_nil, or_false] at ht
    rcases ht with ht | ht | ht | ht <;> rw [ht] <;> simp [etcd, master, worker, ingress]
  · rw [List.count_eq_zero_of_not_mem hm]
    simp

/-- C17: for every topology that `NewInfrastructure` returns without error, the accessors
`Etcd`, `Master`, `Worker` and `Ingress` of a plan on it return `nodesByType` of their
role; for every role, `nodesByType` is the list of the nodes whose role set has the bit
of the role, in the order of the topology, and has as many nodes as the count of the
role says; and in non-overlap mode no node is in the lists of two roles, and the four
lists together are the nodes of the topology, each once. -/
theorem C17_plan_lists_by_role (opts : InfrastructureOpts) (i : Infrastructure)
    (po : Option PlanOpts) (h : NewInfrastructure opts = some (some i, none)) :
    (Plan.Etcd ⟨po, some i⟩ = some (i.nodesByType etcd) ∧
      Plan.Master ⟨po, some i⟩ = some (i.nodesByType master) ∧
      Plan.Worker ⟨po, some i⟩ = some (i.nodesByType worker) ∧
      Plan.Ingress ⟨po, some i⟩ = some (i.nodesByType ingress)) ∧
    (∀ r, r ∈ nodeTypes →
      i.nodesByType r = i.Nodes.filter (fun node => node.Types &&& r ≠ 0) ∧
        (i.nodesByType r).length = opts.Count r) ∧
    (opts.OverlapRoles = false →
      (∀ r1 r2, r1 ∈ nodeTypes → r2 ∈ nodeTypes → r1 ≠ r2 →
        ∀ node, node ∈ i.nodesByType r1 → node ∉ i.nodesByType r2) ∧
      (i.nodesByType etcd ++ i.nodesByType master ++ i.nodesByType worker
        ++ i.nodesByType ingress).Perm i.Nodes) := by
  refine ⟨⟨rfl, rfl, rfl, rfl⟩, ?_, ?_⟩
  · intro r hr
    refine ⟨?_, nodesByType_length opts i h r hr⟩
    unfold Infrastructure.nodesByType
    apply List.filter_congr
    intro node _
    simp [Nat.pos_iff_ne_zero]
  · intro hov
    obtain ⟨hm, ip, hn⟩ := success_nodes opts i h
    rw [requestsFrom_dedicated opts hov hm] at hn
    have htypes : ∀ node, node ∈ i.Nodes → node.Types ∈ nodeTypes := by
      intro node hnode
      rw [hn] at hnode
      exact dedicatedPlan_types opts ip node hnode
    refine ⟨?_, by_role_perm i.Nodes htypes⟩
    intro r1 r2 h1 h2 hne node hin1 hin2
    unfold Infrastructure.nodesByType at hin1 hin2
    obtain ⟨hmem, hb1⟩ := List.mem_filter.1 hin1
    obtain ⟨_, hb2⟩ := List.mem_filter.1 hin2
    have e1 := (single_role_and node.Types r1 (htypes node hmem) h1).1 (by simpa using hb1)
    have e2 := (single_role_and node.Types r2 (htypes node hmem) h2).1 (by simpa using hb2)
    exact hne (e1.symm.trans e2)

/-- Witness of C17: one etcd, one master and two worker nodes in 192.168.42.0/24. -/
theorem C17_plan_lists_by_role_witness :
    NewInfrastructure fourNodeOpts = some (some fourNodes, none) ∧
      Plan.Worker ⟨some (fourNodePlanOpts false), some fourNodes⟩
        = some (fourNodes.nodesByType worker) ∧
      (fourNodes.nodesByType worker).length = 2 ∧
      (fourNodes.nodesByType etcd ++ fourNodes.nodesByType master
        ++ fourNodes.nodesByType worker ++ fourNodes.nodesByType ingress).Perm fourNodes.Nodes :=
  ⟨by decide,
    (C17_plan_lists_by_role fourNodeOpts fourNodes (some (fourNodePlanOpts false))
      (by decide)).1.2.2.1,
    ((C17_plan_lists_by_role fourNodeOpts fourNodes (some (fourNodePlanOpts false))
      (by decide)).2.1 worker (by decide)).2,
    ((C17_plan_lists_by_role fourNodeOpts fourNodes (some (fourNodePlanOpts false))
      (by decide)).2.2 rfl).2⟩

end Vagrant

namespace DigitalOcean

/-! ## The calls each step makes -/

theorem GetDroplet_log {σ : Type} (p : Provider σ) (w : World σ) (token : String) (id : Int) :
    ∃ reply, (GetDroplet p w token id).2.log = w.log ++ [.dropletsGet id reply] := by
  unfold GetDroplet
  rcases h : p.dropletsGet w.state id with ⟨reply, st⟩
  cases reply <;> exact ⟨_, rfl⟩

theorem CreateNode_log {σ : Type} (p : Provider σ) (w : World σ) (token : String)
    (config : NodeConfig) (key : KeyConfig) :
    (∃ req d, (CreateNode p w token config key).2.log = w.log ++ [.dropletsCreate req (.ok d)] ∧
        (CreateNode p w token config key).1.2 = none) ∨
    (∃ req err, (CreateNode p w token config key).2.log
          = w.log ++ [.dropletsCreate req (.failed err)] ∧
        (CreateNode p w token config key).1.2 = some err) := by
  unfold CreateNode
  rcases h : p.dropletsCreate w.state (createRequest config key) with ⟨reply, st⟩
  cases reply with
  | ok d => exact Or.inl ⟨_, d, rfl, rfl⟩
  | failed err => exact Or.inr ⟨_, err, rfl, rfl⟩

theorem FindKeyByName_log {σ : Type} (p : Provider σ) (w : World σ) (token name : String) :
    ∃ reply, (FindKeyByName p w token name).2.log = w.log ++ [.keysList reply] := by
  unfold FindKeyByName
  rcases h : p.keysList w.state with ⟨reply, st⟩
  cases reply <;> exact ⟨_, rfl⟩

theorem CreateKey_log {σ : Type} (p : Provider σ) (w : World σ) (token : String)
    (config : KeyConfig) :
    ∃ evs, (CreateKey p w token config).2.log = w.log ++ evs ∧
      ∀ e, e ∈ evs → e.isKeySetup = true := by
  unfold CreateKey
  rcases h : p.readFile w.state config.PublicKeyFile with ⟨file, st⟩
  cases file with
  | failed err => exact ⟨[_], rfl, by simp [Event.isKeySetup]⟩
  | ok key =>
    simp only
    rcases h2 : p.keysCreate st config.Name key with ⟨reply, st2⟩
    cases reply with
    | failed err => exact ⟨[_, _], rfl, by simp [Event.isKeySetup]⟩
    | ok keyObj => exact ⟨[_, _], rfl, by simp [Event.isKeySetup]⟩

theorem createPhase_refl (l : List Event) : CreatePhase l l none :=
  ⟨[], by simp, by simp⟩

theorem createPhase_trans {a b c : List Event} {f : Option Error}
    (h1 : CreatePhase a b none) (h2 : CreatePhase b c f) : CreatePhase a c f := by
  obtain ⟨e1, hok1, hb⟩ := h1
  obtain ⟨e2, hok2, hc⟩ := h2
  simp only at hb
  subst hb
  refine ⟨e1 ++ e2, ?_, ?_⟩
  · intro e he
    rcases List.mem_append.1 he with he | he
    · exact hok1 e he
    · exact hok2 e he
  · cases f with
    | none => simp only at hc ⊢; rw [hc, List.append_assoc]
    | some err =>
      simp only at hc ⊢
      obtain ⟨req, hc⟩ := hc
      exact ⟨req, by rw [hc]; simp⟩

theorem pollPhase_refl (l : List Event) : PollPhase l l := ⟨[], by simp, by simp⟩

theorem pollPhase_trans {a b c : List Event} (h1 : PollPhase a b) (h2 : PollPhase b c) :
    PollPhase a c := by
  obtain ⟨e1, hb, hg1⟩ := h1
  obtain ⟨e2, hc, hg2⟩ := h2
  subst hb
  refine ⟨e1 ++ e2, by rw [hc, List.append_assoc], ?_⟩
  intro e he
  rcases List.mem_append.1 he with he | he
  · exact hg1 e he
  · exact hg2 e he

theorem createLoop_phase {σ : Type} (p : Provider σ) (token : String) (key : KeyConfig)
    (config : World σ → Nat → NodeConfig × World σ)
    (hcfg : ∀ w i, (config w i).2.log = w.log) (n : Nat) :
    ∀ (i : Nat) (w : World σ) (acc : List Droplet),
      CreatePhase w.log (createLoop p token key config n i w acc).2.log
        (createLoop p token key config n i w acc).1.error? := by
  induction n with
  | zero => intro i w acc; exact createPhase_refl _
  | succ n ih =>
    intro i w acc
    simp only [createLoop]
    have hl1 := hcfg w i
    generalize (config w i).1 = cfg at *
    generalize (config w i).2 = w1 at *
    rcases CreateNode_log p w1 token cfg key with ⟨req, d, hlog, herr⟩ | ⟨req, err, hlog, herr⟩
    · rcases hcn : CreateNode p w1 token cfg key with ⟨⟨drop, e⟩, w2⟩
      rw [hcn] at hlog herr
      simp only at hlog herr
      subst herr
      simp only
      have hstep : CreatePhase w.log w2.log none :=
        ⟨[.dropletsCreate req (.ok d)], by simp [Event.isCreated], by rw [hlog, hl1]⟩
      exact createPhase_trans hstep (ih (i + 1) w2 (acc ++ [drop]))
    · rcases hcn : CreateNode p w1 token cfg key with ⟨⟨drop, e⟩, w2⟩
      rw [hcn] at hlog herr
      simp only at hlog herr
      subst herr
      exact ⟨[], by simp, req, by simp [hlog, hl1]⟩

theorem bootstrapConfig_log {σ : Type} (p : Provider σ) (opts : DOOpts) (w : World σ) (i : Nat) :
    (bootstrapConfig p opts w i).2.log = w.log := by
  unfold bootstrapConfig
  split
  · rcases h : p.loadBootCmds w.state opts.BootstrapFile with ⟨reply, st⟩
    cases reply <;> rfl
  · rfl

theorem createAll_phase {σ : Type} (p : Provider σ) (opts : DOOpts) (nodeCount : NodeCount)
    (key : KeyConfig) (w : World σ) :
    CreatePhase w.log (createAll p opts nodeCount key w).2.log
      (createAll p opts nodeCount key w).1.error? := by
  unfold createAll
  have h1 := createLoop_phase p opts.Token key
    (fun w i => (optionsToConfig opts ("etcd" ++ toString (i + 1)) "" "", w))
    (fun _ _ => rfl) nodeCount.Etcd 0 w []
  rcases hc1 : createLoop p opts.Token key
    (fun w i => (optionsToConfig opts ("etcd" ++ toString (i + 1)) "" "", w))
    nodeCount.Etcd 0 w [] with ⟨_ | err, w1⟩
  swap
  · rw [hc1] at h1; exact h1
  rw [hc1] at h1
  simp only
  have h2 := createLoop_phase p opts.Token key
    (fun w i => (optionsToConfig opts ("master" ++ toString (i + 1)) "" "", w))
    (fun _ _ => rfl) nodeCount.Master 0 w1 []
  rcases hc2 : createLoop p opts.Token key
    (fun w i => (optionsToConfig opts ("master" ++ toString (i + 1)) "" "", w))
    nodeCount.Master 0 w1 [] with ⟨_ | err, w2⟩
  swap
  · rw [hc2] at h2; exact createPhase_trans h1 h2
  rw [hc2] at h2
  simp only
  have h3 := createLoop_phase p opts.Token key
    (fun w i => (optionsToConfig opts ("worker" ++ toString (i + 1)) opts.WorkerType "", w))
    (fun _ _ => rfl) nodeCount.Worker 0 w2 []
  rcases hc3 : createLoop p opts.Token key
    (fun w i => (optionsToConfig opts ("worker" ++ toString (i + 1)) opts.WorkerType "", w))
    nodeCount.Worker 0 w2 [] with ⟨_ | err, w3⟩
  swap
  · rw [hc3] at h3; exact createPhase_trans (createPhase_trans h1 h2) h3
  rw [hc3] at h3
  simp only
  have h4 := createLoop_phase p opts.Token key (bootstrapConfig p opts)
    (bootstrapConfig_log p opts) nodeCount.Boostrap 0 w3 []
  rcases hc4 : createLoop p opts.Token key (bootstrapConfig p opts) nodeCount.Boostrap 0 w3 []
    with ⟨_ | err, w4⟩
  · rw [hc4] at h4
    exact createPhase_trans (createPhase_trans (createPhase_trans h1 h2) h3) h4
  · rw [hc4] at h4
    exact createPhase_trans (createPhase_trans (createPhase_trans h1 h2) h3) h4

theorem WaitForIPs_phase {σ : Type} (p : Provider σ) (opts : DOOpts) (fuel : Nat) :
    ∀ (w : World σ) (d : Droplet), PollPhase w.log (WaitForIPs p opts fuel w d).2.log := by
  induction fuel with
  | zero => intro w d; exact pollPhase_refl _
  | succ fuel ih =>
    intro w d
    simp only [WaitForIPs]
    obtain ⟨reply, hg⟩ := GetDroplet_log p w opts.Token d.ID
    rcases hgd : GetDroplet p w opts.Token d.ID with ⟨⟨init, err⟩, w'⟩
    rw [hgd] at hg
    simp only at hg
    have hstep : PollPhase w.log w'.log := ⟨[_], hg, by simp [Event.isGet]⟩
    simp only
    split
    · exact hstep
    · exact pollPhase_trans hstep (ih w' d)

theorem waitLoop_phase {σ : Type} (p : Provider σ) (opts : DOOpts) (fuel : Nat)
    (ds : List Droplet) :
    ∀ (w : World σ) (acc : List Node), PollPhase w.log (waitLoop p opts fuel ds w acc).2.log := by
  induction ds with
  | nil => intro w acc; exact pollPhase_refl _
  | cons d ds ih =>
    intro w acc
    simp only [waitLoop]
    have h := WaitForIPs_phase p opts fuel w d
    rcases hw : WaitForIPs p opts fuel w d with ⟨_ | _ | drop, w'⟩
    · rw [hw] at h; exact h
    · rw [hw] at h; exact h
    · rw [hw] at h; exact pollPhase_trans h (ih w' _)

theorem waitAll_phase {σ : Type} (p : Provider σ) (opts : DOOpts) (fuel : Nat)
    (droplets : List Droplet × List Droplet × List Droplet × List Droplet)
    (provisioned : ProvisionedNodes) (w : World σ) :
    PollPhase w.log (waitAll p opts fuel droplets provisioned w).2.log := by
  unfold waitAll
  have h1 := waitLoop_phase p opts fuel droplets.1 w provisioned.Etcd
  rcases hw1 : waitLoop p opts fuel droplets.1 w provisioned.Etcd with ⟨_ | ⟨n1, _ | e1⟩, w1⟩
  · rw [hw1] at h1; exact h1
  swap
  · rw [hw1] at h1; exact h1
  rw [hw1] at h1
  simp only
  have h2 := waitLoop_phase p opts fuel droplets.2.1 w1 provisioned.Master
  rcases hw2 : waitLoop p opts fuel droplets.2.1 w1 provisioned.Master
    with ⟨_ | ⟨n2, _ | e2⟩, w2⟩
  · rw [hw2] at h2; exact pollPhase_trans h1 h2
  swap
  · rw [hw2] at h2; exact pollPhase_trans h1 h2
  rw [hw2] at h2
  simp only
  have h3 := waitLoop_phase p opts fuel droplets.2.2.1 w2 provisioned.Worker
  rcases hw3 : waitLoop p opts fuel droplets.2.2.1 w2 provisioned.Worker
    with ⟨_ | ⟨n3, _ | e3⟩, w3⟩
  · rw [hw3] at h3; exact pollPhase_trans (pollPhase_trans h1 h2) h3
  swap
  · rw [hw3] at h3; exact pollPhase_trans (pollPhase_trans h1 h2) h3
  rw [hw3] at h3
  simp only
  have h4 := waitLoop_phase p opts fuel droplets.2.2.2 w3 provisioned.Boostrap
  rcases hw4 : waitLoop p opts fuel droplets.2.2.2 w3 provisioned.Boostrap
    with ⟨_ | ⟨n4, _ | e4⟩, w4⟩
  · rw [hw4] at h4; exact pollPhase_trans (pollPhase_trans (pollPhase_trans h1 h2) h3) h4
  · rw [hw4] at h4; exact pollPhase_trans (pollPhase_trans (pollPhase_trans h1 h2) h3) h4
  · rw [hw4] at h4; exact pollPhase_trans (pollPhase_trans (pollPhase_trans h1 h2) h3) h4

/-! ## The shape of a run, and the properties of the orchestrator -/

/-- A run of `ProvisionNodes` first sets up the key. Then it ends in one of three ways:
the key could not be created; some `CreateNode` call was refused, right after creations
that went through; or every creation went through and only polls follow. In the first
two cases the function returns the error with nothing provisioned. -/
theorem ProvisionNodes_shape {σ : Type} (p : Provider σ) (fuel : Nat) (opts : DOOpts)
    (nodeCount : NodeCount) (w : World σ) :
    ∃ setup, (∀ e, e ∈ setup → e.isKeySetup = true) ∧
      ((∃ err, (ProvisionNodes p fuel opts nodeCount w).1 = some ({}, some err) ∧
          (ProvisionNodes p fuel opts nodeCount w).2.log = w.log ++ setup) ∨
       (∃ err, (ProvisionNodes p fuel opts nodeCount w).1 = some ({}, some err) ∧
          CreatePhase (w.log ++ setup) (ProvisionNodes p fuel opts nodeCount w).2.log
            (some err)) ∨
       (∃ mid, CreatePhase (w.log ++ setup) mid none ∧
          PollPhase mid (ProvisionNodes p fuel opts nodeCount w).2.log)) := by
  unfold ProvisionNodes
  simp only
  obtain ⟨r0, hl0⟩ := FindKeyByName_log p w opts.Token SSHKEY
  rcases hf : FindKeyByName p w opts.Token SSHKEY with ⟨⟨existing, e0⟩, w0⟩
  rw [hf] at hl0
  simp only at hl0 ⊢
  -- the key: reused, or created
  have hkey : ∃ setup key errkey w1,
      (if existing.Fingerprint ≠ "" then ((existing, none), w0)
        else CreateKey p w0 opts.Token { Name := SSHKEY, PublicKeyFile := opts.SSHPublicKey })
        = ((key, errkey), w1) ∧
      w1.log = w.log ++ setup ∧ ∀ e, e ∈ setup → e.isKeySetup = true := by
    by_cases hfp : existing.Fingerprint ≠ ""
    · refine ⟨[.keysList r0], existing, none, w0, by rw [if_pos hfp], hl0, ?_⟩
      simp [Event.isKeySetup]
    · obtain ⟨evs, hl1, hk1⟩ := CreateKey_log p w0 opts.Token
        { Name := SSHKEY, PublicKeyFile := opts.SSHPublicKey }
      rcases hck : CreateKey p w0 opts.Token
        { Name := SSHKEY, PublicKeyFile := opts.SSHPublicKey } with ⟨⟨key, errkey⟩, w1⟩
      rw [hck] at hl1
      refine ⟨.keysList r0 :: evs, key, errkey, w1, by rw [if_neg hfp], ?_, ?_⟩
      · rw [hl1, hl0]; simp
      · intro e he
        rcases List.mem_cons.1 he with rfl | he
        · rfl
        · exact hk1 e he
  obtain ⟨setup, key, errkey, w1, hk, hl1, hsetup⟩ := hkey
  rw [hk]
  refine ⟨setup, hsetup, ?_⟩
  cases errkey with
  | some err => exact Or.inl ⟨err, rfl, hl1⟩
  | none =>
    simp only
    have hc := createAll_phase p opts nodeCount key w1
    rw [hl1] at hc
    rcases hca : createAll p opts nodeCount key w1 with ⟨droplets | err, w2⟩
    · rw [hca] at hc
      simp only
      exact Or.inr (Or.inr ⟨w2.log, hc, waitAll_phase p opts fuel droplets {} w2⟩)
    · rw [hca] at hc
      exact Or.inr (Or.inl ⟨err, rfl, hc⟩)

theorem failed_create_is_last (l : List Event) (x y : Event)
    (hl : ∀ e, e ∈ l → e.isFailedCreate = false) (hy : y.isFailedCreate = true) :
    ∀ (pre post : List Event), l ++ [x] = pre ++ y :: post → pre = l ∧ y = x ∧ post = [] := by
  induction l with
  | nil =>
    intro pre post h
    cases pre with
    | nil =>
      simp only [List.nil_append, List.cons.injEq] at h
      exact ⟨rfl, h.1.symm, h.2.symm⟩
    | cons a pre => simp at h
  | cons a l ih =>
    intro pre post h
    cases pre with
    | nil =>
      simp only [List.cons_append, List.nil_append, List.cons.injEq] at h
      have := hl a (List.mem_cons_self _ _)
      rw [h.1, hy] at this
      exact absurd this (by decide)
    | cons b pre =>
      simp only [List.cons_append, List.cons.injEq] at h
      obtain ⟨h1, h2, h3⟩ := ih (fun e he => hl e (List.mem_cons_of_mem _ he)) pre post h.2
      exact ⟨by rw [h.1, h1], h2, h3⟩

theorem isCreated_quiet (e : Event) (h : e.isCreated = true) :
    e.isFailedCreate = false ∧ e.isGet = false ∧ e.isDelete = false := by
  cases e with
  | dropletsCreate req reply => cases reply <;> simp_all [Event.isCreated, Event.isFailedCreate,
      Event.isGet, Event.isDelete]
  | _ => simp [Event.isCreated] at h

theorem isKeySetup_quiet (e : Event) (h : e.isKeySetup = true) :
    e.isFailedCreate = false ∧ e.isGet = false ∧ e.isDelete = false := by
  cases e <;> simp_all [Event.isKeySetup, Event.isFailedCreate, Event.isGet, Event.isDelete]

theorem isGet_not_failed (e : Event) (h : e.isGet = true) : e.isFailedCreate = false := by
  cases e <;> simp_all [Event.isFailedCreate, Event.isGet]

/-- A refused `CreateNode` call is the last call of the run; before it there are only the
key set-up and creations that went through; the function returns its error and an empty
`ProvisionedNodes`. -/
theorem create_failure_run {σ : Type} (p : Provider σ) (fuel : Nat) (opts : DOOpts)
    (nodeCount : NodeCount) (s : σ) (pre post : List Event) (req : DropletCreateRequest)
    (err : Error)
    (h : (ProvisionNodes p fuel opts nodeCount { state := s, log := [] }).2.log
      = pre ++ .dropletsCreate req (.failed err) :: post) :
    (ProvisionNodes p fuel opts nodeCount { state := s, log := [] }).1 = some ({}, some err) ∧
      post = [] ∧
      ∀ e, e ∈ pre → e.isFailedCreate = false ∧ e.isGet = false ∧ e.isDelete = false := by
  obtain ⟨setup, hsetup, hshape⟩ :=
    ProvisionNodes_shape p fuel opts nodeCount { state := s, log := [] }
  have hmem : Event.dropletsCreate req (.failed err) ∈
      (ProvisionNodes p fuel opts nodeCount { state := s, log := [] }).2.log := by
    rw [h]; simp
  rcases hshape with ⟨e1, _, hlog⟩ | ⟨e1, hres, evs, hoks, req1, hlog⟩ |
    ⟨mid, ⟨evs, hoks, hmid⟩, gets, hlog, hgets⟩
  · rw [hlog] at hmem
    simp only [List.nil_append] at hmem
    have := (isKeySetup_quiet _ (hsetup _ hmem)).1
    simp [Event.isFailedCreate] at this
  · simp only [List.nil_append] at hlog
    rw [hlog] at h
    have hquiet : ∀ e, e ∈ setup ++ evs →
        e.isFailedCreate = false ∧ e.isGet = false ∧ e.isDelete = false := by
      intro e he
      rcases List.mem_append.1 he with he | he
      · exact isKeySetup_quiet e (hsetup e he)
      · exact isCreated_quiet e (hoks e he)
    obtain ⟨hpre, hy, hpost⟩ := failed_create_is_last (setup ++ evs) _ _
      (fun e he => (hquiet e he).1) (by rfl) pre post h
    simp only [Event.dropletsCreate.injEq, Reply.failed.injEq] at hy
    refine ⟨by rw [hres, hy.2], hpost, ?_⟩
    rw [hpre]; exact hquiet
  · simp only at hmid
    rw [hlog, hmid] at hmem
    simp only [List.nil_append, List.mem_append] at hmem
    rcases hmem with (hm | hm) | hm
    · have := (isKeySetup_quiet _ (hsetup _ hm)).1
      simp [Event.isFailedCreate] at this
    · have := (isCreated_quiet _ (hoks _ hm)).1
      simp [Event.isFailedCreate] at this
    · have := isGet_not_failed _ (hgets _ hm)
      simp [Event.isFailedCreate] at this

/-- What C9 says as it is written, refuted: the provider refuses the second of three
worker nodes, after one worker creation went through; `ProvisionNodes` returns the error
with an empty `ProvisionedNodes`, so its Worker list does not have the one node created. -/
theorem C9_partial_worker_list_counterexample :
    (ProvisionNodes worker2Fails 0 {} { Worker := 3 } { state := (), log := [] }).2.log
        = worker2FailsLog ∧
      (ProvisionNodes worker2Fails 0 {} { Worker := 3 } { state := (), log := [] }).1
        = some ({}, some "quota exceeded") ∧
      ¬ (∃ prov err,
          (ProvisionNodes worker2Fails 0 {} { Worker := 3 } { state := (), log := [] }).1
            = some (prov, some err) ∧ prov.Worker.length = 1) := by
  have hres : (ProvisionNodes worker2Fails 0 {} { Worker := 3 } { state := (), log := [] }).1
      = some ({}, some "quota exceeded") := by decide
  refine ⟨by decide, hres, ?_⟩
  rintro ⟨prov, err, h, hlen⟩
  rw [hres] at h
  simp only [Option.some.injEq, Prod.mk.injEq] at h
  rw [← h.1] at hlen
  simp at hlen

/-- C9, amended: whatever the provider does, when a `CreateNode` call fails, in the
Worker phase or any other and after any number of creations that went through,
`ProvisionNodes` returns that error together with a `ProvisionedNodes` all of whose
lists are empty: the nodes created before the failure are not in it. -/
theorem C9_create_failure_returns_nothing {σ : Type} (p : Provider σ) (fuel : Nat)
    (opts : DOOpts) (nodeCount : NodeCount) (s : σ) (pre post : List Event)
    (req : DropletCreateRequest) (err : Error)
    (h : (ProvisionNodes p fuel opts nodeCount { state := s, log := [] }).2.log
      = pre ++ .dropletsCreate req (.failed err) :: post) :
    ∃ prov, (ProvisionNodes p fuel opts nodeCount { state := s, log := [] }).1
        = some (prov, some err) ∧
      prov.Etcd = [] ∧ prov.Master = [] ∧ prov.Worker = [] ∧ prov.Boostrap = [] :=
  ⟨{}, (create_failure_run p fuel opts nodeCount s pre post req err h).1, rfl, rfl, rfl, rfl⟩

/-- Witness of C9: the run in which the second of three worker nodes is refused. -/
theorem C9_create_failure_returns_nothing_witness :
    ∃ prov, (ProvisionNodes worker2Fails 0 {} { Worker := 3 } { state := (), log := [] }).1
        = some (prov, some "quota exceeded") ∧
      prov.Etcd = [] ∧ prov.Master = [] ∧ prov.Worker = [] ∧ prov.Boostrap = [] :=
  C9_create_failure_returns_nothing worker2Fails 0 {} { Worker := 3 } ()
    (worker2FailsLog.take 4) [] worker2Request "quota exceeded" (by decide)

/-- C10: whatever the provider does, a `CreateNode` call that fails is the last call of
the run: `ProvisionNodes` returns its error, nothing is called after it (no `CreateNode`
for a later node or phase, no poll, no delete), and before it there was no poll, no
delete and no other failed creation. -/
theorem C10_create_failure_stops_run {σ : Type} (p : Provider σ) (fuel : Nat)
    (opts : DOOpts) (nodeCount : NodeCount) (s : σ) (pre post : List Event)
    (req : DropletCreateRequest) (err : Error)
    (h : (ProvisionNodes p fuel opts nodeCount { state := s, log := [] }).2.log
      = pre ++ .dropletsCreate req (.failed err) :: post) :
    (∃ prov, (ProvisionNodes p fuel opts nodeCount { state := s, log := [] }).1
        = some (prov, some err)) ∧
      post = [] ∧
      (∀ e, e ∈ pre → e.isFailedCreate = false ∧ e.isGet = false ∧ e.isDelete = false) ∧
      (∀ e, e ∈ (ProvisionNodes p fuel opts nodeCount { state := s, log := [] }).2.log →
        e.isGet = false ∧ e.isDelete = false) := by
  obtain ⟨hres, hpost, hpre⟩ := create_failure_run p fuel opts nodeCount s pre post req err h
  refine ⟨⟨_, hres⟩, hpost, hpre, ?_⟩
  intro e he
  rw [h, hpost] at he
  rcases List.mem_append.1 he with he | he
  · exact (hpre e he).2
  · simp only [List.mem_singleton] at he
    subst he
    exact ⟨rfl, rfl⟩

/-- Witness of C10: the run in which the second of three worker nodes is refused. -/
theorem C10_create_failure_stops_run_witness :
    (∃ prov, (ProvisionNodes worker2Fails 0 {} { Worker := 3 } { state := (), log := [] }).1
        = some (prov, some "quota exceeded")) ∧
      ([] : List Event) = [] ∧
      (∀ e, e ∈ worker2FailsLog.take 4 →
        e.isFailedCreate = false ∧ e.isGet = false ∧ e.isDelete = false) ∧
      (∀ e, e ∈ (ProvisionNodes worker2Fails 0 {} { Worker := 3 }
          { state := (), log := [] }).2.log → e.isGet = false ∧ e.isDelete = false) :=
  C10_create_failure_stops_run worker2Fails 0 {} { Worker := 3 } ()
    (worker2FailsLog.take 4) [] worker2Request "quota exceeded" (by decide)

/-! ## The schedule of the creations -/

theorem createNames_append (a b : List Event) :
    createNames (a ++ b) = createNames a ++ createNames b := by
  simp [createNames]

theorem createdDroplets_append (a b : List Event) :
    createdDroplets (a ++ b) = createdDroplets a ++ createdDroplets b := by
  simp [createdDroplets]

theorem CreateNode_eq {σ : Type} (p : Provider σ) (w : World σ) (token : String)
    (config : NodeConfig) (key : KeyConfig) :
    (∃ g st, CreateNode p w token config key
        = (({ ID := g.ID, Name := g.Name }, none),
            { state := st,
              log := w.log ++ [.dropletsCreate (createRequest config key) (.ok g)] })) ∨
    (∃ err st, CreateNode p w token config key
        = (({}, some err),
            { state := st,
              log := w.log ++ [.dropletsCreate (createRequest config key) (.failed err)] })) := by
  unfold CreateNode
  rcases h : p.dropletsCreate w.state (createRequest config key) with ⟨reply, st⟩
  cases reply with
  | ok g => exact Or.inl ⟨g, st, rfl⟩
  | failed err => exact Or.inr ⟨err, st, rfl⟩

theorem createTrace_refl (key : KeyConfig) (l : List Event) : CreateTrace key [] l l none [] :=
  ⟨[], by simp, rfl, by simp, rfl⟩

theorem createTrace_trans {key : KeyConfig} {n1 n2 : List String} {a b c : List Event}
    {f : Option Error} {d1 d2 : List Droplet}
    (h1 : CreateTrace key n1 a b none d1) (h2 : CreateTrace key n2 b c f d2) :
    CreateTrace key (n1 ++ n2) a c f (d1 ++ d2) := by
  obtain ⟨e1, hok1, hd1, hb, hn1⟩ := h1
  obtain ⟨e2, hok2, hd2, hc⟩ := h2
  subst hb
  refine ⟨e1 ++ e2, ?_, by rw [createdDroplets_append, hd1, hd2], ?_⟩
  · intro e he
    rcases List.mem_append.1 he with he | he
    · exact hok1 e he
    · exact hok2 e he
  · cases f with
    | none =>
      simp only at hc ⊢
      exact ⟨by rw [hc.1, List.append_assoc], by rw [createNames_append, hn1, hc.2]⟩
    | some err =>
      simp only at hc ⊢
      obtain ⟨req, rest, hc, hk, hn2⟩ := hc
      refine ⟨req, rest, by rw [hc]; simp, hk, ?_⟩
      rw [createNames_append, hn1, ← hn2]
      simp

theorem createTrace_failed_more {key : KeyConfig} {n1 : List String} (n2 : List String)
    {a b : List Event} {err : Error} {d : List Droplet}
    (h : CreateTrace key n1 a b (some err) d) : CreateTrace key (n1 ++ n2) a b (some err) d := by
  obtain ⟨evs, hok, hd, req, rest, hb, hk, hn⟩ := h
  exact ⟨evs, hok, hd, req, rest ++ n2, hb, hk, by rw [← hn]; simp⟩

theorem createLoop_trace {σ : Type} (p : Provider σ) (token : String) (key : KeyConfig)
    (config : World σ → Nat → NodeConfig × World σ) (mkName : Nat → String)
    (hcfg : ∀ w i, (config w i).2.log = w.log)
    (hname : ∀ w i, (config w i).1.Name = mkName i) (n : Nat) :
    ∀ (i : Nat) (w : World σ) (acc : List Droplet),
      ∃ ds, CreateTrace key ((List.range' i n).map mkName) w.log
          (createLoop p token key config n i w acc).2.log
          (createLoop p token key config n i w acc).1.error? ds ∧
        ∀ l, (createLoop p token key config n i w acc).1 = .ok l →
          l = acc ++ ds ∧ ds.length = n := by
  induction n with
  | zero =>
    intro i w acc
    refine ⟨[], createTrace_refl key _, ?_⟩
    intro l hl
    simp only [createLoop, Reply.ok.injEq] at hl
    exact ⟨by rw [← hl]; simp, rfl⟩
  | succ n ih =>
    intro i w acc
    simp only [createLoop]
    have hl1 := hcfg w i
    have hn1 := hname w i
    generalize (config w i).1 = cfg at *
    generalize (config w i).2 = w1 at *
    rcases CreateNode_eq p w1 token cfg key with ⟨g, st, hcn⟩ | ⟨err, st, hcn⟩
    · rw [hcn]
      simp only
      obtain ⟨ds, htr, hds⟩ := ih (i + 1)
        { state := st, log := w1.log ++ [.dropletsCreate (createRequest cfg key) (.ok g)] }
        (acc ++ [{ ID := g.ID, Name := g.Name }])
      have hstep : CreateTrace key [mkName i] w.log
          (w1.log ++ [.dropletsCreate (createRequest cfg key) (.ok g)]) none
          [{ ID := g.ID, Name := g.Name }] := by
        refine ⟨[.dropletsCreate (createRequest cfg key) (.ok g)], ?_, rfl, by rw [hl1], ?_⟩
        · intro e he
          simp only [List.mem_singleton] at he
          subst he
          exact ⟨rfl, rfl⟩
        · simp [createNames, createRequest, hn1]
      refine ⟨{ ID := g.ID, Name := g.Name } :: ds, ?_, ?_⟩
      · have := createTrace_trans hstep htr
        simpa [List.range'_succ] using this
      · intro l hl
        obtain ⟨h1, h2⟩ := hds l hl
        exact ⟨by rw [h1]; simp, by simp [h2]⟩
    · rw [hcn]
      simp only
      refine ⟨[], ?_, ?_⟩
      · refine ⟨[], by simp, rfl, createRequest cfg key, (List.range' (i + 1) n).map mkName,
          by simp [hl1], rfl, ?_⟩
        simp [createNames, createRequest, hn1, List.range'_succ]
      · intro l hl
        simp [Reply.error?] at hl

theorem bootstrapConfig_name {σ : Type} (p : Provider σ) (opts : DOOpts) (w : World σ)
    (i : Nat) : (bootstrapConfig p opts w i).1.Name = "bootstrap" ++ toString (i + 1) := by
  unfold bootstrapConfig
  split
  · rcases h : p.loadBootCmds w.state opts.BootstrapFile with ⟨reply, st⟩
    cases reply <;> rfl
  · rfl

theorem createAll_trace {σ : Type} (p : Provider σ) (opts : DOOpts) (nodeCount : NodeCount)
    (key : KeyConfig) (w : World σ) :
    ∃ ds, CreateTrace key (expectedNames nodeCount) w.log
        (createAll p opts nodeCount key w).2.log (createAll p opts nodeCount key w).1.error? ds ∧
      ∀ q, (createAll p opts nodeCount key w).1 = .ok q →
        ds = q.1 ++ q.2.1 ++ q.2.2.1 ++ q.2.2.2 ∧ q.1.length = nodeCount.Etcd ∧
          q.2.1.length = nodeCount.Master ∧ q.2.2.1.length = nodeCount.Worker ∧
          q.2.2.2.length = nodeCount.Boostrap := by
  unfold createAll expectedNames
  simp only [List.range_eq_range']
  obtain ⟨d1, h1, hd1⟩ := createLoop_trace p opts.Token key
    (fun w i => (optionsToConfig opts ("etcd" ++ toString (i + 1)) "" "", w))
    (fun i => "etcd" ++ toString (i + 1)) (fun _ _ => rfl) (fun _ _ => rfl) nodeCount.Etcd 0 w []
  rcases hc1 : createLoop p opts.Token key
    (fun w i => (optionsToConfig opts ("etcd" ++ toString (i + 1)) "" "", w))
    nodeCount.Etcd 0 w [] with ⟨l1 | err, w1⟩
  swap
  · rw [hc1] at h1
    exact ⟨d1, createTrace_failed_more _ (createTrace_failed_more _
      (createTrace_failed_more _ h1)), fun q hq => by simp [Reply.error?] at hq⟩
  rw [hc1] at h1 hd1
  obtain ⟨hl1, hn1⟩ := hd1 l1 rfl
  simp only [List.nil_append] at hl1
  subst hl1
  simp only
  obtain ⟨d2, h2, hd2⟩ := createLoop_trace p opts.Token key
    (fun w i => (optionsToConfig opts ("master" ++ toString (i + 1)) "" "", w))
    (fun i => "master" ++ toString (i + 1)) (fun _ _ => rfl) (fun _ _ => rfl)
    nodeCount.Master 0 w1 []
  rcases hc2 : createLoop p opts.Token key
    (fun w i => (optionsToConfig opts ("master" ++ toString (i + 1)) "" "", w))
    nodeCount.Master 0 w1 [] with ⟨l2 | err, w2⟩
  swap
  · rw [hc2] at h2
    exact ⟨_, createTrace_failed_more _ (createTrace_failed_more _ (createTrace_trans h1 h2)),
      fun q hq => by simp [Reply.error?] at hq⟩
  rw [hc2] at h2 hd2
  obtain ⟨hl2, hn2⟩ := hd2 l2 rfl
  simp only [List.nil_append] at hl2
  subst hl2
  simp only
  obtain ⟨d3, h3, hd3⟩ := createLoop_trace p opts.Token key
    (fun w i => (optionsToConfig opts ("worker" ++ toString (i + 1)) opts.WorkerType "", w))
    (fun i => "worker" ++ toString (i + 1)) (fun _ _ => rfl) (fun _ _ => rfl)
    nodeCount.Worker 0 w2 []
  rcases hc3 : createLoop p opts.Token key
    (fun w i => (optionsToConfig opts ("worker" ++ toString (i + 1)) opts.WorkerType "", w))
    nodeCount.Worker 0 w2 [] with ⟨l3 | err, w3⟩
  swap
  · rw [hc3] at h3
    exact ⟨_, createTrace_failed_more _ (createTrace_trans (createTrace_trans h1 h2) h3),
      fun q hq => by simp [Reply.error?] at hq⟩
  rw [hc3] at h3 hd3
  obtain ⟨hl3, hn3⟩ := hd3 l3 rfl
  simp only [List.nil_append] at hl3
  subst hl3
  simp only
  obtain ⟨d4, h4, hd4⟩ := createLoop_trace p opts.Token key (bootstrapConfig p opts)
    (fun i => "bootstrap" ++ toString (i + 1)) (bootstrapConfig_log p opts)
    (bootstrapConfig_name p opts) nodeCount.Boostrap 0 w3 []
  rcases hc4 : createLoop p opts.Token key (bootstrapConfig p opts) nodeCount.Boostrap 0 w3 []
    with ⟨l4 | err, w4⟩
  · rw [hc4] at h4 hd4
    obtain ⟨hl4, hn4⟩ := hd4 l4 rfl
    simp only [List.nil_append] at hl4
    subst hl4
    refine ⟨_, createTrace_trans (createTrace_trans (createTrace_trans h1 h2) h3) h4, ?_⟩
    intro q hq
    simp only [Reply.ok.injEq] at hq
    subst hq
    exact ⟨rfl, hn1, hn2, hn3, hn4⟩
  · rw [hc4] at h4
    exact ⟨_, createTrace_trans (createTrace_trans (createTrace_trans h1 h2) h3) h4,
      fun q hq => by simp [Reply.error?] at hq⟩

/-! ## The key, the creations, the polls: a run in full -/

theorem ProvisionNodes_eq {σ : Type} (p : Provider σ) (fuel : Nat) (opts : DOOpts)
    (nodeCount : NodeCount) (w : World σ) :
    ProvisionNodes p fuel opts nodeCount w =
      match resolveKey p opts w with
      | ((_, some errkey), w1) => (some ({}, some errkey), w1)
      | ((key, none), w1) =>
        match createAll p opts nodeCount key w1 with
        | (.failed err, w2) => (some ({}, some err), w2)
        | (.ok droplets, w2) => waitAll p opts fuel droplets {} w2 := by
  unfold ProvisionNodes resolveKey
  simp only

theorem resolveKey_eq {σ : Type} (p : Provider σ) (opts : DOOpts) (w : World σ) :
    resolveKey p opts w =
      if (FindKeyByName p w opts.Token SSHKEY).1.1.Fingerprint ≠ "" then
        (((FindKeyByName p w opts.Token SSHKEY).1.1, none), (FindKeyByName p w opts.Token SSHKEY).2)
      else CreateKey p (FindKeyByName p w opts.Token SSHKEY).2 opts.Token
        { Name := SSHKEY, PublicKeyFile := opts.SSHPublicKey } := by
  unfold resolveKey
  rcases hf : FindKeyByName p w opts.Token SSHKEY with ⟨⟨existing, e0⟩, w0⟩
  rfl

theorem CreateKey_events {σ : Type} (p : Provider σ) (w : World σ) (token : String)
    (config : KeyConfig) :
    ∃ evs, (CreateKey p w token config).2.log = w.log ++ evs ∧
      (∀ e, e ∈ evs → e.isKeySetup = true) ∧
      evs.countP Event.isReadFile = 1 ∧ evs.countP Event.isKeysCreate ≤ 1 ∧
      ((CreateKey p w token config).1.2 = none → evs.countP Event.isKeysCreate = 1) := by
  unfold CreateKey
  rcases h : p.readFile w.state config.PublicKeyFile with ⟨file, st⟩
  cases file with
  | failed err =>
    exact ⟨[_], rfl, by simp [Event.isKeySetup], by simp [Event.isReadFile],
      by simp [Event.isKeysCreate], by simp⟩
  | ok key =>
    simp only
    rcases h2 : p.keysCreate st config.Name key with ⟨reply, st2⟩
    cases reply with
    | failed err =>
      exact ⟨[_, _], rfl, by simp [Event.isKeySetup],
        by simp [List.countP_cons, Event.isReadFile],
        by simp [List.countP_cons, Event.isKeysCreate], by simp⟩
    | ok keyObj =>
      exact ⟨[_, _], rfl, by simp [Event.isKeySetup],
        by simp [List.countP_cons, Event.isReadFile],
        by simp [List.countP_cons, Event.isKeysCreate],
        by simp [List.countP_cons, Event.isKeysCreate]⟩

/-- The key is resolved by one lookup and, only when the lookup gave no fingerprint, one
`CreateKey` call. -/
theorem resolveKey_log {σ : Type} (p : Provider σ) (opts : DOOpts) (w : World σ) :
    ∃ setup, (resolveKey p opts w).2.log = w.log ++ setup ∧
      (∀ e, e ∈ setup → e.isKeySetup = true) ∧
      (if (FindKeyByName p w opts.Token SSHKEY).1.1.Fingerprint ≠ "" then
        setup.countP Event.isReadFile = 0 ∧ setup.countP Event.isKeysCreate = 0
      else setup.countP Event.isReadFile = 1 ∧ setup.countP Event.isKeysCreate ≤ 1) := by
  rw [resolveKey_eq]
  obtain ⟨r0, hl0⟩ := FindKeyByName_log p w opts.Token SSHKEY
  by_cases hfp : (FindKeyByName p w opts.Token SSHKEY).1.1.Fingerprint ≠ ""
  · rw [if_pos hfp]
    refine ⟨[.keysList r0], hl0, by simp [Event.isKeySetup], ?_⟩
    rw [if_pos hfp]
    exact ⟨by simp [List.countP_cons, Event.isReadFile],
      by simp [List.countP_cons, Event.isKeysCreate]⟩
  · rw [if_neg hfp]
    obtain ⟨evs, hl1, hk, hr, hc, _⟩ := CreateKey_events p (FindKeyByName p w opts.Token SSHKEY).2
      opts.Token { Name := SSHKEY, PublicKeyFile := opts.SSHPublicKey }
    refine ⟨.keysList r0 :: evs, by rw [hl1, hl0]; simp, ?_, ?_⟩
    · intro e he
      rcases List.mem_cons.1 he with rfl | he
      · rfl
      · exact hk e he
    · rw [if_neg hfp]
      exact ⟨by simpa [List.countP_cons, Event.isReadFile] using hr,
        by simpa [List.countP_cons, Event.isKeysCreate] using hc⟩

/-- A run ends in one of three ways: the key could not be resolved; a `CreateNode` call
was refused, after calls that follow the schedule; or all the scheduled calls went
through and the function goes on as `waitAll` does from there. -/
theorem ProvisionNodes_cases {σ : Type} (p : Provider σ) (fuel : Nat) (opts : DOOpts)
    (nodeCount : NodeCount) (w : World σ) :
    (∃ err, (resolveKey p opts w).1.2 = some err ∧
        ProvisionNodes p fuel opts nodeCount w = (some ({}, some err), (resolveKey p opts w).2)) ∨
    ((resolveKey p opts w).1.2 = none ∧ ∃ err ds,
        (ProvisionNodes p fuel opts nodeCount w).1 = some ({}, some err) ∧
        CreateTrace (resolveKey p opts w).1.1 (expectedNames nodeCount)
          (resolveKey p opts w).2.log (ProvisionNodes p fuel opts nodeCount w).2.log
          (some err) ds) ∨
    ((resolveKey p opts w).1.2 = none ∧ ∃ q w2,
        CreateTrace (resolveKey p opts w).1.1 (expectedNames nodeCount)
          (resolveKey p opts w).2.log w2.log none (q.1 ++ q.2.1 ++ q.2.2.1 ++ q.2.2.2) ∧
        q.1.length = nodeCount.Etcd ∧ q.2.1.length = nodeCount.Master ∧
        q.2.2.1.length = nodeCount.Worker ∧ q.2.2.2.length = nodeCount.Boostrap ∧
        ProvisionNodes p fuel opts nodeCount w = waitAll p opts fuel q {} w2) := by
  rw [ProvisionNodes_eq]
  rcases hrk : resolveKey p opts w with ⟨⟨key, errkey⟩, w1⟩
  cases errkey with
  | some err => exact Or.inl ⟨err, rfl, rfl⟩
  | none =>
    simp only
    obtain ⟨ds, htr, hq⟩ := createAll_trace p opts nodeCount key w1
    rcases hca : createAll p opts nodeCount key w1 with ⟨q | err, w2⟩
    · rw [hca] at htr hq
      obtain ⟨hds, h1, h2, h3, h4⟩ := hq q rfl
      rw [hds] at htr
      exact Or.inr (Or.inr ⟨by trivial, q, w2, htr, h1, h2, h3, h4, rfl⟩)
    · rw [hca] at htr
      exact Or.inr (Or.inl ⟨by trivial, err, ds, rfl, htr⟩)

/-! ## What the polls give -/

theorem GetDroplet_eq {σ : Type} (p : Provider σ) (w : World σ) (token : String) (id : Int) :
    (∃ g st, GetDroplet p w token id
        = ((readAddresses g.V4 { ID := g.ID, Name := g.Name }, none),
            { state := st, log := w.log ++ [.dropletsGet id (.ok g)] })) ∨
    (∃ err st, GetDroplet p w token id
        = (({}, some err), { state := st, log := w.log ++ [.dropletsGet id (.failed err)] })) := by
  unfold GetDroplet
  rcases h : p.dropletsGet w.state id with ⟨reply, st⟩
  cases reply with
  | ok g => exact Or.inl ⟨g, st, rfl⟩
  | failed err => exact Or.inr ⟨err, st, rfl⟩

theorem PolledFrom.mono {opts : DOOpts} {log : List Event} {d : Droplet} {node : Node}
    (h : PolledFrom opts log d node) (more : List Event) :
    PolledFrom opts (log ++ more) d node := by
  obtain ⟨g, hm, hp, hn⟩ := h
  exact ⟨g, List.mem_append_left _ hm, hp, hn⟩

/-- The method `WaitForIPs` never returns `nil`: when it returns, it returns the droplet
of a poll that was answered with a public address. -/
theorem WaitForIPs_returns {σ : Type} (p : Provider σ) (opts : DOOpts) (fuel : Nat) :
    ∀ (w : World σ) (d : Droplet) (r : Option Droplet) (w' : World σ),
      WaitForIPs p opts fuel w d = (some r, w') →
        ∃ drop, r = some drop ∧ PolledFrom opts w'.log d (dropletToNode drop opts) := by
  induction fuel with
  | zero => intro w d r w' h; simp [WaitForIPs] at h
  | succ fuel ih =>
    intro w d r w' h
    simp only [WaitForIPs] at h
    rcases GetDroplet_eq p w opts.Token d.ID with ⟨g, st, hg⟩ | ⟨err, st, hg⟩
    · rw [hg] at h
      simp only [and_true] at h
      split at h
      · rename_i hpub
        simp only [Prod.mk.injEq, Option.some.injEq] at h
        obtain ⟨hr, hw⟩ := h
        subst hr hw
        exact ⟨_, rfl, g, by simp, hpub, rfl⟩
      · exact ih _ d r w' h
    · rw [hg] at h
      simp only [ne_eq, reduceCtorEq, and_false, if_false] at h
      exact ih _ d r w' h

theorem waitLoop_returns {σ : Type} (p : Provider σ) (opts : DOOpts) (fuel : Nat)
    (ds : List Droplet) :
    ∀ (w : World σ) (acc nodes : List Node) (err : Option Error) (w' : World σ),
      waitLoop p opts fuel ds w acc = (some (nodes, err), w') →
        err = none ∧ ∃ new, nodes = acc ++ new ∧ List.Forall₂ (PolledFrom opts w'.log) ds new := by
  induction ds with
  | nil =>
    intro w acc nodes err w' h
    simp only [waitLoop, Prod.mk.injEq, Option.some.injEq] at h
    obtain ⟨⟨h1, h2⟩, _⟩ := h
    exact ⟨h2.symm, [], by simp [h1], List.Forall₂.nil⟩
  | cons d ds ih =>
    intro w acc nodes err w' h
    simp only [waitLoop] at h
    rcases hw : WaitForIPs p opts fuel w d with ⟨_ | r, w1⟩
    · rw [hw] at h; simp at h
    · obtain ⟨drop, hr, hp⟩ := WaitForIPs_returns p opts fuel w d r w1 hw
      subst hr
      rw [hw] at h
      simp only at h
      obtain ⟨herr, new, hnodes, hrest⟩ := ih w1 _ nodes err w' h
      obtain ⟨evs, hlog, _⟩ := waitLoop_phase p opts fuel ds w1 (acc ++ [dropletToNode drop opts])
      rw [h] at hlog
      simp only at hlog
      refine ⟨herr, dropletToNode drop opts :: new, by rw [hnodes]; simp, ?_⟩
      exact List.Forall₂.cons (by rw [hlog]; exact hp.mono evs) hrest

theorem polled_more {opts : DOOpts} {log : List Event} {ds : List Droplet} {nodes : List Node}
    (h : List.Forall₂ (PolledFrom opts log) ds nodes) {log' : List Event}
    (hl : PollPhase log log') : List.Forall₂ (PolledFrom opts log') ds nodes := by
  obtain ⟨evs, hlog, _⟩ := hl
  rw [hlog]
  exact h.imp (fun _ _ hp => hp.mono evs)

/-- When the four waiting loops return, it is without error and every list holds, in the
order of the droplets, the nodes that the polls gave. -/
theorem waitAll_returns {σ : Type} (p : Provider σ) (opts : DOOpts) (fuel : Nat)
    (q : List Droplet × List Droplet × List Droplet × List Droplet) (w : World σ)
    (prov : ProvisionedNodes) (err : Option Error) (w' : World σ)
    (h : waitAll p opts fuel q {} w = (some (prov, err), w')) :
    err = none ∧ PollPhase w.log w'.log ∧
      List.Forall₂ (PolledFrom opts w'.log) q.1 prov.Etcd ∧
      List.Forall₂ (PolledFrom opts w'.log) q.2.1 prov.Master ∧
      List.Forall₂ (PolledFrom opts w'.log) q.2.2.1 prov.Worker ∧
      List.Forall₂ (PolledFrom opts w'.log) q.2.2.2 prov.Boostrap := by
  have hphase := waitAll_phase p opts fuel q {} w
  rw [h] at hphase
  unfold waitAll at h
  simp only at h
  rcases hw1 : waitLoop p opts fuel q.1 w [] with ⟨_ | ⟨n1, e1⟩, w1⟩
  · rw [hw1] at h; simp at h
  obtain ⟨he1, new1, hn1, hf1⟩ := waitLoop_returns p opts fuel q.1 w [] n1 e1 w1 hw1
  subst he1
  simp only [List.nil_append] at hn1
  subst hn1
  rw [hw1] at h
  simp only at h
  rcases hw2 : waitLoop p opts fuel q.2.1 w1 [] with ⟨_ | ⟨n2, e2⟩, w2⟩
  · rw [hw2] at h; simp at h
  obtain ⟨he2, new2, hn2, hf2⟩ := waitLoop_returns p opts fuel q.2.1 w1 [] n2 e2 w2 hw2
  subst he2
  simp only [List.nil_append] at hn2
  subst hn2
  rw [hw2] at h
  simp only at h
  rcases hw3 : waitLoop p opts fuel q.2.2.1 w2 [] with ⟨_ | ⟨n3, e3⟩, w3⟩
  · rw [hw3] at h; simp at h
  obtain ⟨he3, new3, hn3, hf3⟩ := waitLoop_returns p opts fuel q.2.2.1 w2 [] n3 e3 w3 hw3
  subst he3
  simp only [List.nil_append] at hn3
  subst hn3
  rw [hw3] at h
  simp only at h
  rcases hw4 : waitLoop p opts fuel q.2.2.2 w3 [] with ⟨_ | ⟨n4, e4⟩, w4⟩
  · rw [hw4] at h; simp at h
  obtain ⟨he4, new4, hn4, hf4⟩ := waitLoop_returns p opts fuel q.2.2.2 w3 [] n4 e4 w4 hw4
  subst he4
  simp only [List.nil_append] at hn4
  subst hn4
  rw [hw4] at h
  simp only [Prod.mk.injEq, Option.some.injEq] at h
  obtain ⟨⟨hprov, herr⟩, hw'⟩ := h
  subst hprov hw'
  have p2 := waitLoop_phase p opts fuel q.2.1 w1 []
  have p3 := waitLoop_phase p opts fuel q.2.2.1 w2 []
  have p4 := waitLoop_phase p opts fuel q.2.2.2 w3 []
  rw [hw2] at p2
  rw [hw3] at p3
  rw [hw4] at p4
  exact ⟨herr.symm, hphase, polled_more (polled_more (polled_more hf1 p2) p3) p4,
    polled_more (polled_more hf2 p3) p4, polled_more hf3 p4, hf4⟩

theorem quiet_of_keySetup (l : List Event) (h : ∀ e, e ∈ l → e.isKeySetup = true) :
    createNames l = [] ∧ createdDroplets l = [] ∧ ∀ e, e ∈ l → e.isCreate = false ∧ e.isGet = false := by
  refine ⟨?_, ?_, ?_⟩
  · unfold createNames
    rw [List.filterMap_eq_nil_iff]
    intro e he
    have := h e he
    cases e <;> simp_all [Event.isKeySetup]
  · unfold createdDroplets
    rw [List.filterMap_eq_nil_iff]
    intro e he
    have := h e he
    cases e <;> simp_all [Event.isKeySetup]
  · intro e he
    have := h e he
    cases e <;> simp_all [Event.isKeySetup, Event.isCreate, Event.isGet]

theorem quiet_of_get (l : List Event) (h : ∀ e, e ∈ l → e.isGet = true) :
    createNames l = [] ∧ createdDroplets l = [] ∧
      ∀ e, e ∈ l → e.isCreate = false ∧ e.isKeySetup = false := by
  refine ⟨?_, ?_, ?_⟩
  · unfold createNames
    rw [List.filterMap_eq_nil_iff]
    intro e he
    have := h e he
    cases e <;> simp_all [Event.isGet]
  · unfold createdDroplets
    rw [List.filterMap_eq_nil_iff]
    intro e he
    have := h e he
    cases e <;> simp_all [Event.isGet]
  · intro e he
    have := h e he
    cases e <;> simp_all [Event.isKeySetup, Event.isCreate, Event.isGet]

/-- Where an element that is not in the first of two lists sits in their concatenation. -/
theorem split_right {α : Type} {l r a b : List α} {x : α} (h : l ++ r = a ++ x :: b)
    (hx : x ∉ l) : ∃ c, a = l ++ c ∧ r = c ++ x :: b := by
  rcases List.append_eq_append_iff.1 h with ⟨c, ha, hr⟩ | ⟨c, hl, hb⟩
  · exact ⟨c, ha, hr⟩
  · cases c with
    | nil => exact ⟨[], by simpa using hl.symm, by simpa using hb.symm⟩
    | cons y c =>
      simp only [List.cons_append, List.cons.injEq] at hb
      exact absurd (by rw [hl, hb.1]; simp) hx

/-- Where an element that is not in the second of two lists sits in their concatenation. -/
theorem split_left {α : Type} {l r a b : List α} {x : α} (h : l ++ r = a ++ x :: b)
    (hx : x ∉ r) : ∃ c, l = a ++ x :: c ∧ b = c ++ r := by
  rcases List.append_eq_append_iff.1 h with ⟨c, ha, hr⟩ | ⟨c, hl, hb⟩
  · exact absurd (by rw [hr]; simp) hx
  · cases c with
    | nil =>
      simp only [List.nil_append] at hb
      exact absurd (by rw [← hb]; simp) hx
    | cons y c =>
      simp only [List.cons_append, List.cons.injEq] at hb
      exact ⟨c, by rw [hl, hb.1], hb.2⟩

theorem isCreate_of_isCreated (e : Event) (h : e.isCreated = true) : e.isCreate = true := by
  cases e <;> simp_all [Event.isCreated, Event.isCreate]

/-- The calls of a run, in their order: those that resolve the key, then `CreateNode` calls
with the resolved key for the names of the schedule, then polls; polls are made only when
every `CreateNode` call of the schedule was made, and none of the two when the key could
not be resolved. -/
theorem ProvisionNodes_schedule {σ : Type} (p : Provider σ) (fuel : Nat) (opts : DOOpts)
    (nodeCount : NodeCount) (w : World σ) :
    ∃ creates polls,
      (ProvisionNodes p fuel opts nodeCount w).2.log
        = (resolveKey p opts w).2.log ++ creates ++ polls ∧
      (∀ e, e ∈ creates → e.isCreate = true ∧ e.sentKey (resolveKey p opts w).1.1) ∧
      (∀ e, e ∈ polls → e.isGet = true) ∧
      (∃ rest, createNames creates ++ rest = expectedNames nodeCount) ∧
      (polls ≠ [] → createNames creates = expectedNames nodeCount) ∧
      (∀ err, (resolveKey p opts w).1.2 = some err →
        creates = [] ∧ polls = [] ∧
          (ProvisionNodes p fuel opts nodeCount w).1 = some ({}, some err)) := by
  rcases ProvisionNodes_cases p fuel opts nodeCount w with
    ⟨err, hk, hrun⟩ | ⟨hk, err, ds, _, htr⟩ | ⟨hk, q, w2, htr, _, _, _, _, hrun⟩
  · refine ⟨[], [], by rw [hrun]; simp, by simp, by simp, ⟨_, List.nil_append _⟩, by simp, ?_⟩
    intro err2 h2
    rw [hk] at h2
    simp only [Option.some.injEq] at h2
    subst h2
    exact ⟨rfl, rfl, by rw [hrun]⟩
  · obtain ⟨evs, hok, _, req, rest, hlog, hkey, hnames⟩ := htr
    refine ⟨evs ++ [.dropletsCreate req (.failed err)], [], by rw [hlog]; simp, ?_, by simp,
      ⟨rest, ?_⟩, by simp, ?_⟩
    · intro e he
      rcases List.mem_append.1 he with he | he
      · exact ⟨isCreate_of_isCreated e (hok e he).1, (hok e he).2⟩
      · simp only [List.mem_singleton] at he
        subst he
        exact ⟨rfl, hkey⟩
    · rw [createNames_append, ← hnames]
      simp [createNames]
    · intro err2 h2
      rw [hk] at h2
      exact absurd h2 (by simp)
  · obtain ⟨evs, hok, _, hlog, hnames⟩ := htr
    obtain ⟨polls, hpl, hget⟩ := waitAll_phase p opts fuel q {} w2
    refine ⟨evs, polls, by rw [hrun, hpl, hlog], ?_, hget, ⟨[], by rw [hnames]; simp⟩,
      fun _ => hnames, ?_⟩
    · intro e he
      exact ⟨isCreate_of_isCreated e (hok e he).1, (hok e he).2⟩
    · intro err2 h2
      rw [hk] at h2
      exact absurd h2 (by simp)

/-! ## The order of the calls in a run -/

/-- C11: in every run of `ProvisionNodes`, whatever the provider does, the names of the
`CreateNode` calls, in the order of the calls, are a start of the schedule `etcd1`, ...,
`master1`, ..., `worker1`, ..., `bootstrap1`, ...; and when an address poll is made, every
`CreateNode` call of the schedule was made before it and none follows it. -/
theorem C11_creates_in_phase_order {σ : Type} (p : Provider σ) (fuel : Nat) (opts : DOOpts)
    (nodeCount : NodeCount) (s : σ) :
    (∃ rest, createNames (ProvisionNodes p fuel opts nodeCount { state := s, log := [] }).2.log
        ++ rest = expectedNames nodeCount) ∧
    (∀ a b id reply,
      (ProvisionNodes p fuel opts nodeCount { state := s, log := [] }).2.log
          = a ++ .dropletsGet id reply :: b →
        createNames a = expectedNames nodeCount ∧ ∀ e, e ∈ b → e.isCreate = false) := by
  obtain ⟨setup, hsl, hks, _⟩ := resolveKey_log p opts { state := s, log := [] }
  obtain ⟨creates, polls, hlog, hcr, hpo, ⟨rest, hrest⟩, hall, _⟩ :=
    ProvisionNodes_schedule p fuel opts nodeCount { state := s, log := [] }
  simp only [List.nil_append] at hsl
  rw [hsl] at hlog
  obtain ⟨hs1, _, hs3⟩ := quiet_of_keySetup setup hks
  obtain ⟨hp1, _, hp3⟩ := quiet_of_get polls hpo
  refine ⟨⟨rest, ?_⟩, ?_⟩
  · rw [hlog, createNames_append, createNames_append, hs1, hp1]
    simpa using hrest
  · intro a b id reply h
    rw [hlog] at h
    have hx : Event.dropletsGet id reply ∉ setup ++ creates := by
      intro hm
      rcases List.mem_append.1 hm with hm | hm
      · exact absurd (hs3 _ hm).2 (by simp [Event.isGet])
      · exact absurd (hcr _ hm).1 (by simp [Event.isCreate])
    obtain ⟨c, ha, hpolls⟩ := split_right h hx
    have hne : polls ≠ [] := by rw [hpolls]; simp
    have hc : createNames c = [] :=
      (quiet_of_get c (fun e he => hpo e (by rw [hpolls]; simp [he]))).1
    refine ⟨?_, ?_⟩
    · rw [ha, createNames_append, createNames_append, hs1, hc, hall hne]
      simp
    · intro e he
      exact (hp3 e (by rw [hpolls]; simp [he])).1

/-- Witness of C11: the run of `allGood` with one etcd and one master node; the first poll
comes after the `CreateNode` calls for `etcd1` and `master1`. -/
theorem C11_creates_in_phase_order_witness :
    createNames (allGoodLog.take 5) = expectedNames { Etcd := 1, Master := 1 } ∧
      ∀ e, e ∈ allGoodLog.drop 6 → e.isCreate = false :=
  (C11_creates_in_phase_order allGood 1 {} { Etcd := 1, Master := 1 } 0).2
    (allGoodLog.take 5) (allGoodLog.drop 6) 1
    (.ok ⟨1, "node", [⟨"203.0.113.7", "public"⟩]⟩) (by decide)

/-- C12, counterexample: in the run of `allGood` with one etcd and one master node, which
returns without error, `CreateNode` is called for `master1` when the only calls made for
nodes are the `CreateNode` call for `etcd1`: no address poll was made, the one of `etcd1`
comes later. -/
theorem C12_master_created_before_etcd_polled_counterexample :
    ∃ a b,
      (ProvisionNodes allGood 1 {} { Etcd := 1, Master := 1 } { state := 0, log := [] }).1.map
          Prod.snd = some none ∧
      (ProvisionNodes allGood 1 {} { Etcd := 1, Master := 1 } { state := 0, log := [] }).2.log
        = a ++ .dropletsCreate (plainRequest "master1") (.ok ⟨2, "master1", []⟩) :: b ∧
      createNames a = ["etcd1"] ∧ createdDroplets a = [{ ID := 1, Name := "etcd1" }] ∧
      (∀ e, e ∈ a → e.isGet = false) ∧
      Event.dropletsGet 1 (.ok ⟨1, "node", [⟨"203.0.113.7", "public"⟩]⟩) ∈ b :=
  ⟨allGoodLog.take 4, allGoodLog.drop 5, by decide, by decide, by decide, by decide,
    by decide, by decide⟩

/-- C12, amended: in every run of `ProvisionNodes`, whatever the provider does, no address
poll is made before a `CreateNode` call: when `CreateNode` is called for a node, the calls
made for nodes so far are the `CreateNode` calls for the names that come before it in the
schedule `etcd1`, ..., `master1`, ..., `worker1`, ..., `bootstrap1`, ..., those of all
previous phases among them, and no node of any phase was polled for its address. -/
theorem C12_creates_precede_polls {σ : Type} (p : Provider σ) (fuel : Nat) (opts : DOOpts)
    (nodeCount : NodeCount) (s : σ) (a b : List Event) (req : DropletCreateRequest)
    (reply : Reply GodoDroplet)
    (h : (ProvisionNodes p fuel opts nodeCount { state := s, log := [] }).2.log
      = a ++ .dropletsCreate req reply :: b) :
    (∀ e, e ∈ a → e.isGet = false) ∧
      ∃ rest, createNames a ++ req.Name :: rest = expectedNames nodeCount := by
  obtain ⟨setup, hsl, hks, _⟩ := resolveKey_log p opts { state := s, log := [] }
  obtain ⟨creates, polls, hlog, hcr, hpo, ⟨rest, hrest⟩, _, _⟩ :=
    ProvisionNodes_schedule p fuel opts nodeCount { state := s, log := [] }
  simp only [List.nil_append] at hsl
  rw [hsl] at hlog
  obtain ⟨hs1, _, hs3⟩ := quiet_of_keySetup setup hks
  rw [hlog] at h
  have hx : Event.dropletsCreate req reply ∉ polls := fun hm =>
    absurd (hpo _ hm) (by simp [Event.isGet])
  obtain ⟨c, hsc, _⟩ := split_left h hx
  have hx2 : Event.dropletsCreate req reply ∉ setup := fun hm =>
    absurd (hs3 _ hm).1 (by simp [Event.isCreate])
  obtain ⟨c2, ha, hcreates⟩ := split_right hsc hx2
  refine ⟨?_, ⟨createNames c ++ rest, ?_⟩⟩
  · intro e he
    rw [ha] at he
    rcases List.mem_append.1 he with he | he
    · exact (hs3 e he).2
    · have := (hcr e (by rw [hcreates]; simp [he])).1
      cases e <;> simp_all [Event.isCreate, Event.isGet]
  · rw [ha, createNames_append, hs1, ← hrest, hcreates, createNames_append]
    simp [createNames]

/-- Witness of C12: the `CreateNode` call for `master1` in the run of `allGood` with one
etcd and one master node. -/
theorem C12_creates_precede_polls_witness :
    (∀ e, e ∈ allGoodLog.take 4 → e.isGet = false) ∧
      ∃ rest, createNames (allGoodLog.take 4) ++ (plainRequest "master1").Name :: rest
        = expectedNames { Etcd := 1, Master := 1 } :=
  C12_creates_precede_polls allGood 1 {} { Etcd := 1, Master := 1 } 0
    (allGoodLog.take 4) (allGoodLog.drop 5) (plainRequest "master1") (.ok ⟨2, "master1", []⟩)
    (by decide)

theorem FindKeyByName_run {σ : Type} (p : Provider σ) (w : World σ) (token name : String) :
    FindKeyByName p w token name =
      ((match (p.keysList w.state).1 with
          | .ok keys =>
            (match keys.find? (fun k => k.Name = name) with
              | some k => { ID := k.ID, Fingerprint := k.Fingerprint }
              | none => {})
          | .failed _ => {},
        match (p.keysList w.state).1 with
          | .ok _ => none
          | .failed err => some err),
        { state := (p.keysList w.state).2,
          log := w.log ++ [.keysList (p.keysList w.state).1] }) := by
  unfold FindKeyByName
  rcases h : p.keysList w.state with ⟨reply, st⟩
  cases reply <;> rfl

/-- The key that `resolveKey` gives when a key of the name `apprenda-key` with a
fingerprint is registered: the first such key listed, with the listing as the only call. -/
theorem resolveKey_reuse {σ : Type} (p : Provider σ) (opts : DOOpts) (w : World σ)
    (keys : List GodoKey) (k : GodoKey)
    (hl : (p.keysList w.state).1 = .ok keys)
    (hf : keys.find? (fun k => k.Name = SSHKEY) = some k) (hfp : k.Fingerprint ≠ "") :
    (resolveKey p opts w).1 = ({ ID := k.ID, Fingerprint := k.Fingerprint }, none) ∧
      (resolveKey p opts w).2.log = w.log ++ [.keysList (.ok keys)] := by
  have hv : (FindKeyByName p w opts.Token SSHKEY).1.1
      = { ID := k.ID, Fingerprint := k.Fingerprint } := by
    rw [FindKeyByName_run, hl]
    dsimp only
    rw [hf]
  have hlog : (FindKeyByName p w opts.Token SSHKEY).2.log = w.log ++ [.keysList (.ok keys)] := by
    rw [FindKeyByName_run, hl]
  rw [resolveKey_eq, if_pos (by rw [hv]; exact hfp)]
  exact ⟨by rw [hv], hlog⟩

/-- Without a registered key of that name with a fingerprint, `resolveKey` is `CreateKey`
after the listing. -/
theorem resolveKey_create {σ : Type} (p : Provider σ) (opts : DOOpts) (w : World σ)
    (hno : ∀ keys k, (p.keysList w.state).1 = .ok keys →
      keys.find? (fun k => k.Name = SSHKEY) = some k → k.Fingerprint = "") :
    resolveKey p opts w
      = CreateKey p { state := (p.keysList w.state).2,
                      log := w.log ++ [.keysList (p.keysList w.state).1] }
          opts.Token { Name := SSHKEY, PublicKeyFile := opts.SSHPublicKey } := by
  have hv : (FindKeyByName p w opts.Token SSHKEY).1.1.Fingerprint = "" := by
    rw [FindKeyByName_run]
    dsimp only
    cases hl : (p.keysList w.state).1 with
    | failed err => rfl
    | ok keys =>
      dsimp only
      cases hf : keys.find? (fun k => k.Name = SSHKEY) with
      | none => rfl
      | some k => exact hno keys k hl hf
  rw [resolveKey_eq, if_neg (by rw [hv]; simp)]
  rw [FindKeyByName_run]

/-- What `CreateKey` does, by what the file system and the provider reply. -/
theorem CreateKey_run {σ : Type} (p : Provider σ) (w : World σ) (token : String)
    (config : KeyConfig) :
    (∀ err st, p.readFile w.state config.PublicKeyFile = (.failed err, st) →
      (CreateKey p w token config).1 = (config, some err) ∧
        (CreateKey p w token config).2.log
          = w.log ++ [.readFile config.PublicKeyFile (.failed err)]) ∧
    (∀ file st err st2, p.readFile w.state config.PublicKeyFile = (.ok file, st) →
      p.keysCreate st config.Name file = (.failed err, st2) →
      (CreateKey p w token config).1 = (config, some err) ∧
        (CreateKey p w token config).2.log
          = w.log ++ [.readFile config.PublicKeyFile (.ok file),
                      .keysCreate config.Name file (.failed err)]) ∧
    (∀ file st keyObj st2, p.readFile w.state config.PublicKeyFile = (.ok file, st) →
      p.keysCreate st config.Name file = (.ok keyObj, st2) →
      (CreateKey p w token config).1
          = ({ config with ID := keyObj.ID, Fingerprint := keyObj.Fingerprint }, none) ∧
        (CreateKey p w token config).2.log
          = w.log ++ [.readFile config.PublicKeyFile (.ok file),
                      .keysCreate config.Name file (.ok keyObj)]) := by
  refine ⟨?_, ?_, ?_⟩
  · intro err st h
    unfold CreateKey
    rw [h]
    exact ⟨rfl, rfl⟩
  · intro file st err st2 h h2
    unfold CreateKey
    rw [h]
    dsimp only
    rw [h2]
    exact ⟨rfl, rfl⟩
  · intro file st keyObj st2 h h2
    unfold CreateKey
    rw [h]
    dsimp only
    rw [h2]
    exact ⟨rfl, rfl⟩

/-- C13: in every run of `ProvisionNodes`, whatever the provider does, the calls that
resolve the SSH key come first and no `CreateNode` call is among them; every call after
them is none of these and, if it is a `CreateNode` call, is passed the resolved key. When
the lookup by name gives a fingerprint, the key found is the resolved key and `CreateKey`
is not called (no key file is read, no key registered); otherwise the resolved key is
the result of one `CreateKey` call (the key file is read once). When the key is not
resolved, `ProvisionNodes` returns that error and no call follows.

In terms of what the provider replies: when the keys are listed and the first key of the
name `apprenda-key` has a fingerprint, the listing is the only call of the key resolution
and every `CreateNode` call is passed the id and the fingerprint of that key. When the
listing fails, or lists no key of that name, or the first one has no fingerprint, the key
file `opts.SSHPublicKey` is read after the listing: a failed read, or a failed
registration of its content under that name, is the error returned, and after a
registration that went through every `CreateNode` call is passed the id and the
fingerprint of the key registered. -/
theorem C13_key_resolved_first {σ : Type} (p : Provider σ) (fuel : Nat) (opts : DOOpts)
    (nodeCount : NodeCount) (s : σ) :
    ∃ setup rest,
      (ProvisionNodes p fuel opts nodeCount { state := s, log := [] }).2.log = setup ++ rest ∧
      (resolveKey p opts { state := s, log := [] }).2.log = setup ∧
      (∀ e, e ∈ setup → e.isKeySetup = true ∧ e.isCreate = false) ∧
      (∀ e, e ∈ rest → e.isKeySetup = false ∧
        e.sentKey (resolveKey p opts { state := s, log := [] }).1.1) ∧
      (if (FindKeyByName p { state := s, log := [] } opts.Token SSHKEY).1.1.Fingerprint ≠ "" then
        (resolveKey p opts { state := s, log := [] }).1
            = ((FindKeyByName p { state := s, log := [] } opts.Token SSHKEY).1.1, none) ∧
          setup.countP Event.isReadFile = 0 ∧ setup.countP Event.isKeysCreate = 0
      else
        resolveKey p opts { state := s, log := [] }
            = CreateKey p (FindKeyByName p { state := s, log := [] } opts.Token SSHKEY).2
                opts.Token { Name := SSHKEY, PublicKeyFile := opts.SSHPublicKey } ∧
          setup.countP Event.isReadFile = 1 ∧ setup.countP Event.isKeysCreate ≤ 1) ∧
      (∀ err, (resolveKey p opts { state := s, log := [] }).1.2 = some err →
        (ProvisionNodes p fuel opts nodeCount { state := s, log := [] }).1
            = some ({}, some err) ∧ rest = []) ∧
      (∀ keys k, (p.keysList s).1 = .ok keys →
        keys.find? (fun k => k.Name = SSHKEY) = some k → k.Fingerprint ≠ "" →
        (resolveKey p opts { state := s, log := [] }).1
            = ({ ID := k.ID, Fingerprint := k.Fingerprint }, none) ∧
          setup = [.keysList (.ok keys)] ∧
          ∀ req reply, Event.dropletsCreate req reply ∈ rest →
            req.SSHKeys = [(k.ID, k.Fingerprint)]) ∧
      ((∀ keys k, (p.keysList s).1 = .ok keys →
          keys.find? (fun k => k.Name = SSHKEY) = some k → k.Fingerprint = "") →
        (∀ err st, p.readFile (p.keysList s).2 opts.SSHPublicKey = (.failed err, st) →
          (ProvisionNodes p fuel opts nodeCount { state := s, log := [] }).1
              = some ({}, some err) ∧
            setup = [.keysList (p.keysList s).1, .readFile opts.SSHPublicKey (.failed err)] ∧
            rest = []) ∧
        (∀ file st err st2, p.readFile (p.keysList s).2 opts.SSHPublicKey = (.ok file, st) →
          p.keysCreate st SSHKEY file = (.failed err, st2) →
          (ProvisionNodes p fuel opts nodeCount { state := s, log := [] }).1
              = some ({}, some err) ∧
            setup = [.keysList (p.keysList s).1, .readFile opts.SSHPublicKey (.ok file),
                     .keysCreate SSHKEY file (.failed err)] ∧
            rest = []) ∧
        (∀ file st keyObj st2, p.readFile (p.keysList s).2 opts.SSHPublicKey = (.ok file, st) →
          p.keysCreate st SSHKEY file = (.ok keyObj, st2) →
          (resolveKey p opts { state := s, log := [] }).1
              = ({ ID := keyObj.ID, Name := SSHKEY, PublicKeyFile := opts.SSHPublicKey,
                   Fingerprint := keyObj.Fingerprint }, none) ∧
            setup = [.keysList (p.keysList s).1, .readFile opts.SSHPublicKey (.ok file),
                     .keysCreate SSHKEY file (.ok keyObj)] ∧
            ∀ req reply, Event.dropletsCreate req reply ∈ rest →
              req.SSHKeys = [(keyObj.ID, keyObj.Fingerprint)])) := by
  obtain ⟨setup, hsl, hks, hcount⟩ := resolveKey_log p opts { state := s, log := [] }
  obtain ⟨creates, polls, hlog, hcr, hpo, _, _, hfail⟩ :=
    ProvisionNodes_schedule p fuel opts nodeCount { state := s, log := [] }
  simp only [List.nil_append] at hsl
  obtain ⟨_, _, hs3⟩ := quiet_of_keySetup setup hks
  obtain ⟨_, _, hp3⟩ := quiet_of_get polls hpo
  have hrest : ∀ e, e ∈ creates ++ polls → e.isKeySetup = false ∧
      e.sentKey (resolveKey p opts { state := s, log := [] }).1.1 := by
    intro e he
    rcases List.mem_append.1 he with he | he
    · refine ⟨?_, (hcr e he).2⟩
      have := (hcr e he).1
      cases e <;> simp_all [Event.isCreate, Event.isKeySetup]
    · refine ⟨(hp3 e he).2, ?_⟩
      have := hpo e he
      cases e <;> simp_all [Event.isGet, Event.sentKey]
  have hnone : ∀ err, (resolveKey p opts { state := s, log := [] }).1.2 = some err →
      (ProvisionNodes p fuel opts nodeCount { state := s, log := [] }).1
          = some ({}, some err) ∧ creates ++ polls = [] := by
    intro err herr
    obtain ⟨h1, h2, h3⟩ := hfail err herr
    exact ⟨h3, by rw [h1, h2]; rfl⟩
  refine ⟨setup, creates ++ polls, by rw [hlog, hsl, List.append_assoc], hsl,
    fun e he => ⟨hks e he, (hs3 e he).1⟩, hrest, ?_, hnone, ?_, ?_⟩
  · by_cases hfp : (FindKeyByName p { state := s, log := [] } opts.Token SSHKEY).1.1.Fingerprint
        ≠ ""
    · rw [if_pos hfp] at hcount ⊢
      exact ⟨by rw [resolveKey_eq, if_pos hfp], hcount⟩
    · rw [if_neg hfp] at hcount ⊢
      exact ⟨by rw [resolveKey_eq, if_neg hfp], hcount⟩
  · intro keys k hl hf hfp
    obtain ⟨h1, h2⟩ := resolveKey_reuse p opts { state := s, log := [] } keys k hl hf hfp
    rw [hsl] at h2
    refine ⟨h1, by simpa using h2, ?_⟩
    intro req reply hmem
    have := (hrest _ hmem).2
    rw [h1] at this
    exact this
  · intro hno
    have hrk := resolveKey_create p opts { state := s, log := [] } hno
    obtain ⟨c1, c2, c3⟩ := CreateKey_run p
      { state := (p.keysList s).2, log := [] ++ [.keysList (p.keysList s).1] } opts.Token
      { Name := SSHKEY, PublicKeyFile := opts.SSHPublicKey }
    rw [← hrk, hsl] at c1 c2 c3
    refine ⟨?_, ?_, ?_⟩
    · intro err st hr
      obtain ⟨h1, h2⟩ := c1 err st hr
      obtain ⟨h3, h4⟩ := hnone err (by rw [h1])
      exact ⟨h3, by simpa using h2, h4⟩
    · intro file st err st2 hr hc
      obtain ⟨h1, h2⟩ := c2 file st err st2 hr hc
      obtain ⟨h3, h4⟩ := hnone err (by rw [h1])
      exact ⟨h3, by simpa using h2, h4⟩
    · intro file st keyObj st2 hr hc
      obtain ⟨h1, h2⟩ := c3 file st keyObj st2 hr hc
      refine ⟨h1, by simpa using h2, ?_⟩
      intro req reply hmem
      have := (hrest _ hmem).2
      rw [h1] at this
      exact this

/-- Witness of C13: the run of `keyRegistered` with one etcd node, in which the key
registered under the name is reused, and the run of `allGood` with one etcd and one
master node, in which no key is registered yet and one is created. -/
theorem C13_key_resolved_first_witness :
    (ProvisionNodes keyRegistered 1 {} { Etcd := 1 } { state := 0, log := [] }).2.log
        = keyRegisteredLog ∧
      (∃ setup rest,
        (ProvisionNodes keyRegistered 1 {} { Etcd := 1 } { state := 0, log := [] }).2.log
          = setup ++ rest ∧
        setup = [.keysList (.ok [⟨5, "laptop", "cc:dd"⟩, ⟨9, "apprenda-key", "ee:ff"⟩])] ∧
        ∀ req reply, Event.dropletsCreate req reply ∈ rest → req.SSHKeys = [(9, "ee:ff")]) ∧
      (∃ setup rest,
        (ProvisionNodes allGood 1 {} { Etcd := 1, Master := 1 } { state := 0, log := [] }).2.log
          = setup ++ rest ∧
        setup = allGoodLog.take 3 ∧
        ∀ req reply, Event.dropletsCreate req reply ∈ rest → req.SSHKeys = [(7, "aa:bb")]) := by
  refine ⟨by decide, ?_, ?_⟩
  · obtain ⟨setup, rest, h1, _, _, _, _, _, h7, _⟩ :=
      C13_key_resolved_first keyRegistered 1 {} { Etcd := 1 } 0
    obtain ⟨_, h8, h9⟩ := h7 [⟨5, "laptop", "cc:dd"⟩, ⟨9, "apprenda-key", "ee:ff"⟩]
      ⟨9, "apprenda-key", "ee:ff"⟩ rfl (by decide) (by decide)
    exact ⟨setup, rest, h1, h8, h9⟩
  · obtain ⟨setup, rest, h1, _, _, _, _, _, _, h8⟩ :=
      C13_key_resolved_first allGood 1 {} { Etcd := 1, Master := 1 } 0
    obtain ⟨_, _, h11⟩ := h8 (by
      intro keys k hl hf
      have hk : keys = [] := by
        have : (Reply.ok [] : Reply (List GodoKey)) = .ok keys := hl
        simpa using this.symm
      rw [hk] at hf
      simp at hf)
    obtain ⟨_, h12, h13⟩ := h11 "ssh-rsa AAAA" 0 ⟨7, "apprenda-key", "aa:bb"⟩ 0 rfl rfl
    exact ⟨setup, rest, h1, by rw [h12]; decide, h13⟩

/-! ## What a run without error returns -/

theorem forall₂_append {α β : Type} {R : α → β → Prop} {a1 a2 : List α} {b1 b2 : List β}
    (h1 : List.Forall₂ R a1 b1) (h2 : List.Forall₂ R a2 b2) :
    List.Forall₂ R (a1 ++ a2) (b1 ++ b2) := by
  induction h1 with
  | nil => exact h2
  | cons h _ ih => exact List.Forall₂.cons h ih

theorem forall₂_right {α β : Type} {R : α → β → Prop} {as : List α} {bs : List β}
    (h : List.Forall₂ R as bs) : ∀ b, b ∈ bs → ∃ a, a ∈ as ∧ R a b := by
  induction h with
  | nil => intro b hb; simp at hb
  | cons h _ ih =>
    intro b hb
    rcases List.mem_cons.1 hb with rfl | hb
    · exact ⟨_, by simp, h⟩
    · obtain ⟨a, ha, hr⟩ := ih b hb
      exact ⟨a, by simp [ha], hr⟩

/-- A run of `ProvisionNodes` that returns without error: the lengths of the four lists,
the nodes one by one from the droplets created, their addresses and users. -/
theorem ProvisionNodes_returns {σ : Type} (p : Provider σ) (fuel : Nat) (opts : DOOpts)
    (nodeCount : NodeCount) (s : σ) (prov : ProvisionedNodes)
    (h : (ProvisionNodes p fuel opts nodeCount { state := s, log := [] }).1
      = some (prov, none)) :
    prov.Etcd.length = nodeCount.Etcd ∧ prov.Master.length = nodeCount.Master ∧
      prov.Worker.length = nodeCount.Worker ∧ prov.Boostrap.length = nodeCount.Boostrap ∧
      List.Forall₂
        (PolledFrom opts (ProvisionNodes p fuel opts nodeCount { state := s, log := [] }).2.log)
        (createdDroplets (ProvisionNodes p fuel opts nodeCount { state := s, log := [] }).2.log)
        prov.allNodes ∧
      (∀ n, n ∈ prov.allNodes → n.PublicIPv4 ≠ "" ∧ n.SSHUser = opts.SSHUser) ∧
      (∀ w d r w', WaitForIPs p opts fuel w d = (some r, w') → r ≠ none) := by
  have hnil : ∀ w d r w', WaitForIPs p opts fuel w d = (some r, w') → r ≠ none := by
    intro w d r w' hw
    obtain ⟨drop, hr, _⟩ := WaitForIPs_returns p opts fuel w d r w' hw
    rw [hr]
    simp
  obtain ⟨setup, hsl, hks, _⟩ := resolveKey_log p opts { state := s, log := [] }
  simp only [List.nil_append] at hsl
  rcases ProvisionNodes_cases p fuel opts nodeCount { state := s, log := [] } with
    ⟨err, _, hrun⟩ | ⟨_, err, ds, hres, _⟩ | ⟨_, q, w2, htr, hl1, hl2, hl3, hl4, hrun⟩
  · rw [hrun] at h
    simp at h
  · rw [hres] at h
    simp at h
  · rw [hrun] at h ⊢
    rcases hwa : waitAll p opts fuel q {} w2 with ⟨res, w'⟩
    rw [hwa] at h
    simp only at h
    subst h
    obtain ⟨_, ⟨polls, hpl, hget⟩, hf1, hf2, hf3, hf4⟩ :=
      waitAll_returns p opts fuel q w2 prov none w' hwa
    obtain ⟨evs, _, hds, hw2, _⟩ := htr
    have hcd : createdDroplets w'.log = q.1 ++ q.2.1 ++ q.2.2.1 ++ q.2.2.2 := by
      rw [hpl, hw2, hsl, createdDroplets_append, createdDroplets_append,
        (quiet_of_keySetup setup hks).2.1, (quiet_of_get polls hget).2.1, hds]
      simp
    have hall : List.Forall₂ (PolledFrom opts w'.log) (createdDroplets w'.log) prov.allNodes := by
      rw [hcd]
      unfold ProvisionedNodes.allNodes
      simp only [List.nil_append]
      exact forall₂_append (forall₂_append (forall₂_append hf1 hf2) hf3) hf4
    refine ⟨by rw [← hf1.length_eq, hl1], by rw [← hf2.length_eq, hl2],
      by rw [← hf3.length_eq, hl3], by rw [← hf4.length_eq, hl4], hall, ?_, hnil⟩
    intro n hn
    obtain ⟨d, _, g, _, hpub, hnode⟩ := forall₂_right hall n hn
    rw [hnode]
    exact ⟨hpub, rfl⟩

/-- C14: whenever `ProvisionNodes` returns without error, whatever the provider did, each
of its four lists has as many nodes as were asked for; the nodes of the four lists, in the
order etcd, master, worker, bootstrap, are one by one those of the droplets in the order
in which `CreateNode` returned them, each the conversion of a droplet that a poll of this
droplet's id was answered with and that has a public address; so every node has a
non-empty public address and the ssh user of the options. And when `WaitForIPs` returns,
it is never with `nil`. -/
theorem C14_success_lists {σ : Type} (p : Provider σ) (fuel : Nat) (opts : DOOpts)
    (nodeCount : NodeCount) (s : σ) (prov : ProvisionedNodes)
    (h : (ProvisionNodes p fuel opts nodeCount { state := s, log := [] }).1
      = some (prov, none)) :
    prov.Etcd.length = nodeCount.Etcd ∧ prov.Master.length = nodeCount.Master ∧
      prov.Worker.length = nodeCount.Worker ∧ prov.Boostrap.length = nodeCount.Boostrap ∧
      List.Forall₂
        (PolledFrom opts (ProvisionNodes p fuel opts nodeCount { state := s, log := [] }).2.log)
        (createdDroplets (ProvisionNodes p fuel opts nodeCount { state := s, log := [] }).2.log)
        prov.allNodes ∧
      (∀ n, n ∈ prov.allNodes → n.PublicIPv4 ≠ "" ∧ n.SSHUser = opts.SSHUser) ∧
      (∀ w d r w', WaitForIPs p opts fuel w d = (some r, w') → r ≠ none) :=
  ProvisionNodes_returns p fuel opts nodeCount s prov h

/-- Witness of C14: the run of `allGood` with one etcd and one master node. -/
theorem C14_success_lists_witness :
    (ProvisionNodes allGood 1 { SSHUser := "root" } { Etcd := 1, Master := 1 }
        { state := 0, log := [] }).1
      = some ({ Etcd := [{ ID := "\x01", Host := "node", PublicIPv4 := "203.0.113.7",
                           SSHUser := "root" }],
                Master := [{ ID := "\x02", Host := "node", PublicIPv4 := "203.0.113.7",
                             SSHUser := "root" }] }, none) ∧
    ([{ ID := "\x01", Host := "node", PublicIPv4 := "203.0.113.7", SSHUser := "root" }]
        : List Node).length = 1 :=
  ⟨by decide,
    (C14_success_lists allGood 1 { SSHUser := "root" } { Etcd := 1, Master := 1 } 0
      { Etcd := [{ ID := "\x01", Host := "node", PublicIPv4 := "203.0.113.7",
                   SSHUser := "root" }],
        Master := [{ ID := "\x02", Host := "node", PublicIPv4 := "203.0.113.7",
                     SSHUser := "root" }] } (by decide)).1⟩

theorem char_class_alphanum (c : Char)
    (h : (('a' ≤ c && c ≤ 'z') || ('A' ≤ c && c ≤ 'Z') || ('1' ≤ c && c ≤ '9')) = true) :
    c.isAlphanum = true := by
  simp only [Bool.or_eq_true, Bool.and_eq_true, decide_eq_true_eq] at h
  simp only [Char.isAlphanum, Char.isAlpha, Char.isUpper, Char.isLower, Char.isDigit,
    Bool.or_eq_true, Bool.and_eq_true, decide_eq_true_eq]
  simp only [Char.le_def, UInt32.le_def] at h
  simp only [ge_iff_le, UInt32.le_def]
  rcases h with (h | h) | h
  · exact Or.inl (Or.inr h)
  · exact Or.inl (Or.inl h)
  · refine Or.inr ⟨?_, h.2⟩
    have h1 := h.1
    rw [BitVec.le_def] at h1 ⊢
    have e : ('1' : Char).val.toBitVec.toNat = 49 := rfl
    have e0 : (UInt32.toBitVec 48).toNat = 48 := rfl
    omega

theorem matchAlphaNumeric_alphanum (pass : String) (h : matchAlphaNumeric pass = true) :
    pass ≠ "" ∧ pass.data.all Char.isAlphanum = true := by
  unfold matchAlphaNumeric at h
  simp only [Bool.and_eq_true, Bool.not_eq_true', List.isEmpty_eq_false] at h
  refine ⟨?_, ?_⟩
  · intro he
    rw [he] at h
    exact h.1 rfl
  · rw [List.all_eq_true] at h ⊢
    intro c hc
    exact char_class_alphanum c (h.2 c hc)

/-- The loop of `generateAlphaNumericPassword` from `attempts = a` on, with rounds enough
to reach 50: it returns, after candidates that were rejected and a last reply. -/
theorem passwordLoop_returns {σ : Type} (mc : Machine σ) :
    ∀ (fuel a : Nat) (r : Run σ), a ≤ 50 → 51 ≤ fuel + a →
      ∃ (pass : String) (rejected : List String) (last : Reply String) (calls : List Step),
        (passwordLoop mc fuel (a : Int) r).1 = some pass ∧
        (passwordLoop mc fuel (a : Int) r).2.steps = r.steps ++ calls ∧
        calls.length = rejected.length + 1 ∧
        passwordReplies calls = rejected.map Reply.ok ++ [last] ∧
        a + rejected.length ≤ 50 ∧
        (∀ c, c ∈ rejected → matchAlphaNumeric c = false) ∧
        ((∃ err, last = .failed err ∧ pass = "weakpassword") ∨
         (∃ c, last = .ok c ∧ matchAlphaNumeric c = true ∧ pass = c) ∨
         (∃ c, last = .ok c ∧ matchAlphaNumeric c = false ∧ pass = "weakpassword" ∧
            a + rejected.length = 50)) := by
  intro fuel
  induction fuel with
  | zero => intro a r ha hf; omega
  | succ fuel ih =>
    intro a r ha hf
    rw [passwordLoop]
    dsimp only
    generalize (mc.randIntn r.state 6).1 = uppercase
    generalize (mc.randIntn r.state 6).2 = st1
    generalize (mc.randIntn st1 6).1 = digits
    generalize (mc.randIntn st1 6).2 = st2
    rcases h3 : mc.newPassword st2 ⟨16, uppercase, digits, -1⟩ with ⟨reply, st3⟩
    cases reply with
    | failed err =>
      exact ⟨_, [], .failed err, [_], rfl, rfl, rfl, rfl, by simpa using ha, by simp,
        Or.inl ⟨err, rfl, rfl⟩⟩
    | ok c =>
      dsimp only
      by_cases hm : matchAlphaNumeric c = true
      · rw [if_pos hm]
        exact ⟨_, [], .ok c, [_], rfl, rfl, rfl, rfl, by simpa using ha, by simp,
          Or.inr (Or.inl ⟨c, rfl, hm, rfl⟩)⟩
      · rw [if_neg hm]
        simp only [Bool.not_eq_true] at hm
        by_cases h50 : (a : Int) = 50
        · rw [if_pos h50]
          exact ⟨_, [], .ok c, [_], rfl, rfl, rfl, rfl, by simpa using ha, by simp,
            Or.inr (Or.inr ⟨c, rfl, hm, rfl, by simp; omega⟩)⟩
        · rw [if_neg h50]
          have ha' : a + 1 ≤ 50 := by omega
          obtain ⟨pass, rejected, last, calls, h1, h2, h3, h4, h5, h6, h7⟩ :=
            ih (a + 1)
              { state := st3,
                steps := r.steps ++ [.newPassword ⟨16, uppercase, digits, -1⟩ (.ok c)] }
              ha' (by omega)
          have hcast : ((a + 1 : Nat) : Int) = (a : Int) + 1 := by push_cast; rfl
          rw [hcast] at h1 h2
          refine ⟨pass, c :: rejected, last,
            Step.newPassword ⟨16, uppercase, digits, -1⟩ (.ok c) :: calls, h1, by rw [h2]; simp, by simp [h3],
            ?_, by simp; omega, ?_, ?_⟩
          · simp only [passwordReplies, List.filterMap_cons, List.map_cons, List.cons_append]
            unfold passwordReplies at h4
            rw [h4]
          · intro c' hc'
            rcases List.mem_cons.1 hc' with rfl | hc'
            · exact hm
            · exact h6 c' hc'
          · rcases h7 with h7 | h7 | ⟨c', e1, e2, e3, e4⟩
            · exact Or.inl h7
            · exact Or.inr (Or.inl h7)
            · exact Or.inr (Or.inr ⟨c', e1, e2, e3, by simp; omega⟩)

/-! ## The password -/

/-- C20: whatever the random source and the password generator do, with room for 51
rounds `generateAlphaNumericPassword` returns a password, after at most 51 calls of the
generator and no other step: the candidates before the last call were rejected by the
expression `^[a-zA-Z1-9]+$`, and the password is the last candidate when it matches,
and `weakpassword` when the last call failed or when the last candidate, the 51st, was
rejected too. The password returned is not empty and all its characters are letters or
digits. -/
theorem C20_password_never_fails {σ : Type} (mc : Machine σ) (fuel : Nat) (hfuel : 51 ≤ fuel)
    (r : Run σ) :
    ∃ (pass : String) (rejected : List String) (last : Reply String) (calls : List Step),
      (generateAlphaNumericPassword mc fuel r).1 = some pass ∧
      (generateAlphaNumericPassword mc fuel r).2.steps = r.steps ++ calls ∧
      passwordReplies calls = rejected.map Reply.ok ++ [last] ∧
      calls.length = (passwordReplies calls).length ∧ calls.length ≤ 51 ∧
      (∀ c, c ∈ rejected → matchAlphaNumeric c = false) ∧
      ((∃ err, last = .failed err ∧ pass = "weakpassword") ∨
       (∃ c, last = .ok c ∧ matchAlphaNumeric c = true ∧ pass = c) ∨
       (∃ c, last = .ok c ∧ matchAlphaNumeric c = false ∧ pass = "weakpassword" ∧
          calls.length = 51)) ∧
      pass ≠ "" ∧ pass.data.all Char.isAlphanum = true := by
  obtain ⟨pass, rejected, last, calls, h1, h2, h3, h4, h5, h6, h7⟩ :=
    passwordLoop_returns mc fuel 0 r (by omega) (by omega)
  refine ⟨pass, rejected, last, calls, h1, h2, h4, by rw [h4, h3]; simp, by omega, h6, ?_, ?_⟩
  · rcases h7 with h7 | h7 | ⟨c, e1, e2, e3, e4⟩
    · exact Or.inl h7
    · exact Or.inr (Or.inl h7)
    · exact Or.inr (Or.inr ⟨c, e1, e2, e3, by omega⟩)
  · rcases h7 with ⟨_, _, e⟩ | ⟨c, _, hm, e⟩ | ⟨_, _, _, e, _⟩
    · rw [e]; exact ⟨by decide, by decide⟩
    · rw [e]; exact matchAlphaNumeric_alphanum c hm
    · rw [e]; exact ⟨by decide, by decide⟩

/-- Witness of C20: a generator whose every candidate has a dash; the 51st is the last. -/
theorem C20_password_never_fails_witness :
    (generateAlphaNumericPassword dashMachine 51 { state := 0, steps := [] }).1
        = some "weakpassword" ∧
      (generateAlphaNumericPassword dashMachine 51 { state := 0, steps := [] }).2.steps.length
        = 51 ∧
      ∃ (pass : String) (rejected : List String) (last : Reply String) (calls : List Step),
        (generateAlphaNumericPassword dashMachine 51 { state := 0, steps := [] }).1
          = some pass ∧
        (generateAlphaNumericPassword dashMachine 51 { state := 0, steps := [] }).2.steps
          = [] ++ calls ∧
        passwordReplies calls = rejected.map Reply.ok ++ [last] ∧
        calls.length = (passwordReplies calls).length ∧ calls.length ≤ 51 ∧
        (∀ c, c ∈ rejected → matchAlphaNumeric c = false) ∧
        ((∃ err, last = .failed err ∧ pass = "weakpassword") ∨
         (∃ c, last = .ok c ∧ matchAlphaNumeric c = true ∧ pass = c) ∨
         (∃ c, last = .ok c ∧ matchAlphaNumeric c = false ∧ pass = "weakpassword" ∧
            calls.length = 51)) ∧
        pass ≠ "" ∧ pass.data.all Char.isAlphanum = true :=
  ⟨by decide, by decide,
    C20_password_never_fails dashMachine 51 (by decide) { state := 0, steps := [] }⟩

/-! ## The steps of `makeInfra` -/

theorem sshLoop_steps {σ : Type} (mc : Machine σ) (sshKey : String) (nodes : List Node) :
    ∀ (r : Run σ),
      (∃ waited, (sshLoop mc sshKey nodes r).2.steps = r.steps ++ waited ∧
        ∀ s, s ∈ waited → s.isSSHOpen = true) ∧
      ((sshLoop mc sshKey nodes r).1 = true →
        (sshLoop mc sshKey nodes r).2.steps = r.steps ++ sshSteps nodes sshKey) := by
  induction nodes with
  | nil =>
    intro r
    exact ⟨⟨[], by simp [sshLoop], by simp⟩, fun _ => by simp [sshLoop, sshSteps]⟩
  | cons n rest ih =>
    intro r
    rw [sshLoop]
    rcases h : mc.blockUntilSSHOpen r.state n.Host n.PublicIPv4 n.SSHUser sshKey with _ | st
    · exact ⟨⟨[], by simp, by simp⟩, fun hf => by simp at hf⟩
    · dsimp only
      obtain ⟨⟨waited, hw, hall⟩, hdone⟩ := ih
        { state := st, steps := r.steps ++ [.sshOpen n.Host n.PublicIPv4 n.SSHUser sshKey] }
      refine ⟨⟨.sshOpen n.Host n.PublicIPv4 n.SSHUser sshKey :: waited, by rw [hw]; simp, ?_⟩, ?_⟩
      · intro s hs
        rcases List.mem_cons.1 hs with rfl | hs
        · rfl
        · exact hall s hs
      · intro hf
        rw [hdone hf]
        simp [sshSteps]

/-- The function `WaitForSSH` adds returns of `BlockUntilSSHOpen` only; when it returns,
it returns `nil`, and `BlockUntilSSHOpen` has returned for every node of `allNodes`,
once for each in their order. -/
theorem WaitForSSH_steps {σ : Type} (mc : Machine σ) (nodes : ProvisionedNodes)
    (sshKey : String) (r : Run σ) :
    (∃ waited, (WaitForSSH mc nodes sshKey r).2.steps = r.steps ++ waited ∧
      ∀ s, s ∈ waited → s.isSSHOpen = true) ∧
    (∀ res, (WaitForSSH mc nodes sshKey r).1 = some res →
      res = none ∧
        (WaitForSSH mc nodes sshKey r).2.steps = r.steps ++ sshSteps nodes.allNodes sshKey) := by
  obtain ⟨hw, hdone⟩ := sshLoop_steps mc sshKey nodes.allNodes r
  unfold WaitForSSH
  rcases h : sshLoop mc sshKey nodes.allNodes r with ⟨_ | _, r1⟩
  · rw [h] at hw
    exact ⟨hw, fun res hres => by simp at hres⟩
  · rw [h] at hw hdone
    refine ⟨hw, fun res hres => ?_⟩
    simp only [Option.some.injEq] at hres
    exact ⟨hres.symm, hdone rfl⟩

theorem passwordLoop_steps {σ : Type} (mc : Machine σ) :
    ∀ (fuel : Nat) (a : Int) (r : Run σ),
      ∃ calls, (passwordLoop mc fuel a r).2.steps = r.steps ++ calls ∧
        ∀ s, s ∈ calls → s.isNewPassword = true := by
  intro fuel
  induction fuel with
  | zero => intro a r; exact ⟨[], by simp [passwordLoop], by simp⟩
  | succ fuel ih =>
    intro a r
    rw [passwordLoop]
    dsimp only
    generalize (mc.randIntn r.state 6).1 = uppercase
    generalize (mc.randIntn r.state 6).2 = st1
    generalize (mc.randIntn st1 6).1 = digits
    generalize (mc.randIntn st1 6).2 = st2
    rcases h3 : mc.newPassword st2 ⟨16, uppercase, digits, -1⟩ with ⟨reply, st3⟩
    cases reply with
    | failed err => exact ⟨[_], rfl, by simp [Step.isNewPassword]⟩
    | ok c =>
      dsimp only
      split
      · exact ⟨[_], rfl, by simp [Step.isNewPassword]⟩
      · split
        · exact ⟨[_], rfl, by simp [Step.isNewPassword]⟩
        · obtain ⟨calls, hc, hall⟩ := ih (a + 1)
            { state := st3, steps := r.steps ++ [.newPassword ⟨16, uppercase, digits, -1⟩ (.ok c)] }
          refine ⟨Step.newPassword ⟨16, uppercase, digits, -1⟩ (.ok c) :: calls,
            by rw [hc]; simp, ?_⟩
          intro s hs
          rcases List.mem_cons.1 hs with rfl | hs
          · rfl
          · exact hall s hs

/-- The function `makePlan` adds its own call and, after it, at most a call of `scpFile`. -/
theorem makePlan_steps {σ : Type} (mc : Machine σ) (fuel : Nat) (pln : Plan) (opts : DOOpts)
    (nodes : ProvisionedNodes) (r : Run σ) :
    ∃ rest, (makePlan mc fuel pln opts nodes r).2.steps = r.steps ++ .makePlan pln :: rest ∧
      ∀ s, s ∈ rest → s.isMakePlan = false := by
  unfold makePlan
  cases mc.parseTemplate with
  | some err => exact ⟨[], rfl, by simp⟩
  | none =>
    dsimp only
    rcases makeUniqueFile mc fuel 0 r.state with _ | ⟨_ | err, st⟩
    · exact ⟨[], rfl, by simp⟩
    swap
    · exact ⟨[], rfl, by simp⟩
    rename_i f
    dsimp only
    rcases mc.execute st f pln with ⟨_ | err, st1⟩
    swap
    · exact ⟨[], rfl, by simp⟩
    dsimp only
    split
    · cases nodes.Boostrap with
      | nil => exact ⟨[], rfl, by simp⟩
      | cons boot _ =>
        dsimp only
        split
        · exact ⟨[_], rfl, by simp [Step.isMakePlan]⟩
        · exact ⟨[_], rfl, by simp [Step.isMakePlan]⟩
    · exact ⟨[], rfl, by simp⟩

/-- The options that `readOptions` hands on differ from those given in the token, the
name of the key and the paths of the key files only. -/
theorem readOptions_ok {σ : Type} (mc : Machine σ) (opts opts' : DOOpts) (st st' : σ)
    (h : readOptions mc opts st = (.ok opts', st')) :
    ∃ token name sshPrivate sshPublic,
      opts' = { opts with Token := token, SSHKeyName := name, SSHPrivateKey := sshPrivate,
                          SSHPublicKey := sshPublic } := by
  unfold readOptions at h
  generalize (if mc.getenv st "DO_API_TOKEN" = "" then
      match mc.readLine st with
      | (url, st) => (dropReturns (trimNewlines url), st)
    else (mc.getenv st "DO_API_TOKEN", st)) = tk at h
  obtain ⟨token, st1⟩ := tk
  dsimp only at h
  split at h
  · simp at h
  · rcases hv : validateKeyFile mc { opts with Token := token } st1 with
      ⟨⟨sshPrivate, sshPublic, _ | errkey⟩, st2⟩
    swap
    · rw [hv] at h; simp at h
    rw [hv] at h
    dsimp only at h
    rcases hs : mc.stat st2 sshPrivate with ⟨_ | _ | _, st3⟩
    · rw [hs] at h
      simp only [Prod.mk.injEq, Except.ok.injEq] at h
      exact ⟨token, _, sshPrivate, sshPublic, h.1.symm⟩
    · rw [hs] at h; simp at h
    · rw [hs] at h; simp at h

/-- The end of `makeInfra` adds calls of the password generator and then, unless it ends
before, the call of `makePlan` with the plan assembled from the provisioned nodes, the
password and the options. -/
theorem planInfra_steps {σ : Type} (mc : Machine σ) (fuel : Nat) (opts : DOOpts)
    (nodes : ProvisionedNodes) (r : Run σ) :
    ∃ calls, (∀ s, s ∈ calls → s.isNewPassword = true) ∧
      ((planInfra mc fuel opts nodes r).2.steps = r.steps ++ calls ∨
       ∃ pln password worker0 wrest master0 mrest rest,
        (planInfra mc fuel opts nodes r).2.steps = r.steps ++ calls ++ .makePlan pln :: rest ∧
        (∀ s, s ∈ rest → s.isMakePlan = false) ∧
        opts.NoPlan = false ∧
        (generateAlphaNumericPassword mc fuel r).1 = some password ∧
        nodes.Worker = worker0 :: wrest ∧ nodes.Master = master0 :: mrest ∧
        pln.AdminPassword = password ∧
        pln.Etcd = nodes.Etcd ∧ pln.Master = nodes.Master ∧ pln.Worker = nodes.Worker ∧
        pln.Ingress = [worker0] ∧
        pln.Storage = (if opts.Storage then nodes.Worker else []) ∧
        pln.MasterNodeFQDN = master0.PublicIPv4 ∧
        pln.MasterNodeShortName = master0.PublicIPv4 ∧
        pln.SSHUser = master0.SSHUser) := by
  unfold planInfra
  by_cases hnp : opts.NoPlan = true
  · rw [if_pos hnp]
    exact ⟨[], by simp, Or.inl (by simp)⟩
  rw [if_neg hnp]
  simp only [Bool.not_eq_true] at hnp
  obtain ⟨calls, hcalls, hall⟩ := passwordLoop_steps mc fuel 0 r
  rcases hg : generateAlphaNumericPassword mc fuel r with ⟨_ | password, r2⟩
  · unfold generateAlphaNumericPassword at hg
    rw [hg] at hcalls
    exact ⟨calls, hall, Or.inl hcalls⟩
  · unfold generateAlphaNumericPassword at hg
    rw [hg] at hcalls
    dsimp only at hcalls ⊢
    rcases hw : nodes.Worker with _ | ⟨worker0, wrest⟩
    · exact ⟨calls, hall, Or.inl hcalls⟩
    rcases hm : nodes.Master with _ | ⟨master0, mrest⟩
    · exact ⟨calls, hall, Or.inl hcalls⟩
    dsimp only
    generalize hpln : Plan.mk _ _ _ _ _ _ _ _ _ _ = pln
    obtain ⟨rest, hrest, hnone⟩ := makePlan_steps mc fuel pln opts nodes r2
    refine ⟨calls, hall, Or.inr ⟨pln, password, worker0, wrest, master0, mrest, rest,
      by rw [hrest, hcalls], hnone, hnp, rfl, rfl, rfl, ?_⟩⟩
    subst hpln
    exact ⟨rfl, rfl, rfl, rfl, rfl, rfl, rfl, rfl, rfl⟩

theorem provider_not_makePlan (log : List Event) (s : Step) (h : s ∈ log.map Step.provider) :
    s.isMakePlan = false ∧ s.isSSHOpen = false ∧ s.isNewPassword = false := by
  obtain ⟨e, _, rfl⟩ := List.mem_map.1 h
  exact ⟨rfl, rfl, rfl⟩

theorem sshOpen_not_makePlan (s : Step) (h : s.isSSHOpen = true) : s.isMakePlan = false := by
  cases s <;> simp_all [Step.isSSHOpen, Step.isMakePlan]

theorem newPassword_not_makePlan (s : Step) (h : s.isNewPassword = true) :
    s.isMakePlan = false := by
  cases s <;> simp_all [Step.isNewPassword, Step.isMakePlan]

/-- A run of `makeInfra` in which `makePlan` is called: the options were read,
`ProvisionNodes` returned nodes and no error, `WaitForSSH` returned `nil` after
`BlockUntilSSHOpen` had returned for every node of `allNodes`, the password was generated,
and the plan is the one assembled from these nodes. -/
theorem makeInfra_plan {σ : Type} (p : Provider σ) (mc : Machine σ) (fuel : Nat)
    (opts : DOOpts) (s : σ) (pln : Plan)
    (h : Step.makePlan pln ∈ (makeInfra p mc fuel opts { state := s, steps := [] }).2.steps) :
    ∃ opts' st nodes w r1 calls rest password worker0 wrest master0 mrest,
      readOptions mc opts s = (.ok opts', st) ∧
      ProvisionNodes p fuel opts' (requestedCount opts') { state := st, log := [] }
        = (some (nodes, none), w) ∧
      WaitForSSH mc nodes opts'.SSHPrivateKey
          { state := w.state, steps := w.log.map Step.provider } = (some none, r1) ∧
      r1.steps = w.log.map Step.provider ++ sshSteps nodes.allNodes opts'.SSHPrivateKey ∧
      (makeInfra p mc fuel opts { state := s, steps := [] }).2.steps
        = r1.steps ++ calls ++ .makePlan pln :: rest ∧
      (∀ s, s ∈ calls → s.isNewPassword = true) ∧
      (∀ s, s ∈ rest → s.isMakePlan = false) ∧
      opts'.NoPlan = false ∧
      (generateAlphaNumericPassword mc fuel r1).1 = some password ∧
      nodes.Worker = worker0 :: wrest ∧ nodes.Master = master0 :: mrest ∧
      pln.AdminPassword = password ∧
      pln.Etcd = nodes.Etcd ∧ pln.Master = nodes.Master ∧ pln.Worker = nodes.Worker ∧
      pln.Ingress = [worker0] ∧
      pln.Storage = (if opts'.Storage then nodes.Worker else []) ∧
      pln.MasterNodeFQDN = master0.PublicIPv4 ∧
      pln.MasterNodeShortName = master0.PublicIPv4 ∧
      pln.SSHUser = master0.SSHUser := by
  unfold makeInfra at h ⊢
  dsimp only at h ⊢
  rcases hro : readOptions mc opts s with ⟨out | opts', st⟩
  · rw [hro] at h
    simp at h
  rw [hro] at h
  dsimp only at h ⊢
  rcases hpn : ProvisionNodes p fuel opts' (requestedCount opts') { state := st, log := [] } with
    ⟨_ | ⟨nodes, _ | err⟩, w⟩
  · rw [hpn] at h
    simp only [List.nil_append] at h
    exact absurd (provider_not_makePlan _ _ h).1 (by simp [Step.isMakePlan])
  swap
  · rw [hpn] at h
    simp only [List.nil_append] at h
    exact absurd (provider_not_makePlan _ _ h).1 (by simp [Step.isMakePlan])
  rw [hpn] at h
  simp only [List.nil_append] at h ⊢
  obtain ⟨⟨waited, hwaited, hssh⟩, hdone⟩ := WaitForSSH_steps mc nodes opts'.SSHPrivateKey
    { state := w.state, steps := w.log.map Step.provider }
  have hpre : ∀ s, s ∈ (WaitForSSH mc nodes opts'.SSHPrivateKey
      { state := w.state, steps := w.log.map Step.provider }).2.steps → s.isMakePlan = false := by
    intro s hs
    rw [hwaited] at hs
    rcases List.mem_append.1 hs with hs | hs
    · exact (provider_not_makePlan _ _ hs).1
    · exact sshOpen_not_makePlan s (hssh s hs)
  rcases hws : WaitForSSH mc nodes opts'.SSHPrivateKey
      { state := w.state, steps := w.log.map Step.provider } with ⟨_ | res, r1⟩
  · rw [hws] at h hpre
    exact absurd (hpre _ h) (by simp [Step.isMakePlan])
  rw [hws] at h hpre hdone
  obtain ⟨hres, hr1⟩ := hdone res rfl
  subst hres
  dsimp only at h hpre hr1 ⊢
  obtain ⟨calls, hcalls, hplan⟩ := planInfra_steps mc fuel opts' nodes r1
  rcases hplan with hplan | ⟨pln', password, worker0, wrest, master0, mrest, rest, hsteps, hrest,
    hnp, hpw, hw, hm, hfields⟩
  · rw [hplan] at h
    rcases List.mem_append.1 h with h | h
    · exact absurd (hpre _ h) (by simp [Step.isMakePlan])
    · exact absurd (newPassword_not_makePlan _ (hcalls _ h)) (by simp [Step.isMakePlan])
  · rw [hsteps] at h
    have hpln : pln = pln' := by
      rcases List.mem_append.1 h with h | h
      · rcases List.mem_append.1 h with h | h
        · exact absurd (hpre _ h) (by simp [Step.isMakePlan])
        · exact absurd (newPassword_not_makePlan _ (hcalls _ h)) (by simp [Step.isMakePlan])
      · rcases List.mem_cons.1 h with h | h
        · simpa using h
        · exact absurd (hrest _ h) (by simp [Step.isMakePlan])
    subst hpln
    exact ⟨opts', st, nodes, w, r1, calls, rest, password, worker0, wrest, master0, mrest, rfl,
      hpn, hws, hr1, hsteps, hcalls, hrest, hnp, hpw, hw, hm, hfields⟩

theorem sshSteps_isSSHOpen (nodes : List Node) (sshKey : String) (s : Step)
    (h : s ∈ sshSteps nodes sshKey) : s.isSSHOpen = true := by
  obtain ⟨n, _, rfl⟩ := List.mem_map.1 h
  rfl

/-- C15: in every run of `makeInfra`, whatever the provider and the machine do, when
`makePlan` is called then `ProvisionNodes` has returned nodes without error, `WaitForSSH`
has returned `nil` for them, and the steps before the call are the calls of
`ProvisionNodes`, then one return of `BlockUntilSSHOpen` for each node of `allNodes` (the
etcd, master, worker and bootstrap nodes, in this order), then calls of the password
generator. And whenever `WaitForSSH` returns, it returns `nil`, and `BlockUntilSSHOpen` has
returned for every node of `allNodes`. -/
theorem C15_plan_after_ssh {σ : Type} (p : Provider σ) (mc : Machine σ) (fuel : Nat)
    (opts : DOOpts) (s : σ) (pln : Plan) (before after : List Step)
    (h : (makeInfra p mc fuel opts { state := s, steps := [] }).2.steps
      = before ++ .makePlan pln :: after) :
    (∃ opts' st nodes w r1 calls,
      readOptions mc opts s = (.ok opts', st) ∧
      ProvisionNodes p fuel opts' (requestedCount opts') { state := st, log := [] }
        = (some (nodes, none), w) ∧
      WaitForSSH mc nodes opts'.SSHPrivateKey
          { state := w.state, steps := w.log.map Step.provider } = (some none, r1) ∧
      before = w.log.map Step.provider ++ sshSteps nodes.allNodes opts'.SSHPrivateKey ++ calls ∧
      (∀ c, c ∈ calls → c.isNewPassword = true) ∧
      nodes.allNodes = nodes.Etcd ++ nodes.Master ++ nodes.Worker ++ nodes.Boostrap) ∧
    (∀ (nodes : ProvisionedNodes) (sshKey : String) (r0 : Run σ) (res : Option Error),
      (WaitForSSH mc nodes sshKey r0).1 = some res →
        res = none ∧
          (WaitForSSH mc nodes sshKey r0).2.steps
            = r0.steps ++ sshSteps nodes.allNodes sshKey) := by
  refine ⟨?_, fun nodes sshKey r0 res hres => (WaitForSSH_steps mc nodes sshKey r0).2 res hres⟩
  obtain ⟨opts', st, nodes, w, r1, calls, rest, _, _, _, _, _, hro, hpn, hws, hr1, hsteps, hcalls,
    hrest, _⟩ := makeInfra_plan p mc fuel opts s pln (by rw [h]; simp)
  refine ⟨opts', st, nodes, w, r1, calls, hro, hpn, hws, ?_, hcalls, by
    simp [ProvisionedNodes.allNodes]⟩
  rw [hsteps] at h
  have hx : Step.makePlan pln ∉ r1.steps ++ calls := by
    intro hm
    rcases List.mem_append.1 hm with hm | hm
    · rw [hr1] at hm
      rcases List.mem_append.1 hm with hm | hm
      · exact absurd (provider_not_makePlan _ _ hm).1 (by simp [Step.isMakePlan])
      · exact absurd (sshOpen_not_makePlan _ (sshSteps_isSSHOpen _ _ _ hm))
          (by simp [Step.isMakePlan])
    · exact absurd (newPassword_not_makePlan _ (hcalls _ hm)) (by simp [Step.isMakePlan])
  obtain ⟨c, hbefore, hc⟩ := split_right h hx
  cases c with
  | nil => rw [hbefore, hr1]; simp
  | cons x c =>
    simp only [List.cons_append, List.cons.injEq] at hc
    exact absurd (hrest (Step.makePlan pln) (by rw [hc.2]; simp)) (by simp [Step.isMakePlan])

/-- Witness of C15: the run on `allGood` and `plainMachine` with one node of each role. -/
theorem C15_plan_after_ssh_witness :
    (makeInfra allGood plainMachine 51 plainOpts { state := 0, steps := [] }).2.steps
        = plainSteps ++ .makePlan plainPlan :: [] ∧
      ∃ opts' st nodes w r1 calls,
        readOptions plainMachine plainOpts 0 = (.ok opts', st) ∧
        ProvisionNodes allGood 51 opts' (requestedCount opts') { state := st, log := [] }
          = (some (nodes, none), w) ∧
        WaitForSSH plainMachine nodes opts'.SSHPrivateKey
            { state := w.state, steps := w.log.map Step.provider } = (some none, r1) ∧
        plainSteps
          = w.log.map Step.provider ++ sshSteps nodes.allNodes opts'.SSHPrivateKey ++ calls ∧
        (∀ c, c ∈ calls → c.isNewPassword = true) ∧
        nodes.allNodes = nodes.Etcd ++ nodes.Master ++ nodes.Worker ++ nodes.Boostrap :=
  ⟨by decide,
    (C15_plan_after_ssh allGood plainMachine 51 plainOpts 0 plainPlan plainSteps []
      (by decide)).1⟩

/-- C16: in every run of `makeInfra`, whatever the provider and the machine do, the plan
that `makePlan` is called with has as its etcd, master and worker lists the lists that
`ProvisionNodes` returned, which have as many nodes as the options ask for, and as the
FQDN and the short name of the master endpoint the public address of the first master
node. -/
theorem C16_plan_lists_provisioned {σ : Type} (p : Provider σ) (mc : Machine σ) (fuel : Nat)
    (opts : DOOpts) (s : σ) (pln : Plan)
    (h : Step.makePlan pln ∈ (makeInfra p mc fuel opts { state := s, steps := [] }).2.steps) :
    ∃ opts' st nodes w master0,
      readOptions mc opts s = (.ok opts', st) ∧
      ProvisionNodes p fuel opts' (requestedCount opts') { state := st, log := [] }
        = (some (nodes, none), w) ∧
      pln.Etcd = nodes.Etcd ∧ pln.Master = nodes.Master ∧ pln.Worker = nodes.Worker ∧
      pln.Etcd.length = opts.EtcdNodeCount ∧ pln.Master.length = opts.MasterNodeCount ∧
      pln.Worker.length = opts.WorkerNodeCount ∧
      nodes.Master.head? = some master0 ∧
      pln.MasterNodeFQDN = master0.PublicIPv4 ∧
      pln.MasterNodeShortName = master0.PublicIPv4 := by
  obtain ⟨opts', st, nodes, w, r1, calls, rest, password, worker0, wrest, master0, mrest, hro,
    hpn, _, _, _, _, _, _, _, _, hm, _, he, hma, hwo, _, _, hf, hs, _⟩ :=
    makeInfra_plan p mc fuel opts s pln h
  obtain ⟨token, name, sshPrivate, sshPublic, ho⟩ := readOptions_ok mc opts opts' s st hro
  obtain ⟨l1, l2, l3, _⟩ := ProvisionNodes_returns p fuel opts' (requestedCount opts') st nodes
    (by rw [hpn])
  refine ⟨opts', st, nodes, w, master0, hro, hpn, he, hma, hwo, ?_, ?_, ?_, by rw [hm]; rfl,
    hf, hs⟩
  · rw [he, l1, ho]; rfl
  · rw [hma, l2, ho]; rfl
  · rw [hwo, l3, ho]; rfl

/-- Witness of C16: the plan of the run on `allGood` and `plainMachine`. -/
theorem C16_plan_lists_provisioned_witness :
    Step.makePlan plainPlan
        ∈ (makeInfra allGood plainMachine 51 plainOpts { state := 0, steps := [] }).2.steps ∧
      ∃ opts' st nodes w master0,
        readOptions plainMachine plainOpts 0 = (.ok opts', st) ∧
        ProvisionNodes allGood 51 opts' (requestedCount opts') { state := st, log := [] }
          = (some (nodes, none), w) ∧
        plainPlan.Etcd = nodes.Etcd ∧ plainPlan.Master = nodes.Master ∧
        plainPlan.Worker = nodes.Worker ∧
        plainPlan.Etcd.length = plainOpts.EtcdNodeCount ∧
        plainPlan.Master.length = plainOpts.MasterNodeCount ∧
        plainPlan.Worker.length = plainOpts.WorkerNodeCount ∧
        nodes.Master.head? = some master0 ∧
        plainPlan.MasterNodeFQDN = master0.PublicIPv4 ∧
        plainPlan.MasterNodeShortName = master0.PublicIPv4 :=
  ⟨by decide, C16_plan_lists_provisioned allGood plainMachine 51 plainOpts 0 plainPlan
    (by decide)⟩

/-- C18: the storage group mirrors the worker group when the storage flag is set, and is
empty otherwise. For every plan of the Vagrant provisioner with options, `Storage()` is
what `Worker()` is when `Opts.Storage` is set, and the empty list when it is not; and in
every run of `makeInfra`, the plan that `makePlan` is called with has as its storage list
the worker list that `ProvisionNodes` returned, which is its worker list too, when
`opts.Storage` is set, and the empty list when it is not. -/
theorem C18_storage_mirrors_workers :
    (∀ (vp : Vagrant.Plan) (o : Vagrant.PlanOpts), vp.Opts = some o →
      vp.Storage = if o.Storage then vp.Worker else some []) ∧
    (∀ {σ : Type} (p : Provider σ) (mc : Machine σ) (fuel : Nat) (opts : DOOpts) (s : σ)
      (pln : Plan),
      Step.makePlan pln ∈ (makeInfra p mc fuel opts { state := s, steps := [] }).2.steps →
      ∃ opts' st nodes w,
        readOptions mc opts s = (.ok opts', st) ∧
        ProvisionNodes p fuel opts' (requestedCount opts') { state := st, log := [] }
          = (some (nodes, none), w) ∧
        pln.Worker = nodes.Worker ∧
        pln.Storage = if opts.Storage then nodes.Worker else []) := by
  refine ⟨?_, ?_⟩
  · intro vp o ho
    unfold Vagrant.Plan.Storage Vagrant.Plan.Worker
    rw [ho]
  · intro σ p mc fuel opts s pln h
    obtain ⟨opts', st, nodes, w, r1, calls, rest, password, worker0, wrest, master0, mrest, hro,
      hpn, _, _, _, _, _, _, _, _, _, _, _, _, hwo, _, hst, _⟩ :=
      makeInfra_plan p mc fuel opts s pln h
    obtain ⟨token, name, sshPrivate, sshPublic, ho⟩ := readOptions_ok mc opts opts' s st hro
    refine ⟨opts', st, nodes, w, hro, hpn, hwo, ?_⟩
    rw [hst, ho]

/-- Witness of C18: the topology of `fourNodeOpts` with the storage flag set, and the run
on `allGood` and `plainMachine`, whose options set it too. -/
theorem C18_storage_mirrors_workers_witness :
    Vagrant.Plan.Storage ⟨some (Vagrant.fourNodePlanOpts true), some Vagrant.fourNodes⟩
        = some (Vagrant.fourNodes.Nodes.drop 2) ∧
      Vagrant.Plan.Storage ⟨some (Vagrant.fourNodePlanOpts false), some Vagrant.fourNodes⟩
        = some [] ∧
      ∃ opts' st nodes w,
        readOptions plainMachine plainOpts 0 = (.ok opts', st) ∧
        ProvisionNodes allGood 51 opts' (requestedCount opts') { state := st, log := [] }
          = (some (nodes, none), w) ∧
        plainPlan.Worker = nodes.Worker ∧
        plainPlan.Storage = if plainOpts.Storage then nodes.Worker else [] :=
  ⟨by
      rw [C18_storage_mirrors_workers.1 _ (Vagrant.fourNodePlanOpts true) rfl]
      decide,
    by
      rw [C18_storage_mirrors_workers.1 _ (Vagrant.fourNodePlanOpts false) rfl]
      decide,
    C18_storage_mirrors_workers.2 allGood plainMachine 51 plainOpts 0 plainPlan (by decide)⟩

/-- C19: in every run of `makeInfra`, whatever the provider and the machine do, the
ingress list of the plan that `makePlan` is called with has one node, the first node of
the worker list that `ProvisionNodes` returned, which is a node of the worker list of
the plan. -/
theorem C19_single_ingress {σ : Type} (p : Provider σ) (mc : Machine σ) (fuel : Nat)
    (opts : DOOpts) (s : σ) (pln : Plan)
    (h : Step.makePlan pln ∈ (makeInfra p mc fuel opts { state := s, steps := [] }).2.steps) :
    ∃ opts' st nodes w worker0,
      readOptions mc opts s = (.ok opts', st) ∧
      ProvisionNodes p fuel opts' (requestedCount opts') { state := st, log := [] }
        = (some (nodes, none), w) ∧
      nodes.Worker.head? = some worker0 ∧
      pln.Ingress = [worker0] ∧ pln.Ingress.length = 1 ∧
      worker0 ∈ nodes.Worker ∧ worker0 ∈ pln.Worker := by
  obtain ⟨opts', st, nodes, w, r1, calls, rest, password, worker0, wrest, master0, mrest, hro,
    hpn, _, _, _, _, _, _, _, hw, _, _, _, _, hwo, hin, _⟩ :=
    makeInfra_plan p mc fuel opts s pln h
  refine ⟨opts', st, nodes, w, worker0, hro, hpn, by rw [hw]; rfl, hin, by rw [hin]; rfl,
    by rw [hw]; simp, by rw [hwo, hw]; simp⟩

/-- Witness of C19: the plan of the run on `allGood` and `plainMachine`. -/
theorem C19_single_ingress_witness :
    Step.makePlan plainPlan
        ∈ (makeInfra allGood plainMachine 51 plainOpts { state := 0, steps := [] }).2.steps ∧
      ∃ opts' st nodes w worker0,
        readOptions plainMachine plainOpts 0 = (.ok opts', st) ∧
        ProvisionNodes allGood 51 opts' (requestedCount opts') { state := st, log := [] }
          = (some (nodes, none), w) ∧
        nodes.Worker.head? = some worker0 ∧
        plainPlan.Ingress = [worker0] ∧ plainPlan.Ingress.length = 1 ∧
        worker0 ∈ nodes.Worker ∧ worker0 ∈ plainPlan.Worker :=
  ⟨by decide, C19_single_ingress allGood plainMachine 51 plainOpts 0 plainPlan (by decide)⟩

/-! ## Deleting by tag -/

/-- The error that `DeleteDropletsByTag` returns is the one of the deletion of the
droplets, whatever becomes of the key. -/
theorem DeleteDropletsByTag_error {σ : Type} (p : Provider σ) (w : World σ)
    (token tag keyname : String) :
    (DeleteDropletsByTag p w token tag keyname).1 = (p.dropletsDeleteByTag w.state tag).1 := by
  unfold DeleteDropletsByTag
  rcases p.dropletsDeleteByTag w.state tag with ⟨errdel, st⟩
  dsimp only
  split <;> rfl

/-- An error of the deletion of the droplets is returned by `TerminateNodes`. -/
theorem TerminateNodes_droplet_error {σ : Type} (p : Provider σ) (opts : DOOpts) (w : World σ)
    (err : Error) (h : (p.dropletsDeleteByTag w.state opts.ClusterTag).1 = some err) :
    (TerminateNodes p opts w).1 = some err := by
  unfold TerminateNodes
  rw [DeleteDropletsByTag_error, h]

/-- C21, the defect: with the removal of the key asked for, `TerminateNodes` returns no
error when the droplets are deleted and the listing of the keys fails, and none when the
key is found and its deletion fails; in both runs the call that failed is in the log,
and `DeleteKeyByName` on its own returns the error. -/
theorem C21_key_error_swallowed :
    (TerminateNodes keysListFails removeKeyOpts { state := (), log := [] }).1 = none ∧
    (TerminateNodes keysListFails removeKeyOpts { state := (), log := [] }).2.log
      = [.dropletsDeleteByTag "apprenda" none, .keysList (.failed "unauthorized")] ∧
    (DeleteKeyByName keysListFails { state := (), log := [] } "token" SSHKEY).1
      = some "unauthorized" ∧
    (TerminateNodes keyDeleteFails removeKeyOpts { state := (), log := [] }).1 = none ∧
    (TerminateNodes keyDeleteFails removeKeyOpts { state := (), log := [] }).2.log
      = [.dropletsDeleteByTag "apprenda" none,
         .keysList (.ok [⟨7, "apprenda-key", "aa:bb"⟩]),
         .keysDeleteByFingerprint "aa:bb" (some "key is in use")] ∧
    (DeleteKeyByName keyDeleteFails { state := (), log := [] } "token" SSHKEY).1
      = some "key is in use" := by
  decide

/-! ## The identifier of a node -/

/-- The function `dropletToNode` copies the name and the addresses of the droplet and the
user of the options. -/
theorem dropletToNode_fields (drop : Droplet) (opts : DOOpts) :
    (dropletToNode drop opts).Host = drop.Name ∧
      (dropletToNode drop opts).PublicIPv4 = drop.PublicIP ∧
      (dropletToNode drop opts).PrivateIPv4 = drop.PrivateIP ∧
      (dropletToNode drop opts).SSHUser = opts.SSHUser :=
  ⟨rfl, rfl, rfl, rfl⟩

/-- The identifier of a node is the same for all droplets whose id is no code point. -/
theorem dropletToNode_large_id (drop : Droplet) (opts : DOOpts) (h : 1114112 ≤ drop.ID) :
    (dropletToNode drop opts).ID = "\uFFFD" := by
  unfold dropletToNode
  have hv : ¬ drop.ID.toNat.isValidChar := by
    unfold Nat.isValidChar
    omega
  simp only [hv, and_false, if_false]
  rfl

/-- C22, the defect: the droplets with the ids 3164444 and 3164445 give nodes with the same
identifier, the text of the character U+FFFD; so do the ids -1 and 55296. -/
theorem C22_distinct_ids_same_node_id :
    (dropletToNode { ID := 3164444, Name := "etcd1" } {}).ID = "\uFFFD" ∧
    (dropletToNode { ID := 3164445, Name := "etcd2" } {}).ID = "\uFFFD" ∧
    (dropletToNode { ID := 3164444, Name := "etcd1" } {}).ID
      = (dropletToNode { ID := 3164445, Name := "etcd2" } {}).ID ∧
    (dropletToNode { ID := -1 } {}).ID = (dropletToNode { ID := 55296 } {}).ID ∧
    (dropletToNode { ID := 65 } {}).ID = "A" := by
  decide

/-! ## Indexing the lists of the provisioned nodes -/

/-- The function `makePlan` panics only at `nodes.Boostrap[0]`. -/
theorem makePlan_panics {σ : Type} (mc : Machine σ) (fuel : Nat) (pln : Plan) (opts : DOOpts)
    (nodes : ProvisionedNodes) (r : Run σ)
    (h : (makePlan mc fuel pln opts nodes r).1 = .panicked) :
    opts.BootstrapNode = true ∧ nodes.Boostrap = [] := by
  unfold makePlan at h
  cases hp : mc.parseTemplate with
  | some err => rw [hp] at h; simp at h
  | none =>
    rw [hp] at h
    dsimp only at h
    rcases hu : makeUniqueFile mc fuel 0 r.state with _ | ⟨f | err, st⟩
    · rw [hu] at h; simp at h
    swap
    · rw [hu] at h; simp at h
    rw [hu] at h
    dsimp only at h
    rcases he : mc.execute st f pln with ⟨_ | err, st1⟩
    swap
    · rw [he] at h; simp at h
    rw [he] at h
    dsimp only at h
    by_cases hb : opts.BootstrapNode = true
    · rw [if_pos hb] at h
      cases hn : nodes.Boostrap with
      | nil => exact ⟨hb, rfl⟩
      | cons boot rest =>
        rw [hn] at h
        dsimp only at h
        split at h <;> simp at h
    · rw [if_neg hb] at h
      simp at h

/-- With room for 51 rounds the password generator returns. -/
theorem generateAlphaNumericPassword_returns {σ : Type} (mc : Machine σ) (fuel : Nat)
    (hfuel : 51 ≤ fuel) (r : Run σ) :
    ∃ pass, (generateAlphaNumericPassword mc fuel r).1 = some pass := by
  obtain ⟨pass, _, _, _, h, _⟩ := passwordLoop_returns mc fuel 0 r (by omega) (by omega)
  exact ⟨pass, h⟩

/-- The end of `makeInfra` with a plan asked for: it panics when the worker list or the
master list is empty, before `makePlan` is called, and otherwise only when `makePlan`
does. -/
theorem planInfra_panics {σ : Type} (mc : Machine σ) (fuel : Nat) (hfuel : 51 ≤ fuel)
    (opts : DOOpts) (nodes : ProvisionedNodes) (r : Run σ) (hnp : opts.NoPlan = false) :
    ((nodes.Worker = [] ∨ nodes.Master = []) →
      (planInfra mc fuel opts nodes r).1 = .panicked ∧
        ∀ s, s ∈ (planInfra mc fuel opts nodes r).2.steps → s ∈ r.steps ∨ s.isNewPassword = true) ∧
    (nodes.Worker ≠ [] → nodes.Master ≠ [] →
      (planInfra mc fuel opts nodes r).1 = .panicked →
        opts.BootstrapNode = true ∧ nodes.Boostrap = []) := by
  obtain ⟨pass, hpass⟩ := generateAlphaNumericPassword_returns mc fuel hfuel r
  obtain ⟨calls, hcalls, hall⟩ := passwordLoop_steps mc fuel 0 r
  unfold planInfra
  rw [if_neg (by simp [hnp])]
  rcases hg : generateAlphaNumericPassword mc fuel r with ⟨res, r2⟩
  rw [hg] at hpass
  dsimp only at hpass
  subst hpass
  unfold generateAlphaNumericPassword at hg
  rw [hg] at hcalls
  dsimp only at hcalls ⊢
  refine ⟨?_, ?_⟩
  · intro hempty
    have hsteps : ∀ s, s ∈ r2.steps → s ∈ r.steps ∨ s.isNewPassword = true := by
      intro s hs
      rw [hcalls] at hs
      rcases List.mem_append.1 hs with hs | hs
      · exact Or.inl hs
      · exact Or.inr (hall s hs)
    rcases hw : nodes.Worker with _ | ⟨worker0, wrest⟩
    · exact ⟨rfl, hsteps⟩
    · rcases hm : nodes.Master with _ | ⟨master0, mrest⟩
      · exact ⟨rfl, hsteps⟩
      · rcases hempty with he | he
        · rw [hw] at he; simp at he
        · rw [hm] at he; simp at he
  · intro hw hm
    rcases hw' : nodes.Worker with _ | ⟨worker0, wrest⟩
    · exact absurd hw' hw
    rcases hm' : nodes.Master with _ | ⟨master0, mrest⟩
    · exact absurd hm' hm
    dsimp only
    intro hp
    exact makePlan_panics mc fuel _ opts nodes r2 hp

/-- A run of `makeInfra` in which `WaitForSSH` has returned `nil` goes on as the end of
`makeInfra` does. -/
theorem makeInfra_reaches {σ : Type} (p : Provider σ) (mc : Machine σ) (fuel : Nat)
    (opts : DOOpts) (s : σ) (opts' : DOOpts) (st : σ) (nodes : ProvisionedNodes)
    (w : World σ) (r1 : Run σ)
    (hro : readOptions mc opts s = (.ok opts', st))
    (hpn : ProvisionNodes p fuel opts' (requestedCount opts') { state := st, log := [] }
      = (some (nodes, none), w))
    (hws : WaitForSSH mc nodes opts'.SSHPrivateKey
      { state := w.state, steps := w.log.map Step.provider } = (some none, r1)) :
    makeInfra p mc fuel opts { state := s, steps := [] } = planInfra mc fuel opts' nodes r1 := by
  unfold makeInfra
  dsimp only
  rw [hro]
  dsimp only
  rw [hpn]
  simp only [List.nil_append]
  rw [hws]

/-- C23: in a run of `makeInfra` with a plan asked for in which `ProvisionNodes` has
returned without error and `WaitForSSH` has returned `nil`, whatever the provider and the
machine do, the rest of the run does not panic if and only if the options ask for at
least one master and at least one worker node. The master and worker lists have as many
nodes as asked for, and the bootstrap list has one node when the bootstrap flag is set and
none otherwise, so `Boostrap[0]`, which is read only with the flag set, is in range; a
panic comes from `Worker[0]` or `Master[0]`, before `makePlan` is called. -/
theorem C23_index_in_range_iff {σ : Type} (p : Provider σ) (mc : Machine σ) (fuel : Nat)
    (hfuel : 51 ≤ fuel) (opts : DOOpts) (s : σ) (opts' : DOOpts) (st : σ)
    (nodes : ProvisionedNodes) (w : World σ) (r1 : Run σ)
    (hro : readOptions mc opts s = (.ok opts', st))
    (hpn : ProvisionNodes p fuel opts' (requestedCount opts') { state := st, log := [] }
      = (some (nodes, none), w))
    (hws : WaitForSSH mc nodes opts'.SSHPrivateKey
      { state := w.state, steps := w.log.map Step.provider } = (some none, r1))
    (hnp : opts.NoPlan = false) :
    ((makeInfra p mc fuel opts { state := s, steps := [] }).1 ≠ .panicked ↔
      (1 ≤ opts.MasterNodeCount ∧ 1 ≤ opts.WorkerNodeCount)) ∧
    (nodes.Master.length = opts.MasterNodeCount ∧ nodes.Worker.length = opts.WorkerNodeCount ∧
      nodes.Boostrap.length = if opts.BootstrapNode then 1 else 0) ∧
    ((makeInfra p mc fuel opts { state := s, steps := [] }).1 = .panicked →
      ∀ pln, Step.makePlan pln ∉ (makeInfra p mc fuel opts { state := s, steps := [] }).2.steps) := by
  obtain ⟨token, name, sshPrivate, sshPublic, ho⟩ := readOptions_ok mc opts opts' s st hro
  obtain ⟨_, l2, l3, l4, _⟩ := ProvisionNodes_returns p fuel opts' (requestedCount opts') st nodes
    (by rw [hpn])
  have hm : nodes.Master.length = opts.MasterNodeCount := by rw [l2, ho]; rfl
  have hw : nodes.Worker.length = opts.WorkerNodeCount := by rw [l3, ho]; rfl
  have hb : nodes.Boostrap.length = if opts.BootstrapNode then 1 else 0 := by rw [l4, ho]; rfl
  have hnp' : opts'.NoPlan = false := by rw [ho]; exact hnp
  have hbn : opts'.BootstrapNode = opts.BootstrapNode := by rw [ho]
  obtain ⟨hempty, hfull⟩ := planInfra_panics mc fuel hfuel opts' nodes r1 hnp'
  rw [makeInfra_reaches p mc fuel opts s opts' st nodes w r1 hro hpn hws]
  refine ⟨⟨?_, ?_⟩, ⟨hm, hw, hb⟩, ?_⟩
  · intro hno
    by_contra hlt
    have : nodes.Worker = [] ∨ nodes.Master = [] := by
      rcases Nat.lt_or_ge opts.MasterNodeCount 1 with h1 | h1
      · exact Or.inr (List.length_eq_zero.1 (by omega))
      · rcases Nat.lt_or_ge opts.WorkerNodeCount 1 with h2 | h2
        · exact Or.inl (List.length_eq_zero.1 (by omega))
        · exact absurd ⟨h1, h2⟩ hlt
    exact hno (hempty this).1
  · intro ⟨h1, h2⟩ hp
    have hwne : nodes.Worker ≠ [] := by
      intro he; rw [he] at hw; simp at hw; omega
    have hmne : nodes.Master ≠ [] := by
      intro he; rw [he] at hm; simp at hm; omega
    obtain ⟨hflag, hnone⟩ := hfull hwne hmne hp
    rw [hnone, ← hbn, if_pos hflag] at hb
    simp at hb
  · intro hp pln hmem
    have hwm : nodes.Worker = [] ∨ nodes.Master = [] := by
      by_contra hne
      simp only [not_or] at hne
      obtain ⟨hflag, hnone⟩ := hfull hne.1 hne.2 hp
      rw [hnone, ← hbn, if_pos hflag] at hb
      simp at hb
    rcases (hempty hwm).2 _ hmem with hin | hpw
    · obtain ⟨⟨waited, hwaited, hssh⟩, _⟩ := WaitForSSH_steps mc nodes opts'.SSHPrivateKey
        { state := w.state, steps := w.log.map Step.provider }
      rw [hws] at hwaited
      rw [hwaited] at hin
      rcases List.mem_append.1 hin with hin | hin
      · exact absurd (provider_not_makePlan _ _ hin).1 (by simp [Step.isMakePlan])
      · exact absurd (sshOpen_not_makePlan _ (hssh _ hin)) (by simp [Step.isMakePlan])
    · simp [Step.isNewPassword] at hpw

/-- Witness of C23: the runs on `allGood` and `plainMachine` without a worker node, which
panics, and with one node of each role, which does not. -/
theorem C23_index_in_range_iff_witness :
    (makeInfra allGood plainMachine 51 noWorkerOpts { state := 0, steps := [] }).1
        = .panicked ∧
      ((makeInfra allGood plainMachine 51 noWorkerOpts { state := 0, steps := [] }).1
          ≠ .panicked ↔
        (1 ≤ noWorkerOpts.MasterNodeCount ∧ 1 ≤ noWorkerOpts.WorkerNodeCount)) ∧
      (makeInfra allGood plainMachine 51 plainOpts { state := 0, steps := [] }).1
        = .returned none ∧
      ((makeInfra allGood plainMachine 51 plainOpts { state := 0, steps := [] }).1
          ≠ .panicked ↔
        (1 ≤ plainOpts.MasterNodeCount ∧ 1 ≤ plainOpts.WorkerNodeCount)) :=
  ⟨by decide,
    (C23_index_in_range_iff allGood plainMachine 51 (by decide) noWorkerOpts 0
      (keyedOpts noWorkerOpts) 0 noWorkerNodes { state := 2, log := noWorkerLog }
      { state := 2,
        steps := noWorkerLog.map Step.provider
          ++ sshSteps noWorkerNodes.allNodes "/keys/cluster.pem" }
      rfl rfl rfl rfl).1,
    by decide,
    (C23_index_in_range_iff allGood plainMachine 51 (by decide) plainOpts 0
      (keyedOpts plainOpts) 0 plainNodes { state := 3, log := plainLog }
      { state := 3,
        steps := plainLog.map Step.provider ++ sshSteps plainNodes.allNodes "/keys/cluster.pem" }
      rfl rfl rfl rfl).1⟩

end DigitalOcean
